import Mathlib

/-! # todo-service: order keys, idempotency cache and version guard

A shallow embedding of `main.go`.  Go strings are Lean strings; every order key
handled here is ASCII, so indexing a key by byte is indexing its characters.
`time.Time` values are instants (`Nat`), `uuidv4()` and `time.Now()` are inputs
of the handler that calls them, and a decoded JSON body is an `Option` (absent
when decoding fails).  The store's Go maps are association lists.  A Go `int` is an
integer and its arithmetic is reduced to 64 bits by `wrapInt`.
-/

namespace TodoService

/-! ## Strings -/

/-- Go's `<` on strings, on the symbol sequences: the first differing symbol
decides, a proper prefix is smaller. -/
def goLess : List Char → List Char → Bool
  | [], [] => false
  | [], _ :: _ => true
  | _ :: _, [] => false
  | a :: as, b :: bs => if a < b then true else if b < a then false else goLess as bs

/-- Go's `s < t` on strings. -/
def strLess (s t : String) : Bool := goLess s.data t.data

/-! ## LexoRank midpoint (main.go 146-174) -/

/-- The rune slice `lexoAlphabet`. -/
def lexoAlphabet : List Char := "0123456789abcdefghijklmnopqrstuvwxyz".data

/-- The map `a2i`, filled by ranging over `lexoAlphabet` with `m[ch] = i`; a rune that
is not a key reads as the zero value 0. -/
def a2i (ch : Char) : Nat :=
  (lexoAlphabet.enum.foldl (fun m p => fun c => if c = p.2 then p.1 else m c) (fun _ => 0)) ch

/-- The `for` loop of `lexoMid`, one iteration per unit of fuel: `i` is the position,
`out` the runes appended so far.  `none` only when the fuel runs out. -/
def lexoMidLoop (L R : List Char) : Nat → Nat → List Char → Option (List Char)
  | 0, _, _ => none
  | fuel + 1, i, out =>
    let l := if h : i < L.length then a2i (L.get ⟨i, h⟩) else 0
    let r := if h : i < R.length then a2i (R.get ⟨i, h⟩) else 35
    if l + 1 < r then
      let mid := (l + r) / 2
      some (out ++ [lexoAlphabet.getD mid '0'])
    else lexoMidLoop L R fuel (i + 1) (out ++ [lexoAlphabet.getD l '0'])

/-- The function `lexoMid(left, right *string) string`: a nil pointer is `none`.  The loop
is run with `max (len L) (len R) + 1` units of fuel, which `lexoMidLoop_isSome` shows
to be enough. -/
def lexoMid (left right : Option String) : String :=
  let L := (left.getD "").data
  let R := (right.getD "").data
  String.mk ((lexoMidLoop L R (max L.length R.length + 1) 0 []).getD [])

/-- The value of `l` at position `i` (main.go 164): the index of the symbol of the left
bound, 0 once the left bound is exhausted. -/
def leftIndex (L : List Char) (i : Nat) : Nat :=
  if h : i < L.length then a2i (L.get ⟨i, h⟩) else 0

/-- The value of `r` at position `i` (main.go 165): the index of the symbol of the right
bound, 35 once the right bound is exhausted or when it is absent. -/
def rightIndex (R : List Char) (i : Nat) : Nat :=
  if h : i < R.length then a2i (R.get ⟨i, h⟩) else 35

/-- A string over the 36-symbol alphabet `0-9a-z`. -/
def OverAlphabet (s : String) : Prop := ∀ c ∈ s.data, c ∈ lexoAlphabet

instance (s : String) : Decidable (OverAlphabet s) := by
  unfold OverAlphabet; infer_instance

/-- An OrderKey of the data model: a non-empty string over the alphabet. -/
def IsOrderKey (s : String) : Prop := s.data ≠ [] ∧ OverAlphabet s

instance (s : String) : Decidable (IsOrderKey s) := by
  unfold IsOrderKey; infer_instance

/-- The string `right` is `left` followed by `n` symbols `0`. -/
def ZeroExtension (left right : String) : Prop :=
  ∃ n : Nat, right.data = left.data ++ List.replicate n '0'

/-! ### The loop seen from the current position -/

/-- One pass of the loop over the suffixes of `L` and `R` that start at the current
position; returns the runes appended from here on. -/
def midFrom : Nat → List Char → List Char → Option (List Char)
  | 0, _, _ => none
  | fuel + 1, L, R =>
    let l := (L.head?.map a2i).getD 0
    let r := (R.head?.map a2i).getD 35
    if l + 1 < r then some [lexoAlphabet.getD ((l + r) / 2) '0']
    else (midFrom fuel L.tail R.tail).map (fun k => lexoAlphabet.getD l '0' :: k)

/-! ## Helpers (main.go 176-216) -/

/-- The predicate `unicode.IsSpace`, which `strings.TrimSpace` uses. -/
def isSpace (c : Char) : Bool :=
  let n := c.toNat
  n = 9 || n = 10 || n = 11 || n = 12 || n = 13 || n = 32 || n = 0x85 || n = 0xA0 ||
  n = 0x1680 || (0x2000 ≤ n && n ≤ 0x200a) || n = 0x2028 || n = 0x2029 || n = 0x202f ||
  n = 0x205f || n = 0x3000

/-- The function `strings.TrimSpace`. -/
def trimSpace (s : String) : String :=
  String.mk ((s.data.dropWhile isSpace).reverse.dropWhile isSpace).reverse

/-- The function `trimNonEmpty`: the trimmed string, absent when it is empty. -/
def trimNonEmpty (s : String) : Option String :=
  let t := trimSpace s
  if t = "" then none else some t

/-- An incoming request as the handlers read it: three headers (an absent header reads
as the empty string) and the JSON body, `none` when it does not decode. -/
structure Request (β : Type) where
  Authorization : String
  IdempotencyKey : String
  XRequestId : String
  Body : Option β

/-- The function `getUserID`. -/
def getUserID {β : Type} (r : Request β) : Except String String :=
  if "Bearer ".data.isPrefixOf r.Authorization.data then
    let token := trimSpace (String.mk (r.Authorization.data.drop 7))
    if token = "" then .error "invalid_token" else .ok token
  else .error "missing_bearer"

/-! ## Records and store (main.go 32-131) -/

/-- The JSON struct `Column`; the two time fields hold the instant whose RFC 3339
rendering the Go field carries. -/
structure Column where
  ID : String
  BoardID : String
  Name : String
  SortKey : String
  CreatedAt : Nat
  UpdatedAt : Nat
deriving DecidableEq, Repr

/-- The JSON struct `Card`. -/
structure Card where
  ID : String
  BoardID : String
  ColumnID : String
  Title : String
  Desc : Option String
  SortKey : String
  CreatedAt : Nat
  UpdatedAt : Nat
  Version : Int
deriving DecidableEq, Repr

structure UserSummary where
  ID : String
  DisplayName : String
  AvatarURL : Option String
deriving DecidableEq, Repr

structure Membership where
  BoardID : String
  UserID : String
  Role : String
  Status : String
  InvitedBy : String
  CreatedAt : String
  UpdatedAt : String
  User : Option UserSummary
deriving DecidableEq, Repr

structure Invitation where
  ID : String
  BoardID : String
  Email : Option String
  Role : String
  Status : String
  Token : String
deriving DecidableEq, Repr

structure BoardRec where
  ID : String
  Name : String
  Description : Option String
  Owner : String
  CreatedAt : Nat
  UpdatedAt : Nat
deriving DecidableEq, Repr

structure ColumnRec where
  ID : String
  BoardID : String
  Name : String
  SortKey : String
  CreatedAt : Nat
  UpdatedAt : Nat
deriving DecidableEq, Repr

/-! ### Go's `int`

`Version` and `expectedVersion` have the Go type `int`, 64 bits wide on the platforms the
service is built for.  An `int` is an integer from `minInt` to `maxInt`, and the sum of
two of them is the exact sum reduced to that range (two's complement). -/

/-- The constant `math.MinInt`. -/
def minInt : Int := -(2 ^ 63)

/-- The constant `math.MaxInt`. -/
def maxInt : Int := 2 ^ 63 - 1

/-- The `int` that Go computes where the exact result is `n`: `n` reduced modulo `2 ^ 64`
to the range from `minInt` to `maxInt`. -/
def wrapInt (n : Int) : Int := (n + 2 ^ 63) % 2 ^ 64 - 2 ^ 63

/-- The record `CardRec`.  `Version` is a Go `int`: a value from `minInt` to `maxInt`,
incremented with `wrapInt`. -/
structure CardRec where
  ID : String
  BoardID : String
  ColumnID : String
  Title : String
  Desc : Option String
  SortKey : String
  Version : Int
  CreatedAt : Nat
  UpdatedAt : Nat
deriving DecidableEq, Repr

/-- The values handed to the JSON encoder by the handlers modelled here. -/
inductive Payload where
  /-- The envelope built by `writeError`. -/
  | error (code message : String) (details : List (String × String)) (requestId : String)
  /-- The map literal returned for unresolved anchors inside `withIdempotency`. -/
  | invalidAnchors
  | column (c : Column)
  | card (c : Card)
  /-- The map with the single entry status: ok. -/
  | statusOk
  /-- The map with status: ok and the version. -/
  | moved (version : Int)
deriving DecidableEq, Repr

/-- A response body: the bytes of `json.Marshal(v)` or of `json.NewEncoder(w).Encode(v)`
(the same text followed by a newline). -/
inductive Bytes where
  | marshal (v : Payload)
  | encode (v : Payload)
deriving DecidableEq, Repr

structure CachedResponse where
  Status : Nat
  Body : Bytes
  CT : String
deriving DecidableEq, Repr

/-- What a handler writes to the `http.ResponseWriter`. -/
structure HttpResponse where
  Status : Nat
  ContentType : String
  XRequestId : String
  Body : Bytes
deriving DecidableEq, Repr

/-- The lookup `m[k]` of a Go map held as an association list. -/
def mapGet {V : Type} : List (String × V) → String → Option V
  | [], _ => none
  | (k1, v) :: m, k => if k1 = k then some v else mapGet m k

/-- The assignment `m[k] = v`: any entry under `k` is replaced. -/
def mapSet {V : Type} (m : List (String × V)) (k : String) (v : V) : List (String × V) :=
  (k, v) :: m.filter (fun p => !decide (p.1 = k))

/-- The struct `Store` without its mutex. -/
structure Store where
  boards : List (String × BoardRec)
  columns : List (String × ColumnRec)
  cards : List (String × CardRec)
  memberships : List (String × List (String × Membership))
  invitations : List (String × Invitation)
  idempo : List (String × CachedResponse)
deriving DecidableEq, Repr

/-- The content type every handler uses. -/
def ctJSON : String := "application/json; charset=utf-8"

/-- The function `writeJSON`. -/
def writeJSON {β : Type} (r : Request β) (status : Nat) (v : Payload) : HttpResponse :=
  { Status := status, ContentType := ctJSON, XRequestId := r.XRequestId, Body := .encode v }

/-- The function `writeError`. -/
def writeError {β : Type} (r : Request β) (status : Nat) (code message : String)
    (details : List (String × String)) : HttpResponse :=
  writeJSON r status (.error code message details r.XRequestId)

/-! ## Idempotency cache (main.go 218-252) -/

/-- The outcome of `withIdempotency`: the store, the response written, and how many
times the handler closure was called. -/
structure IdemResult where
  store : Store
  resp : HttpResponse
  calls : Nat

/-- The function `withIdempotency`; `handler` is the closure, a function of the store
it runs on. -/
def withIdempotency {β : Type} (s : Store) (r : Request β)
    (handler : Store → Store × Nat × Payload × String) : IdemResult :=
  let key := r.IdempotencyKey
  match (if key ≠ "" then mapGet s.idempo key else none) with
  | some c =>
    { store := s,
      resp := { Status := c.Status, ContentType := c.CT, XRequestId := r.XRequestId,
                Body := c.Body },
      calls := 0 }
  | none =>
    let (s1, status, body, ct0) := handler s
    let buf := Bytes.marshal body
    let ct := if ct0 = "" then ctJSON else ct0
    let c : CachedResponse := { Status := status, Body := buf, CT := ct }
    let s2 := if key ≠ "" then { s1 with idempo := mapSet s1.idempo key c } else s1
    { store := s2,
      resp := { Status := status, ContentType := ct, XRequestId := r.XRequestId, Body := buf },
      calls := 1 }

/-! ## Sorted sibling listings (main.go 254-287) -/

/-- The call `sort.Slice(xs, less)`: the elements in ascending order of `less`. -/
def sortSlice {α : Type} (less : α → α → Bool) (xs : List α) : List α :=
  xs.insertionSort (fun a b => less b a = false)

/-- The comparison closure of `listColumnsSorted`. -/
def colLess (a b : ColumnRec) : Bool :=
  if a.SortKey = b.SortKey then
    if a.CreatedAt = b.CreatedAt then strLess a.ID b.ID
    else decide (a.CreatedAt < b.CreatedAt)
  else strLess a.SortKey b.SortKey

/-- The comparison closure of `listCardsSorted`. -/
def cardLess (a b : CardRec) : Bool :=
  if a.SortKey = b.SortKey then
    if a.CreatedAt = b.CreatedAt then strLess a.ID b.ID
    else decide (a.CreatedAt < b.CreatedAt)
  else strLess a.SortKey b.SortKey

/-- The function `listColumnsSorted`. -/
def listColumnsSorted (s : Store) (boardID : String) : List ColumnRec :=
  sortSlice colLess ((s.columns.map Prod.snd).filter (fun c => decide (c.BoardID = boardID)))

/-- The function `listCardsSorted`. -/
def listCardsSorted (s : Store) (boardID columnID : String) : List CardRec :=
  sortSlice cardLess ((s.cards.map Prod.snd).filter
    (fun c => decide (c.BoardID = boardID ∧ c.ColumnID = columnID)))

/-! ## Anchors (main.go 405-414 and the block repeated in the four handlers) -/

/-- The function `anchorsToKeys`; the slice `ids` is not read. -/
def anchorsToKeys {T : Type} (_ids : List T) (idToKey : String → Option String)
    (beforeID afterID : Option String) : Except String (Option String × Option String) :=
  match beforeID with
  | some b =>
    match idToKey b with
    | none => .error "before_not_found"
    | some rk =>
      match afterID with
      | some a =>
        match idToKey a with
        | none => .error "after_not_found"
        | some lk => .ok (some lk, some rk)
      | none => .ok (none, some rk)
  | none =>
    match afterID with
    | some a =>
      match idToKey a with
      | none => .error "after_not_found"
      | some lk => .ok (some lk, none)
    | none => .ok (none, none)

/-- The closure `idToKey` of the handlers: the key of the first listed sibling with
the id. -/
def idToKey {T : Type} (ID key : T → String) (sibs : List T) (id : String) : Option String :=
  (sibs.find? (fun c => decide (ID c = id))).map key

/-- The bounds a handler passes to `lexoMid`, from the sorted sibling listing: without
anchors the key of the last sibling (if any) on the left, otherwise the keys that
`anchorsToKeys` resolves.  `handleCreateColumn` writes the two cases as two
consecutive `if`s with complementary conditions, the other handlers as `if`/`else`. -/
def insertBounds {T : Type} (ID key : T → String) (sibs : List T)
    (beforeID afterID : Option String) : Except String (Option String × Option String) :=
  if beforeID = none ∧ afterID = none then
    .ok ((sibs.getLast?).map key, none)
  else anchorsToKeys sibs (idToKey ID key sibs) beforeID afterID

/-! ## Permission check shared by the four handlers -/

/-- The role computed at the head of each handler: `admin` for the owner, else the
role of the membership entry, else the empty string. -/
def roleOf (s : Store) (b : BoardRec) (boardID uid : String) : String :=
  if b.Owner = uid then "admin"
  else
    match mapGet s.memberships boardID with
    | some m =>
      match mapGet m uid with
      | some mem => mem.Role
      | none => ""
    | none => ""

/-- The first checks of each mutating handler: authorization (401), board lookup
(404) and write role (403). -/
def authorize {β : Type} (s : Store) (r : Request β) (boardID : String) :
    Except HttpResponse Unit :=
  match getUserID r with
  | .error _ => .error (writeError r 401 "unauthorized" "Authorization required" [])
  | .ok uid =>
    match mapGet s.boards boardID with
    | none => .error (writeError r 404 "not_found" "Board not found" [])
    | some b =>
      let role := roleOf s b boardID uid
      if role = "reader" ∨ role = "" then
        .error (writeError r 403 "forbidden" "Insufficient permissions" [])
      else .ok ()

/-- The step `json.NewDecoder(r.Body).Decode(&req)` with its 400 answer. -/
def decodeBody {β : Type} (r : Request β) : Except HttpResponse β :=
  match r.Body with
  | none => .error (writeError r 400 "bad_request" "Invalid JSON" [])
  | some req => .ok req

/-! ## Columns (main.go 416-495) -/

structure CreateColumnReq where
  Name : String
  BeforeColumnID : Option String
  AfterColumnID : Option String
deriving DecidableEq, Repr

structure MoveColumnReq where
  BeforeColumnID : Option String
  AfterColumnID : Option String
deriving DecidableEq, Repr

/-- The part of `handleCreateColumn` before `withIdempotency`: the checks, the decoded
body and the trimmed name. -/
def createColumnChecks (s : Store) (r : Request CreateColumnReq) (boardID : String) :
    Except HttpResponse (CreateColumnReq × String) :=
  match authorize s r boardID with
  | .error e => .error e
  | .ok _ =>
    match decodeBody r with
    | .error e => .error e
    | .ok req =>
      match trimNonEmpty req.Name with
      | none => .error (writeError r 422 "validation_error" "name must be 1..80"
          [("name", "required_non_empty")])
      | some name =>
        if name.utf8ByteSize > 80 then
          .error (writeError r 422 "validation_error" "name must be 1..80"
            [("name", "required_non_empty")])
        else .ok (req, name)

/-- The closure that `handleCreateColumn` passes to `withIdempotency`; `id` is the
result of `uuidv4()` and `now` of `time.Now()`. -/
def createColumnOp (boardID : String) (req : CreateColumnReq) (name : String) (id : String)
    (now : Nat) (s : Store) : Store × Nat × Payload × String :=
  let cols := listColumnsSorted s boardID
  match insertBounds ColumnRec.ID ColumnRec.SortKey cols req.BeforeColumnID
      req.AfterColumnID with
  | .error _ => (s, 422, Payload.invalidAnchors, ctJSON)
  | .ok (left, right) =>
    let sk := lexoMid left right
    let cr : ColumnRec :=
      { ID := id, BoardID := boardID, Name := name, SortKey := sk, CreatedAt := now,
        UpdatedAt := now }
    let c : Column :=
      { ID := id, BoardID := boardID, Name := name, SortKey := sk, CreatedAt := now,
        UpdatedAt := now }
    ({ s with columns := mapSet s.columns id cr }, 201, Payload.column c, ctJSON)

/-- The handler `handleCreateColumn`. -/
def handleCreateColumn (s : Store) (r : Request CreateColumnReq) (boardID : String)
    (id : String) (now : Nat) : Store × HttpResponse :=
  match createColumnChecks s r boardID with
  | .error e => (s, e)
  | .ok (req, name) =>
    let res := withIdempotency s r (createColumnOp boardID req name id now)
    (res.store, res.resp)

/-- The handler `handleMoveColumn`; `now` is the result of `time.Now()`. -/
def handleMoveColumn (s : Store) (r : Request MoveColumnReq) (boardID columnID : String)
    (now : Nat) : Store × HttpResponse :=
  match authorize s r boardID with
  | .error e => (s, e)
  | .ok _ =>
    match decodeBody r with
    | .error e => (s, e)
    | .ok req =>
      let cols := listColumnsSorted s boardID
      match cols.find? (fun c => decide (c.ID = columnID)) with
      | none => (s, writeError r 404 "not_found" "Column not found" [])
      | some _ =>
        match insertBounds ColumnRec.ID ColumnRec.SortKey cols req.BeforeColumnID
            req.AfterColumnID with
        | .error _ => (s, writeError r 422 "validation_error" "Invalid anchors" [])
        | .ok (left, right) =>
          let sk := lexoMid left right
          let s1 :=
            match mapGet s.columns columnID with
            | some c =>
              let c1 : ColumnRec := { c with SortKey := sk, UpdatedAt := now }
              { s with columns := mapSet s.columns columnID c1 }
            | none => s
          (s1, writeJSON r 200 Payload.statusOk)

/-! ## Cards (main.go 497-582) -/

structure CreateCardReq where
  Title : String
  Description : Option String
  BeforeCardID : Option String
  AfterCardID : Option String
deriving DecidableEq, Repr

structure MoveCardReq where
  ToColumnID : Option String
  BeforeCardID : Option String
  AfterCardID : Option String
  ExpectedVer : Option Int
deriving DecidableEq, Repr

/-- The part of `handleCreateCard` before `withIdempotency`. -/
def createCardChecks (s : Store) (r : Request CreateCardReq) (boardID columnID : String) :
    Except HttpResponse (CreateCardReq × String) :=
  match authorize s r boardID with
  | .error e => .error e
  | .ok _ =>
    match mapGet s.columns columnID with
    | none => .error (writeError r 404 "not_found" "Column not found" [])
    | some col =>
      if col.BoardID ≠ boardID then
        .error (writeError r 404 "not_found" "Column not found" [])
      else
        match decodeBody r with
        | .error e => .error e
        | .ok req =>
          match trimNonEmpty req.Title with
          | none => .error (writeError r 422 "validation_error" "title must be 1..200"
              [("title", "required_non_empty")])
          | some title =>
            if title.utf8ByteSize > 200 then
              .error (writeError r 422 "validation_error" "title must be 1..200"
                [("title", "required_non_empty")])
            else .ok (req, title)

/-- The closure that `handleCreateCard` passes to `withIdempotency`. -/
def createCardOp (boardID columnID : String) (req : CreateCardReq) (title : String)
    (id : String) (now : Nat) (s : Store) : Store × Nat × Payload × String :=
  let cards := listCardsSorted s boardID columnID
  match insertBounds CardRec.ID CardRec.SortKey cards req.BeforeCardID req.AfterCardID with
  | .error _ => (s, 422, Payload.invalidAnchors, ctJSON)
  | .ok (left, right) =>
    let sk := lexoMid left right
    let rec1 : CardRec :=
      { ID := id, BoardID := boardID, ColumnID := columnID, Title := title,
        Desc := req.Description, SortKey := sk, Version := 0, CreatedAt := now,
        UpdatedAt := now }
    let out : Card :=
      { ID := id, BoardID := boardID, ColumnID := columnID, Title := title,
        Desc := req.Description, SortKey := sk, CreatedAt := now, UpdatedAt := now,
        Version := 0 }
    ({ s with cards := mapSet s.cards id rec1 }, 201, Payload.card out, ctJSON)

/-- The part of the create-card closure after `listCardsSorted` has returned `cards`
(main.go 520-534): the bounds, the key and the insert under `store.mu.Lock()`, into the
store as it is when the lock is taken. -/
def createCardAfterSnapshot (cards : List CardRec) (boardID columnID : String)
    (req : CreateCardReq) (title : String) (id : String) (now : Nat) (s : Store) :
    Store × Nat × Payload × String :=
  match insertBounds CardRec.ID CardRec.SortKey cards req.BeforeCardID req.AfterCardID with
  | .error _ => (s, 422, Payload.invalidAnchors, ctJSON)
  | .ok (left, right) =>
    let sk := lexoMid left right
    let rec1 : CardRec :=
      { ID := id, BoardID := boardID, ColumnID := columnID, Title := title,
        Desc := req.Description, SortKey := sk, Version := 0, CreatedAt := now,
        UpdatedAt := now }
    let out : Card :=
      { ID := id, BoardID := boardID, ColumnID := columnID, Title := title,
        Desc := req.Description, SortKey := sk, CreatedAt := now, UpdatedAt := now,
        Version := 0 }
    ({ s with cards := mapSet s.cards id rec1 }, 201, Payload.card out, ctJSON)

/-- One call of the create-card closure: the variables it captures and the values that
`uuidv4()` and `time.Now()` give it. -/
structure CardCall where
  boardID : String
  columnID : String
  req : CreateCardReq
  title : String
  id : String
  now : Nat
deriving DecidableEq, Repr

/-- Where a call of the create-card closure stands.  The closure reads the store under
`store.mu.RLock()` inside `listCardsSorted` (main.go 273-278) and writes it under
`store.mu.Lock()` (main.go 532); the mutex is free in between, so the call is two lock
regions: `start` is before the first, `snapped` between the two with the listing held
in the local `cards`, `returned` after the second. -/
inductive CardRun where
  | start
  | snapped (cards : List CardRec)
  | returned (status : Nat) (body : Payload)
deriving DecidableEq, Repr

/-- The next lock region of a call, on the shared store. -/
def CardCall.step (c : CardCall) (p : CardRun) (s : Store) : CardRun × Store :=
  match p with
  | .start => (.snapped (listCardsSorted s c.boardID c.columnID), s)
  | .snapped cards =>
    let res := createCardAfterSnapshot cards c.boardID c.columnID c.req c.title c.id c.now s
    (.returned res.2.1 res.2.2.1, res.1)
  | .returned status body => (.returned status body, s)

/-- Two calls of the create-card closure on the shared store, by a schedule: each entry
of the schedule lets the first call (`true`) or the second (`false`) run its next lock
region.  The state is the position of each call and the store. -/
def interleave (c1 c2 : CardCall) :
    List Bool → CardRun × CardRun × Store → CardRun × CardRun × Store
  | [], st => st
  | true :: rest, (p1, p2, s) =>
    interleave c1 c2 rest ((c1.step p1 s).1, p2, (c1.step p1 s).2)
  | false :: rest, (p1, p2, s) =>
    interleave c1 c2 rest (p1, (c2.step p2 s).1, (c2.step p2 s).2)

/-- The handler `handleCreateCard`. -/
def handleCreateCard (s : Store) (r : Request CreateCardReq) (boardID columnID : String)
    (id : String) (now : Nat) : Store × HttpResponse :=
  match createCardChecks s r boardID columnID with
  | .error e => (s, e)
  | .ok (req, title) =>
    let res := withIdempotency s r (createCardOp boardID columnID req title id now)
    (res.store, res.resp)

/-- The handler `handleMoveCard`; `now` is the result of `time.Now()`. -/
def handleMoveCard (s : Store) (r : Request MoveCardReq) (boardID cardID : String)
    (now : Nat) : Store × HttpResponse :=
  match authorize s r boardID with
  | .error e => (s, e)
  | .ok _ =>
    match decodeBody r with
    | .error e => (s, e)
    | .ok req =>
      match mapGet s.cards cardID with
      | none => (s, writeError r 404 "not_found" "Card not found" [])
      | some rec1 =>
        if rec1.BoardID ≠ boardID then
          (s, writeError r 404 "not_found" "Card not found" [])
        else if req.ExpectedVer.isSome ∧ req.ExpectedVer ≠ some rec1.Version then
          (s, writeError r 412 "precondition_failed" "Stale version" [])
        else
          let targetCol := req.ToColumnID.getD rec1.ColumnID
          match mapGet s.columns targetCol with
          | none => (s, writeError r 422 "invalid_move" "Target column not found" [])
          | some tc =>
            if tc.BoardID ≠ rec1.BoardID then
              (s, writeError r 409 "invalid_move"
                "Card can be moved only within the same board." [])
            else
              let cards := listCardsSorted s boardID targetCol
              match insertBounds CardRec.ID CardRec.SortKey cards req.BeforeCardID
                  req.AfterCardID with
              | .error _ => (s, writeError r 422 "validation_error" "Invalid anchors" [])
              | .ok (left, right) =>
                let sk := lexoMid left right
                let rec2 : CardRec :=
                  { rec1 with
                    ColumnID := if req.ToColumnID.isSome then targetCol else rec1.ColumnID,
                    SortKey := sk, Version := wrapInt (rec1.Version + 1), UpdatedAt := now }
                ({ s with cards := mapSet s.cards cardID rec2 },
                  writeJSON r 200 (Payload.moved rec2.Version))

/-! ## Reachable stores -/

/-- A key as `lexoMid` generates it: over the alphabet, with a last symbol other
than `0`. -/
def GenKey (s : String) : Prop :=
  OverAlphabet s ∧ ∃ c, s.data.getLast? = some c ∧ c ≠ '0'

/-- The bounds are neighbours in the listing: the left bound is below the right bound
when both are present, and no sibling key lies strictly between them (an absent bound
is unbounded). -/
def BoundsAdjacent (keys : List String) (b : Option String × Option String) : Prop :=
  (∀ l r, b.1 = some l → b.2 = some r → strLess l r = true) ∧
  ∀ k ∈ keys, ¬ ((∀ l, b.1 = some l → strLess l k = true) ∧
    (∀ r, b.2 = some r → strLess k r = true))

/-- The anchors of a request name neighbouring siblings of the listing `sibs`: if they
resolve, the resolved bounds are adjacent. -/
def AnchorsAdjacent {T : Type} (ID key : T → String) (sibs : List T)
    (beforeID afterID : Option String) : Prop :=
  ∀ b, insertBounds ID key sibs beforeID afterID = .ok b → BoundsAdjacent (sibs.map key) b

/-- One sequentially handled request of the four mutating operations, with no
restriction on its anchors.  The id drawn by `uuidv4()` is not in use. -/
inductive Step : Store → Store → Prop where
  | createColumn (s : Store) (r : Request CreateColumnReq) (boardID id : String) (now : Nat) :
      mapGet s.columns id = none → Step s (handleCreateColumn s r boardID id now).1
  | moveColumn (s : Store) (r : Request MoveColumnReq) (boardID columnID : String) (now : Nat) :
      Step s (handleMoveColumn s r boardID columnID now).1
  | createCard (s : Store) (r : Request CreateCardReq) (boardID columnID id : String)
      (now : Nat) :
      mapGet s.cards id = none → Step s (handleCreateCard s r boardID columnID id now).1
  | moveCard (s : Store) (r : Request MoveCardReq) (boardID cardID : String) (now : Nat) :
      Step s (handleMoveCard s r boardID cardID now).1

/-- The stores reached from a store without columns and cards by handling requests
one after the other. -/
inductive Reachable : Store → Prop where
  | init (s : Store) : s.columns = [] → s.cards = [] → Reachable s
  | step (s t : Store) : Reachable s → Step s t → Reachable t

/-- One sequentially handled request whose anchors, when it carries any, name
neighbouring siblings of the sorted listing of the target scope. -/
inductive AdjStep : Store → Store → Prop where
  | createColumn (s : Store) (r : Request CreateColumnReq) (boardID id : String) (now : Nat) :
      mapGet s.columns id = none →
      (∀ req, r.Body = some req →
        AnchorsAdjacent ColumnRec.ID ColumnRec.SortKey (listColumnsSorted s boardID)
          req.BeforeColumnID req.AfterColumnID) →
      AdjStep s (handleCreateColumn s r boardID id now).1
  | moveColumn (s : Store) (r : Request MoveColumnReq) (boardID columnID : String) (now : Nat) :
      (∀ req, r.Body = some req →
        AnchorsAdjacent ColumnRec.ID ColumnRec.SortKey (listColumnsSorted s boardID)
          req.BeforeColumnID req.AfterColumnID) →
      AdjStep s (handleMoveColumn s r boardID columnID now).1
  | createCard (s : Store) (r : Request CreateCardReq) (boardID columnID id : String)
      (now : Nat) :
      mapGet s.cards id = none →
      (∀ req, r.Body = some req →
        AnchorsAdjacent CardRec.ID CardRec.SortKey (listCardsSorted s boardID columnID)
          req.BeforeCardID req.AfterCardID) →
      AdjStep s (handleCreateCard s r boardID columnID id now).1
  | moveCard (s : Store) (r : Request MoveCardReq) (boardID cardID : String) (now : Nat) :
      (∀ req rec1, r.Body = some req → mapGet s.cards cardID = some rec1 →
        AnchorsAdjacent CardRec.ID CardRec.SortKey
          (listCardsSorted s boardID (req.ToColumnID.getD rec1.ColumnID))
          req.BeforeCardID req.AfterCardID) →
      AdjStep s (handleMoveCard s r boardID cardID now).1

/-- The stores reached from a store without columns and cards through `AdjStep`. -/
inductive AdjReachable : Store → Prop where
  | init (s : Store) : s.columns = [] → s.cards = [] → AdjReachable s
  | step (s t : Store) : AdjReachable s → AdjStep s t → AdjReachable t

/-- Sibling keys are pairwise distinct: two columns of one board, and two cards of one
column, never carry the same SortKey. -/
def SiblingKeysDistinct (s : Store) : Prop :=
  (∀ k1 c1 k2 c2, mapGet s.columns k1 = some c1 → mapGet s.columns k2 = some c2 → k1 ≠ k2 →
    c1.BoardID = c2.BoardID → c1.SortKey ≠ c2.SortKey) ∧
  (∀ k1 c1 k2 c2, mapGet s.cards k1 = some c1 → mapGet s.cards k2 = some c2 → k1 ≠ k2 →
    c1.ColumnID = c2.ColumnID → c1.SortKey ≠ c2.SortKey)

/-- What every reachable store satisfies: records sit under their own id, ids are not
repeated, every key is a generated key, every card lies in a column of its board. -/
structure WellFormed (s : Store) : Prop where
  colKeys : (s.columns.map Prod.fst).Nodup
  cardKeys : (s.cards.map Prod.fst).Nodup
  colRec : ∀ k c, (k, c) ∈ s.columns → c.ID = k ∧ GenKey c.SortKey
  cardRec : ∀ k c, (k, c) ∈ s.cards → c.ID = k ∧ GenKey c.SortKey ∧
    ∃ col, mapGet s.columns c.ColumnID = some col ∧ col.BoardID = c.BoardID

/-- The sibling ordering rule in words: the triple (SortKey, CreatedAt, ID) of the first
record comes strictly before that of the second, comparing the SortKey
lexicographically, then the creation time (earlier first), then the ID
lexicographically. -/
def TripleBefore (k1 : String) (t1 : Nat) (i1 : String) (k2 : String) (t2 : Nat)
    (i2 : String) : Prop :=
  strLess k1 k2 = true ∨ (k1 = k2 ∧ (t1 < t2 ∨ (t1 = t2 ∧ strLess i1 i2 = true)))

/-- The sibling ordering rule on columns. -/
def ColumnBefore (a b : ColumnRec) : Prop :=
  TripleBefore a.SortKey a.CreatedAt a.ID b.SortKey b.CreatedAt b.ID

/-- The sibling ordering rule on cards. -/
def CardBefore (a b : CardRec) : Prop :=
  TripleBefore a.SortKey a.CreatedAt a.ID b.SortKey b.CreatedAt b.ID

/-- The columns of a board as the store holds them, in the order of enumeration. -/
def columnsOf (s : Store) (boardID : String) : List ColumnRec :=
  (s.columns.map Prod.snd).filter (fun c => decide (c.BoardID = boardID))

/-- The cards of a board and column as the store holds them, in the order of
enumeration. -/
def cardsOf (s : Store) (boardID columnID : String) : List CardRec :=
  (s.cards.map Prod.snd).filter (fun c => decide (c.BoardID = boardID ∧ c.ColumnID = columnID))

/-- The columns map is a map from each column's own id: no key is repeated and every
record sits under its `ID`, as every write `store.columns[id] = cr` has it. -/
def ColumnsUnderOwnId (s : Store) : Prop :=
  (s.columns.map Prod.fst).Nodup ∧ ∀ k c, (k, c) ∈ s.columns → c.ID = k

/-- A supplied anchor is not the id of any sibling of the listing `sibs`. -/
def AnchorMissing {T : Type} (ID : T → String) (sibs : List T)
    (beforeID afterID : Option String) : Prop :=
  (∃ b, beforeID = some b ∧ ∀ x ∈ sibs, ID x ≠ b) ∨
  (∃ a, afterID = some a ∧ ∀ x ∈ sibs, ID x ≠ a)

/-- One sequentially handled request of the four mutating operations, whatever it
carries. -/
inductive Handled : Store → Store → Prop where
  | createColumn (s : Store) (r : Request CreateColumnReq) (boardID id : String) (now : Nat) :
      Handled s (handleCreateColumn s r boardID id now).1
  | moveColumn (s : Store) (r : Request MoveColumnReq) (boardID columnID : String) (now : Nat) :
      Handled s (handleMoveColumn s r boardID columnID now).1
  | createCard (s : Store) (r : Request CreateCardReq) (boardID columnID id : String)
      (now : Nat) :
      Handled s (handleCreateCard s r boardID columnID id now).1
  | moveCard (s : Store) (r : Request MoveCardReq) (boardID cardID : String) (now : Nat) :
      Handled s (handleMoveCard s r boardID cardID now).1

/-! ## Repeated insertion at one end -/

/-- The keys of repeated insertion at the end of a list that starts empty: the first
key is `lexoMid(nil, nil)`, each further one `lexoMid(previous, nil)`. -/
def endKeys : Nat → String
  | 0 => lexoMid none none
  | n + 1 => lexoMid (some (endKeys n)) none

/-- The keys of repeated insertion at the start of a list that starts empty: the first
key is `lexoMid(nil, nil)`, each further one `lexoMid(nil, previous)`. -/
def startKeys : Nat → String
  | 0 => lexoMid none none
  | n + 1 => lexoMid none (some (startKeys n))

/-! ## Example stores and requests -/

/-- A store with one board `b1` owned by `u1` and nothing else. -/
def store0 : Store :=
  let b : BoardRec :=
    { ID := "b1", Name := "Board", Description := none, Owner := "u1", CreatedAt := 0,
      UpdatedAt := 0 }
  { boards := [("b1", b)], columns := [], cards := [], memberships := [("b1", [])],
    invitations := [], idempo := [] }

/-- A create-column request by the owner `u1`. -/
def ccReq (name : String) (before after : Option String) (key : String) :
    Request CreateColumnReq :=
  { Authorization := "Bearer u1", IdempotencyKey := key, XRequestId := "",
    Body := some { Name := name, BeforeColumnID := before, AfterColumnID := after } }

/-- A create-card request by the owner `u1`. -/
def cardReq (title : String) (before after : Option String) (key : String) :
    Request CreateCardReq :=
  { Authorization := "Bearer u1", IdempotencyKey := key, XRequestId := "",
    Body := some { Title := title, Description := none, BeforeCardID := before,
                   AfterCardID := after } }

/-- A move-card request by the owner `u1`. -/
def mcReq (toCol before after : Option String) (ver : Option Int) (key : String) :
    Request MoveCardReq :=
  { Authorization := "Bearer u1", IdempotencyKey := key, XRequestId := "",
    Body := some { ToColumnID := toCol, BeforeCardID := before, AfterCardID := after,
                   ExpectedVer := ver } }

/-- A move-column request by the owner `u1`. -/
def mvReq (before after : Option String) (key : String) : Request MoveColumnReq :=
  { Authorization := "Bearer u1", IdempotencyKey := key, XRequestId := "",
    Body := some { BeforeColumnID := before, AfterColumnID := after } }

/-- The store after creating column `A` on board `b1`: the column has no cards. -/
def storeA : Store :=
  (handleCreateColumn store0 (ccReq "A" none none "") "b1" "A" 1).1

/-- The closure call of a create-card request for the end of column `A` of board `b1`. -/
def endCall (title id : String) (now : Nat) : CardCall :=
  { boardID := "b1", columnID := "A",
    req := { Title := title, Description := none, BeforeCardID := none, AfterCardID := none },
    title := title, id := id, now := now }

/-- The store after creating column `A` on board `b1` and card `X` in it. -/
def store1 : Store :=
  (handleCreateCard (handleCreateColumn store0 (ccReq "A" none none "") "b1" "A" 1).1
    (cardReq "X" none none "") "b1" "A" "X" 2).1

/-- The store `store1` with the version of card `X` set to `maxInt`. -/
def storeMaxVersion : Store :=
  { store1 with cards := [("X", CardRec.mk "X" "b1" "A" "X" none "h" maxInt 2 2)] }

/-- The store after creating column `A` at the end and then `B` with insertAfter `A`. -/
def storeAB : Store :=
  (handleCreateColumn (handleCreateColumn store0 (ccReq "A" none none "") "b1" "A" 1).1
    (ccReq "B" none (some "A") "") "b1" "B" 2).1

/-- The column scenario on board `boardID`: create-column with `rA` (id `idA`), with
`rB` (id `idB`), with `rC` (id `idC`), then move-column of `idA` with `rM`.  Returns the
store after the three creations and the store after the move. -/
def columnScenario (s : Store) (rA rB rC : Request CreateColumnReq) (rM : Request MoveColumnReq)
    (boardID idA idB idC : String) (t1 t2 t3 t4 : Nat) : Store × Store :=
  let s1 := (handleCreateColumn s rA boardID idA t1).1
  let s2 := (handleCreateColumn s1 rB boardID idB t2).1
  let s3 := (handleCreateColumn s2 rC boardID idC t3).1
  (s3, (handleMoveColumn s3 rM boardID idA t4).1)

/-- The store after creating column `A` at the end, then `B` after `A`, then `C`
after `A`. -/
def storeABC : Store :=
  let s1 := (handleCreateColumn store0 (ccReq "A" none none "") "b1" "A" 1).1
  let s2 := (handleCreateColumn s1 (ccReq "B" none (some "A") "") "b1" "B" 2).1
  (handleCreateColumn s2 (ccReq "C" none (some "A") "") "b1" "C" 3).1

/-! ## Theorems -/

theorem goLess_iff_lt (a b : List Char) : goLess a b = true ↔ a < b := by
  induction a generalizing b with
  | nil =>
    cases b with
    | nil => simp [goLess]
    | cons d bs => simp [goLess, List.nil_lt_cons]
  | cons c as ih =>
    cases b with
    | nil =>
      simp only [goLess, Bool.false_eq_true, false_iff]
      intro h
      cases h
    | cons d bs =>
      simp only [goLess]
      rcases lt_trichotomy c d with h | h | h
      · simp only [h, if_true, true_iff]
        exact List.Lex.rel h
      · subst h
        simp only [lt_irrefl, if_false, ih]
        exact (List.Lex.cons_iff).symm
      · have h2 : ¬ c < d := not_lt_of_gt h
        simp only [h2, h, if_false, if_true, Bool.false_eq_true, false_iff]
        intro hl
        cases hl with
        | cons hh => exact lt_irrefl _ h
        | rel hh => exact h2 hh

theorem a2i_lt_of_mem : ∀ c ∈ lexoAlphabet, a2i c < 36 := by decide

theorem alphabet_a2i : ∀ c ∈ lexoAlphabet, lexoAlphabet.getD (a2i c) '0' = c := by decide

theorem a2i_alphabet : ∀ m, m < 36 → a2i (lexoAlphabet.getD m '0') = m := by decide

theorem alphabet_getD_mem : ∀ m, m < 36 → lexoAlphabet.getD m '0' ∈ lexoAlphabet := by decide

theorem a2i_lt_iff : ∀ c ∈ lexoAlphabet, ∀ d ∈ lexoAlphabet, (c < d ↔ a2i c < a2i d) := by
  decide

theorem a2i_eq_zero : ∀ c ∈ lexoAlphabet, a2i c = 0 → c = '0' := by decide

theorem a2i_eq_one : ∀ c ∈ lexoAlphabet, a2i c = 1 → c = '1' := by decide

/-- The loop started at position `i` appends to `out` what `midFrom` returns on the
suffixes from `i`. -/
theorem lexoMidLoop_eq_midFrom (L R : List Char) (fuel i : Nat) (out : List Char) :
    lexoMidLoop L R fuel i out = (midFrom fuel (L.drop i) (R.drop i)).map (fun k => out ++ k) := by
  induction fuel generalizing i out with
  | zero => simp [lexoMidLoop, midFrom]
  | succ n ih =>
    have hl : (if h : i < L.length then a2i (L.get ⟨i, h⟩) else 0)
        = (((L.drop i).head?).map a2i).getD 0 := by
      by_cases h : i < L.length
      · simp [h, List.head?_drop, List.getElem?_eq_getElem]
      · simp [h, List.drop_eq_nil_of_le (Nat.le_of_not_lt h)]
    have hr : (if h : i < R.length then a2i (R.get ⟨i, h⟩) else 35)
        = (((R.drop i).head?).map a2i).getD 35 := by
      by_cases h : i < R.length
      · simp [h, List.head?_drop, List.getElem?_eq_getElem]
      · simp [h, List.drop_eq_nil_of_le (Nat.le_of_not_lt h)]
    simp only [lexoMidLoop, midFrom, hl, hr]
    split
    · simp
    · rw [ih]
      simp [List.tail_drop, Option.map_map, Function.comp_def]

theorem goLess_cons_self (c : Char) (a b : List Char) :
    goLess (c :: a) (c :: b) = goLess a b := by
  simp [goLess]

theorem goLess_cons_of_lt {c d : Char} (h : c < d) (a b : List Char) :
    goLess (c :: a) (d :: b) = true := by
  simp [goLess, h]

theorem goLess_nil_right (a : List Char) : goLess a [] = false := by
  cases a <;> rfl

theorem goLess_irrefl (a : List Char) : goLess a a = false := by
  induction a with
  | nil => rfl
  | cons c a ih => rw [goLess_cons_self, ih]

/-- Enough fuel: the loop returns within `max (len L) (len R) + 1` iterations. -/
theorem midFrom_isSome (fuel : Nat) (L R : List Char) (h : max L.length R.length < fuel) :
    ∃ K, midFrom fuel L R = some K := by
  induction fuel generalizing L R with
  | zero => omega
  | succ n ih =>
    simp only [midFrom]
    split
    · exact ⟨_, rfl⟩
    · rename_i hlr
      have hlen : max L.tail.length R.tail.length < n := by
        cases L with
        | nil =>
          cases R with
          | nil => simp at hlr
          | cons d R => simp at h ⊢; omega
        | cons c L =>
          cases R with
          | nil => simp at h ⊢; omega
          | cons d R => simp at h ⊢; omega
      obtain ⟨K, hK⟩ := ih L.tail R.tail hlen
      exact ⟨_, by rw [hK]; rfl⟩

/-- The returned runes are never the empty sequence. -/
theorem midFrom_ne_nil (fuel : Nat) (L R K : List Char) (h : midFrom fuel L R = some K) :
    K ≠ [] := by
  cases fuel with
  | zero => simp [midFrom] at h
  | succ n =>
    simp only [midFrom] at h
    split at h
    · cases h; simp
    · cases hm : midFrom n L.tail R.tail with
      | none => simp [hm] at h
      | some K1 => simp [hm] at h; subst h; simp

/-- The result is above the left bound, whatever the right bound is. -/
theorem midFrom_gt (fuel : Nat) (L R K : List Char)
    (hL : ∀ c ∈ L, c ∈ lexoAlphabet) (hR : ∀ c ∈ R, c ∈ lexoAlphabet)
    (h : midFrom fuel L R = some K) : goLess L K = true := by
  induction fuel generalizing L R K with
  | zero => simp [midFrom] at h
  | succ n ih =>
    cases L with
    | nil =>
      have hne := midFrom_ne_nil _ _ _ _ h
      cases K with
      | nil => exact absurd rfl hne
      | cons k K => rfl
    | cons c L =>
      have hc : c ∈ lexoAlphabet := hL c (List.mem_cons_self _ _)
      have hr35 : (R.head?.map a2i).getD 35 < 36 := by
        cases R with
        | nil => simp
        | cons d R => simpa using a2i_lt_of_mem d (hR d (List.mem_cons_self _ _))
      simp only [midFrom, List.head?_cons, Option.map_some', Option.getD_some,
        List.tail_cons] at h
      split at h
      · rename_i hlr
        cases h
        have hm : (a2i c + (R.head?.map a2i).getD 35) / 2 < 36 := by omega
        apply goLess_cons_of_lt
        rw [a2i_lt_iff c hc _ (alphabet_getD_mem _ hm), a2i_alphabet _ hm]
        omega
      · cases hm : midFrom n L R.tail with
        | none => simp [hm] at h
        | some K1 =>
          simp only [hm, Option.map_some', Option.some.injEq] at h
          subst h
          rw [alphabet_a2i c hc, goLess_cons_self]
          exact ih L R.tail K1 (fun x hx => hL x (List.mem_cons_of_mem _ hx))
            (fun x hx => hR x (List.mem_of_mem_tail hx)) hm

/-- The result is below the right bound, unless the right bound is the left bound
followed by symbols `0` only. -/
theorem midFrom_lt (fuel : Nat) (L R K : List Char)
    (hL : ∀ c ∈ L, c ∈ lexoAlphabet) (hR : ∀ c ∈ R, c ∈ lexoAlphabet)
    (hlt : goLess L R = true) (hz : ¬ ∃ n : Nat, R = L ++ List.replicate n '0')
    (h : midFrom fuel L R = some K) : goLess K R = true := by
  induction fuel generalizing L R K with
  | zero => simp [midFrom] at h
  | succ n ih =>
    cases R with
    | nil => rw [goLess_nil_right] at hlt; cases hlt
    | cons d R =>
      have hd : d ∈ lexoAlphabet := hR d (List.mem_cons_self _ _)
      have hd36 := a2i_lt_of_mem d hd
      have hR1 : ∀ x ∈ R, x ∈ lexoAlphabet := fun x hx => hR x (List.mem_cons_of_mem _ hx)
      cases L with
      | nil =>
        simp only [midFrom, List.head?_cons, List.head?_nil, Option.map_some', Option.map_none',
          Option.getD_some, Option.getD_none, List.tail_cons, List.tail_nil] at h
        split at h
        · cases h
          have hm : (0 + a2i d) / 2 < 36 := by omega
          apply goLess_cons_of_lt
          rw [a2i_lt_iff _ (alphabet_getD_mem _ hm) d hd, a2i_alphabet _ hm]
          omega
        · rename_i hlr
          cases hm : midFrom n [] R with
          | none => simp [hm] at h
          | some K1 =>
            simp only [hm, Option.map_some', Option.some.injEq] at h
            subst h
            have h0 : lexoAlphabet.getD 0 '0' = '0' := by decide
            rw [h0]
            by_cases hd0 : a2i d = 0
            · have : d = '0' := a2i_eq_zero d hd hd0
              subst this
              rw [goLess_cons_self]
              have hz1 : ¬ ∃ n : Nat, R = [] ++ List.replicate n '0' := by
                rintro ⟨m, hm1⟩
                exact hz ⟨m + 1, by simp [hm1, List.replicate_succ]⟩
              have hne : goLess [] R = true := by
                cases R with
                | nil => exact absurd ⟨0, rfl⟩ hz1
                | cons e R => rfl
              exact ih [] R K1 (by simp) hR1 hne hz1 hm
            · have hd1 : a2i d = 1 := by omega
              have : d = '1' := a2i_eq_one d hd hd1
              subst this
              exact goLess_cons_of_lt (by decide) _ _
      | cons c L =>
        have hc : c ∈ lexoAlphabet := hL c (List.mem_cons_self _ _)
        have hL1 : ∀ x ∈ L, x ∈ lexoAlphabet := fun x hx => hL x (List.mem_cons_of_mem _ hx)
        simp only [midFrom, List.head?_cons, Option.map_some', Option.getD_some,
          List.tail_cons] at h
        split at h
        · cases h
          have hm : (a2i c + a2i d) / 2 < 36 := by omega
          apply goLess_cons_of_lt
          rw [a2i_lt_iff _ (alphabet_getD_mem _ hm) d hd, a2i_alphabet _ hm]
          omega
        · cases hm : midFrom n L R with
          | none => simp [hm] at h
          | some K1 =>
            simp only [hm, Option.map_some', Option.some.injEq] at h
            subst h
            rw [alphabet_a2i c hc]
            by_cases hcd : c < d
            · exact goLess_cons_of_lt hcd _ _
            · have hdc : ¬ d < c := by
                intro hdc
                simp [goLess, hcd, hdc] at hlt
              have hE : c = d := le_antisymm (not_lt.mp hdc) (not_lt.mp hcd)
              subst hE
              rw [goLess_cons_self] at hlt ⊢
              have hz1 : ¬ ∃ n : Nat, R = L ++ List.replicate n '0' := by
                rintro ⟨m, hm1⟩
                exact hz ⟨m, by simp [hm1]⟩
              exact ih L R K1 hL1 hR1 hlt hz1 hm

theorem goLess_append_left (a b : List Char) : goLess (a ++ b) a = false := by
  induction a with
  | nil => exact goLess_nil_right b
  | cons c a ih => rw [List.cons_append, goLess_cons_self, ih]

/-- When the right bound is the left bound followed by `n` symbols `0`, the loop copies
the right bound and appends the middle symbol `h`. -/
theorem midFrom_zero_extension (fuel : Nat) (L : List Char) (n : Nat)
    (hL : ∀ c ∈ L, c ∈ lexoAlphabet) (hf : L.length + n < fuel) :
    midFrom fuel L (L ++ List.replicate n '0') = some (L ++ List.replicate n '0' ++ ['h']) := by
  induction fuel generalizing L n with
  | zero => omega
  | succ m ih =>
    cases L with
    | nil =>
      cases n with
      | zero => simp [midFrom]; decide
      | succ k =>
        have h0 : a2i '0' = 0 := by decide
        have h1 := ih [] k (by simp) (by simp at hf ⊢; omega)
        simp only [List.nil_append] at h1
        simp only [midFrom, List.nil_append, List.replicate_succ, List.head?_cons, List.head?_nil,
          Option.map_some', Option.map_none', Option.getD_some, Option.getD_none, h0,
          List.tail_cons, List.tail_nil, h1]
        simp
        decide
    | cons c L =>
      have hc : c ∈ lexoAlphabet := hL c (List.mem_cons_self _ _)
      have h1 := ih L n (fun x hx => hL x (List.mem_cons_of_mem _ hx))
        (by simp at hf ⊢; omega)
      simp only [midFrom, List.cons_append, List.head?_cons, Option.map_some', Option.getD_some,
        List.tail_cons, h1, alphabet_a2i c hc]
      simp

/-- The string that `lexoMid` returns is what the loop returns from position 0. -/
theorem lexoMid_data (left right : Option String) :
    midFrom (max (left.getD "").data.length (right.getD "").data.length + 1)
      (left.getD "").data (right.getD "").data = some (lexoMid left right).data := by
  obtain ⟨K, hK⟩ := midFrom_isSome
    (max (left.getD "").data.length (right.getD "").data.length + 1)
    (left.getD "").data (right.getD "").data (Nat.lt_succ_self _)
  have h := lexoMidLoop_eq_midFrom (left.getD "").data (right.getD "").data
    (max (left.getD "").data.length (right.getD "").data.length + 1) 0 []
  simp only [List.drop_zero, hK, Option.map_some', List.nil_append] at h
  simp only [lexoMid, h, hK, Option.getD_some]

/-- C4. With the right bound absent the result is lexicographically greater than the
left bound, for every OrderKey `left` (keys made only of `z` included). -/
theorem lexoMid_gt_left (left : String) (h : IsOrderKey left) :
    strLess left (lexoMid (some left) none) = true := by
  have hd := lexoMid_data (some left) none
  exact midFrom_gt _ _ _ _ h.2 (by simp) hd

theorem lexoMid_gt_left_witness :
    IsOrderKey "zz" ∧ strLess "zz" (lexoMid (some "zz") none) = true :=
  ⟨by decide, lexoMid_gt_left "zz" (by decide)⟩

/-- C2, as the code has it. For OrderKeys `left < right` the result lies strictly between
the bounds exactly when `right` is not `left` followed by symbols `0` only; the result is
always above `left`. -/
theorem lexoMid_between_iff (left right : String) (hl : IsOrderKey left)
    (hr : IsOrderKey right) (hlt : strLess left right = true) :
    strLess left (lexoMid (some left) (some right)) = true ∧
    (strLess (lexoMid (some left) (some right)) right = true ↔ ¬ ZeroExtension left right) := by
  have hd := lexoMid_data (some left) (some right)
  simp only [Option.getD_some] at hd
  refine ⟨midFrom_gt _ _ _ _ hl.2 hr.2 hd, ?_, fun hz => midFrom_lt _ _ _ _ hl.2 hr.2 hlt hz hd⟩
  rintro hk ⟨n, hn⟩
  have hz := midFrom_zero_extension (max left.data.length right.data.length + 1) left.data n
    hl.2 (by rw [hn]; simp)
  rw [← hn, hd] at hz
  have hk2 : goLess (lexoMid (some left) (some right)).data right.data = true := hk
  rw [Option.some.inj hz, goLess_append_left] at hk2
  cases hk2

theorem lexoMid_between_iff_witness :
    strLess "a" (lexoMid (some "a") (some "b")) = true ∧
    (strLess (lexoMid (some "a") (some "b")) "b" = true ↔ ¬ ZeroExtension "a" "b") :=
  lexoMid_between_iff "a" "b" (by decide) (by decide) (by decide)

/-- C2 as stated fails: `a < a0`, and the midpoint `a0h` is above the right bound. -/
theorem lexoMid_between_fails :
    IsOrderKey "a" ∧ IsOrderKey "a0" ∧ strLess "a" "a0" = true ∧
    lexoMid (some "a") (some "a0") = "a0h" ∧
    strLess (lexoMid (some "a") (some "a0")) "a0" = false := by decide

/-- C3, as the code has it. With the left bound absent the result is below the OrderKey
`right` exactly when `right` has a symbol other than `0`. -/
theorem lexoMid_lt_right_iff (right : String) (hr : IsOrderKey right) :
    strLess (lexoMid none (some right)) right = true ↔ ∃ c ∈ right.data, c ≠ '0' := by
  have hd := lexoMid_data none (some right)
  simp only [Option.getD_some, Option.getD_none] at hd
  have hlt : goLess [] right.data = true := by
    have := hr.1
    cases hdat : right.data with
    | nil => exact absurd hdat this
    | cons c R => rfl
  constructor
  · intro hk
    by_contra hall
    push_neg at hall
    have hrep : right.data = [] ++ List.replicate right.data.length '0' := by
      rw [List.nil_append]
      exact List.eq_replicate_of_mem hall
    have hz := midFrom_zero_extension
      (max ([] : List Char).length right.data.length + 1) [] right.data.length
      (by simp) (by simp)
    rw [← hrep] at hz
    rw [hd] at hz
    have hk2 : goLess (lexoMid none (some right)).data right.data = true := hk
    rw [Option.some.inj hz] at hk2
    rw [goLess_append_left right.data ['h']] at hk2
    cases hk2
  · rintro ⟨c, hc, hc0⟩
    refine midFrom_lt _ _ _ _ (by simp) hr.2 hlt ?_ hd
    rintro ⟨n, hn⟩
    rw [hn] at hc
    simp only [List.nil_append] at hc
    exact hc0 (List.eq_of_mem_replicate hc)

theorem lexoMid_lt_right_iff_witness :
    strLess (lexoMid none (some "0a")) "0a" = true ↔ ∃ c ∈ "0a".data, c ≠ '0' :=
  lexoMid_lt_right_iff "0a" (by decide)

/-- C3 as stated fails: for the OrderKey `0` the result `0h` is above the right bound. -/
theorem lexoMid_nil_left_fails :
    IsOrderKey "0" ∧ lexoMid none (some "0") = "0h" ∧
    strLess (lexoMid none (some "0")) "0" = false := by decide

/-! ### Maps -/

theorem mapGet_filter_ne {V : Type} (m : List (String × V)) (k k1 : String) (h : k1 ≠ k) :
    mapGet (m.filter (fun p => !decide (p.1 = k))) k1 = mapGet m k1 := by
  induction m with
  | nil => rfl
  | cons p m ih =>
    obtain ⟨a, v⟩ := p
    by_cases ha : a = k
    · subst ha
      have hne : ¬ a = k1 := fun e => h e.symm
      simp [List.filter_cons, mapGet, hne, ih]
    · by_cases hk : a = k1
      · subst hk
        simp [List.filter_cons, ha, mapGet]
      · simp [List.filter_cons, ha, mapGet, hk, ih]

theorem mapGet_mapSet {V : Type} (m : List (String × V)) (k : String) (v : V) (k1 : String) :
    mapGet (mapSet m k v) k1 = if k1 = k then some v else mapGet m k1 := by
  by_cases h : k1 = k
  · subst h
    simp [mapSet, mapGet]
  · have h2 : ¬ k = k1 := fun e => h e.symm
    simp [mapSet, mapGet, h, h2, mapGet_filter_ne m k k1 h]

/-! ### The idempotency wrapper -/

theorem withIdempotency_hit {β : Type} (s : Store) (r : Request β)
    (handler : Store → Store × Nat × Payload × String) (c : CachedResponse)
    (hk : r.IdempotencyKey ≠ "") (hc : mapGet s.idempo r.IdempotencyKey = some c) :
    withIdempotency s r handler =
      { store := s,
        resp := { Status := c.Status, ContentType := c.CT, XRequestId := r.XRequestId,
                  Body := c.Body },
        calls := 0 } := by
  simp [withIdempotency, hk, hc]

theorem withIdempotency_miss {β : Type} (s : Store) (r : Request β)
    (handler : Store → Store × Nat × Payload × String)
    (hk : r.IdempotencyKey ≠ "") (hc : mapGet s.idempo r.IdempotencyKey = none) :
    withIdempotency s r handler =
      { store := { (handler s).1 with
                   idempo := mapSet (handler s).1.idempo r.IdempotencyKey
                     (CachedResponse.mk (handler s).2.1 (Bytes.marshal (handler s).2.2.1)
                       (if (handler s).2.2.2 = "" then ctJSON else (handler s).2.2.2)) },
        resp := { Status := (handler s).2.1,
                  ContentType := if (handler s).2.2.2 = "" then ctJSON else (handler s).2.2.2,
                  XRequestId := r.XRequestId, Body := Bytes.marshal (handler s).2.2.1 },
        calls := 1 } := by
  simp [withIdempotency, hk, hc]

theorem withIdempotency_no_key {β : Type} (s : Store) (r : Request β)
    (handler : Store → Store × Nat × Payload × String) (hk : r.IdempotencyKey = "") :
    withIdempotency s r handler =
      { store := (handler s).1,
        resp := { Status := (handler s).2.1,
                  ContentType := if (handler s).2.2.2 = "" then ctJSON else (handler s).2.2.2,
                  XRequestId := r.XRequestId, Body := Bytes.marshal (handler s).2.2.1 },
        calls := 1 } := by
  simp [withIdempotency, hk]

/-- C5. Replay: with a token `T` that is not in the cache, the first call runs `op1`
once and caches its response under `T`; the second call with `T` runs nothing (the
store is the one the first call left, whatever `op2` is) and writes the same status,
body bytes and content type. -/
theorem withIdempotency_replay {β γ : Type} (s : Store) (r1 : Request β) (r2 : Request γ)
    (op1 op2 : Store → Store × Nat × Payload × String) (T : String) (hT : T ≠ "")
    (h1 : r1.IdempotencyKey = T) (h2 : r2.IdempotencyKey = T)
    (hmiss : mapGet s.idempo T = none) :
    (withIdempotency s r1 op1).calls = 1 ∧
    (withIdempotency s r1 op1).store =
      { (op1 s).1 with
        idempo := mapSet (op1 s).1.idempo T
          (CachedResponse.mk (op1 s).2.1 (Bytes.marshal (op1 s).2.2.1)
            (withIdempotency s r1 op1).resp.ContentType) } ∧
    (withIdempotency s r1 op1).resp.Status = (op1 s).2.1 ∧
    (withIdempotency s r1 op1).resp.Body = Bytes.marshal (op1 s).2.2.1 ∧
    (withIdempotency (withIdempotency s r1 op1).store r2 op2).calls = 0 ∧
    (withIdempotency (withIdempotency s r1 op1).store r2 op2).store =
      (withIdempotency s r1 op1).store ∧
    (withIdempotency (withIdempotency s r1 op1).store r2 op2).resp.Status =
      (withIdempotency s r1 op1).resp.Status ∧
    (withIdempotency (withIdempotency s r1 op1).store r2 op2).resp.Body =
      (withIdempotency s r1 op1).resp.Body ∧
    (withIdempotency (withIdempotency s r1 op1).store r2 op2).resp.ContentType =
      (withIdempotency s r1 op1).resp.ContentType := by
  subst h1
  have hm := withIdempotency_miss s r1 op1 hT hmiss
  have hget : mapGet (withIdempotency s r1 op1).store.idempo r2.IdempotencyKey =
      some (CachedResponse.mk (op1 s).2.1 (Bytes.marshal (op1 s).2.2.1)
        (if (op1 s).2.2.2 = "" then ctJSON else (op1 s).2.2.2)) := by
    rw [hm, h2]
    simp [mapGet_mapSet]
  have hh := withIdempotency_hit (withIdempotency s r1 op1).store r2 op2 _ (by rw [h2]; exact hT)
    hget
  rw [hh]
  rw [hm]
  simp

theorem withIdempotency_replay_witness :
    (withIdempotency store0 (ccReq "A" none none "t1")
      (createColumnOp "b1" ⟨"A", none, none⟩ "A" "A" 1)).calls = 1 ∧
    (withIdempotency (withIdempotency store0 (ccReq "A" none none "t1")
      (createColumnOp "b1" ⟨"A", none, none⟩ "A" "A" 1)).store (ccReq "B" none none "t1")
      (createColumnOp "b1" ⟨"B", none, none⟩ "B" "B" 2)).calls = 0 :=
  have h := withIdempotency_replay store0 (ccReq "A" none none "t1") (ccReq "B" none none "t1")
    (createColumnOp "b1" ⟨"A", none, none⟩ "A" "A" 1)
    (createColumnOp "b1" ⟨"B", none, none⟩ "B" "B" 2) "t1" (by decide) rfl rfl rfl
  ⟨h.1, h.2.2.2.2.1⟩

/-! ### The checks that precede the mutation -/

theorem authorize_error_status {β : Type} (s : Store) (r : Request β) (boardID : String)
    (e : HttpResponse) (h : authorize s r boardID = .error e) :
    e.Status = 401 ∨ e.Status = 404 ∨ e.Status = 403 := by
  unfold authorize at h
  split at h
  · cases h; simp [writeError, writeJSON]
  · split at h
    · cases h; simp [writeError, writeJSON]
    · dsimp only at h
      split at h
      · cases h; simp [writeError, writeJSON]
      · cases h

theorem decodeBody_error_status {β : Type} (r : Request β) (e : HttpResponse)
    (h : decodeBody r = .error e) : e.Status = 400 := by
  unfold decodeBody at h
  split at h
  · cases h; simp [writeError, writeJSON]
  · cases h

theorem decodeBody_ok {β : Type} (r : Request β) (req : β) (h : decodeBody r = .ok req) :
    r.Body = some req := by
  unfold decodeBody at h
  split at h
  · cases h
  · rename_i x hx
    cases h
    exact hx

theorem createColumnChecks_error_status (s : Store) (r : Request CreateColumnReq)
    (boardID : String) (e : HttpResponse) (h : createColumnChecks s r boardID = .error e) :
    e.Status ≠ 201 := by
  unfold createColumnChecks at h
  split at h
  · rename_i e1 h1
    cases h
    rcases authorize_error_status s r boardID _ h1 with h2 | h2 | h2 <;> omega
  · split at h
    · rename_i e1 h1
      cases h
      have := decodeBody_error_status r _ h1
      omega
    · split at h
      · cases h; simp [writeError, writeJSON]
      · split at h
        · cases h; simp [writeError, writeJSON]
        · cases h

theorem createCardChecks_error_status (s : Store) (r : Request CreateCardReq)
    (boardID columnID : String) (e : HttpResponse)
    (h : createCardChecks s r boardID columnID = .error e) : e.Status ≠ 201 := by
  unfold createCardChecks at h
  split at h
  · rename_i e1 h1
    cases h
    rcases authorize_error_status s r boardID _ h1 with h2 | h2 | h2 <;> omega
  · split at h
    · cases h; simp [writeError, writeJSON]
    · split at h
      · cases h; simp [writeError, writeJSON]
      · split at h
        · rename_i e1 h1
          cases h
          have := decodeBody_error_status r _ h1
          omega
        · split at h
          · cases h; simp [writeError, writeJSON]
          · split at h
            · cases h; simp [writeError, writeJSON]
            · cases h

theorem handleCreateColumn_error (s : Store) (r : Request CreateColumnReq) (boardID id : String)
    (now : Nat) (e : HttpResponse) (h : createColumnChecks s r boardID = .error e) :
    handleCreateColumn s r boardID id now = (s, e) := by
  simp [handleCreateColumn, h]

theorem handleCreateColumn_ok (s : Store) (r : Request CreateColumnReq) (boardID id : String)
    (now : Nat) (v : CreateColumnReq × String) (h : createColumnChecks s r boardID = .ok v) :
    handleCreateColumn s r boardID id now =
      ((withIdempotency s r (createColumnOp boardID v.1 v.2 id now)).store,
       (withIdempotency s r (createColumnOp boardID v.1 v.2 id now)).resp) := by
  simp [handleCreateColumn, h]

theorem handleCreateCard_error (s : Store) (r : Request CreateCardReq)
    (boardID columnID id : String) (now : Nat) (e : HttpResponse)
    (h : createCardChecks s r boardID columnID = .error e) :
    handleCreateCard s r boardID columnID id now = (s, e) := by
  simp [handleCreateCard, h]

theorem handleCreateCard_ok (s : Store) (r : Request CreateCardReq)
    (boardID columnID id : String) (now : Nat) (v : CreateCardReq × String)
    (h : createCardChecks s r boardID columnID = .ok v) :
    handleCreateCard s r boardID columnID id now =
      ((withIdempotency s r (createCardOp boardID columnID v.1 v.2 id now)).store,
       (withIdempotency s r (createCardOp boardID columnID v.1 v.2 id now)).resp) := by
  simp [handleCreateCard, h]

/-- What the create-column closure does: either the anchors do not resolve and it
answers 422 on an unchanged store, or it stores one column and answers 201. -/
theorem createColumnOp_cases (boardID : String) (req : CreateColumnReq) (name id : String)
    (now : Nat) (s : Store) :
    (createColumnOp boardID req name id now s = (s, 422, Payload.invalidAnchors, ctJSON)) ∨
    (∃ b, insertBounds ColumnRec.ID ColumnRec.SortKey (listColumnsSorted s boardID)
        req.BeforeColumnID req.AfterColumnID = .ok b ∧
      createColumnOp boardID req name id now s =
        ({ s with
           columns := mapSet s.columns id
             (ColumnRec.mk id boardID name (lexoMid b.1 b.2) now now) }, 201,
          Payload.column (Column.mk id boardID name (lexoMid b.1 b.2) now now), ctJSON)) := by
  cases hb : insertBounds ColumnRec.ID ColumnRec.SortKey (listColumnsSorted s boardID)
      req.BeforeColumnID req.AfterColumnID with
  | error e => left; simp [createColumnOp, hb]
  | ok b => right; obtain ⟨l, r⟩ := b; exact ⟨(l, r), rfl, by simp [createColumnOp, hb]⟩

/-- What the create-card closure does. -/
theorem createCardOp_cases (boardID columnID : String) (req : CreateCardReq) (title id : String)
    (now : Nat) (s : Store) :
    (createCardOp boardID columnID req title id now s =
      (s, 422, Payload.invalidAnchors, ctJSON)) ∨
    (∃ b, insertBounds CardRec.ID CardRec.SortKey (listCardsSorted s boardID columnID)
        req.BeforeCardID req.AfterCardID = .ok b ∧
      createCardOp boardID columnID req title id now s =
        ({ s with
           cards := mapSet s.cards id
             (CardRec.mk id boardID columnID title req.Description (lexoMid b.1 b.2) 0 now
               now) },
          201,
          Payload.card (Card.mk id boardID columnID title req.Description (lexoMid b.1 b.2)
            now now 0), ctJSON)) := by
  cases hb : insertBounds CardRec.ID CardRec.SortKey (listCardsSorted s boardID columnID)
      req.BeforeCardID req.AfterCardID with
  | error e => left; simp [createCardOp, hb]
  | ok b => right; obtain ⟨l, r⟩ := b; exact ⟨(l, r), rfl, by simp [createCardOp, hb]⟩

/-! ### Create requests and the cache -/

/-- A create-column request whose token is cached leaves the store as it is and, once
past the handler's checks, replays the cached response. -/
theorem handleCreateColumn_cached (s : Store) (r : Request CreateColumnReq)
    (boardID id : String) (now : Nat) (c : CachedResponse) (hk : r.IdempotencyKey ≠ "")
    (hc : mapGet s.idempo r.IdempotencyKey = some c) :
    (handleCreateColumn s r boardID id now).1 = s ∧
    ((∃ v, createColumnChecks s r boardID = .ok v) →
      (handleCreateColumn s r boardID id now).2 =
        HttpResponse.mk c.Status c.CT r.XRequestId c.Body) := by
  cases hch : createColumnChecks s r boardID with
  | error e =>
    rw [handleCreateColumn_error _ _ _ _ _ _ hch]
    exact ⟨rfl, fun ⟨v, hv⟩ => by cases hv⟩
  | ok v =>
    rw [handleCreateColumn_ok _ _ _ _ _ _ hch, withIdempotency_hit _ _ _ c hk hc]
    exact ⟨rfl, fun _ => rfl⟩

/-- The same for create-card. -/
theorem handleCreateCard_cached (s : Store) (r : Request CreateCardReq)
    (boardID columnID id : String) (now : Nat) (c : CachedResponse)
    (hk : r.IdempotencyKey ≠ "") (hc : mapGet s.idempo r.IdempotencyKey = some c) :
    (handleCreateCard s r boardID columnID id now).1 = s ∧
    ((∃ v, createCardChecks s r boardID columnID = .ok v) →
      (handleCreateCard s r boardID columnID id now).2 =
        HttpResponse.mk c.Status c.CT r.XRequestId c.Body) := by
  cases hch : createCardChecks s r boardID columnID with
  | error e =>
    rw [handleCreateCard_error _ _ _ _ _ _ _ hch]
    exact ⟨rfl, fun ⟨v, hv⟩ => by cases hv⟩
  | ok v =>
    rw [handleCreateCard_ok _ _ _ _ _ _ _ hch, withIdempotency_hit _ _ _ c hk hc]
    exact ⟨rfl, fun _ => rfl⟩

/-- A create-column request with a token that is not cached and the answer 201 has
stored one column and cached its response under the token. -/
theorem handleCreateColumn_fresh (s : Store) (r : Request CreateColumnReq)
    (boardID id : String) (now : Nat) (hk : r.IdempotencyKey ≠ "")
    (hc : mapGet s.idempo r.IdempotencyKey = none)
    (h : (handleCreateColumn s r boardID id now).2.Status = 201) :
    ∃ cr body,
      (handleCreateColumn s r boardID id now).1 =
        { s with columns := mapSet s.columns id cr,
                 idempo := mapSet s.idempo r.IdempotencyKey (CachedResponse.mk 201 body ctJSON) } ∧
      (handleCreateColumn s r boardID id now).2 = HttpResponse.mk 201 ctJSON r.XRequestId body := by
  cases hch : createColumnChecks s r boardID with
  | error e =>
    rw [handleCreateColumn_error _ _ _ _ _ _ hch] at h
    exact absurd h (createColumnChecks_error_status _ _ _ _ hch)
  | ok v =>
    rw [handleCreateColumn_ok _ _ _ _ _ _ hch, withIdempotency_miss _ _ _ hk hc] at h ⊢
    rcases createColumnOp_cases boardID v.1 v.2 id now s with hop | ⟨b, _, hop⟩
    · rw [hop] at h
      simp at h
    · rw [hop]
      refine ⟨ColumnRec.mk id boardID v.2 (lexoMid b.1 b.2) now now,
        Bytes.marshal (Payload.column (Column.mk id boardID v.2 (lexoMid b.1 b.2) now now)),
        ?_, ?_⟩ <;> simp [ctJSON]

/-- The same for create-card. -/
theorem handleCreateCard_fresh (s : Store) (r : Request CreateCardReq)
    (boardID columnID id : String) (now : Nat) (hk : r.IdempotencyKey ≠ "")
    (hc : mapGet s.idempo r.IdempotencyKey = none)
    (h : (handleCreateCard s r boardID columnID id now).2.Status = 201) :
    ∃ cr body,
      (handleCreateCard s r boardID columnID id now).1 =
        { s with cards := mapSet s.cards id cr,
                 idempo := mapSet s.idempo r.IdempotencyKey (CachedResponse.mk 201 body ctJSON) } ∧
      (handleCreateCard s r boardID columnID id now).2 =
        HttpResponse.mk 201 ctJSON r.XRequestId body := by
  cases hch : createCardChecks s r boardID columnID with
  | error e =>
    rw [handleCreateCard_error _ _ _ _ _ _ _ hch] at h
    exact absurd h (createCardChecks_error_status _ _ _ _ _ hch)
  | ok v =>
    rw [handleCreateCard_ok _ _ _ _ _ _ _ hch, withIdempotency_miss _ _ _ hk hc] at h ⊢
    rcases createCardOp_cases boardID columnID v.1 v.2 id now s with hop | ⟨b, _, hop⟩
    · rw [hop] at h
      simp at h
    · rw [hop]
      refine ⟨CardRec.mk id boardID columnID v.2 v.1.Description (lexoMid b.1 b.2) 0 now now,
        Bytes.marshal (Payload.card (Card.mk id boardID columnID v.2 v.1.Description
          (lexoMid b.1 b.2) now now 0)), ?_, ?_⟩ <;> simp [ctJSON]

/-- C6, as the code has it. With a fresh token `T`, a create-column (create-card)
request that is answered 201 has stored exactly one record; a second create request
with `T`, whatever its payload, leaves the whole store as it is, and when it passes the
handler's own checks (authorization, board and column lookup, role, decoding, name or
title) its status, body and content type are those of the first response. -/
theorem create_replay (s : Store) (T : String) (hT : T ≠ "") (hmiss : mapGet s.idempo T = none) :
    (∀ (r1 r2 : Request CreateColumnReq) (b1 b2 id1 id2 : String) (now1 now2 : Nat),
      r1.IdempotencyKey = T → r2.IdempotencyKey = T →
      (handleCreateColumn s r1 b1 id1 now1).2.Status = 201 →
      (∃ cr, (handleCreateColumn s r1 b1 id1 now1).1.columns = mapSet s.columns id1 cr) ∧
      (handleCreateColumn s r1 b1 id1 now1).1.cards = s.cards ∧
      (handleCreateColumn (handleCreateColumn s r1 b1 id1 now1).1 r2 b2 id2 now2).1 =
        (handleCreateColumn s r1 b1 id1 now1).1 ∧
      ((∃ v, createColumnChecks (handleCreateColumn s r1 b1 id1 now1).1 r2 b2 = .ok v) →
        (handleCreateColumn (handleCreateColumn s r1 b1 id1 now1).1 r2 b2 id2 now2).2.Status =
          (handleCreateColumn s r1 b1 id1 now1).2.Status ∧
        (handleCreateColumn (handleCreateColumn s r1 b1 id1 now1).1 r2 b2 id2 now2).2.Body =
          (handleCreateColumn s r1 b1 id1 now1).2.Body ∧
        (handleCreateColumn (handleCreateColumn s r1 b1 id1 now1).1 r2 b2 id2
          now2).2.ContentType = (handleCreateColumn s r1 b1 id1 now1).2.ContentType)) ∧
    (∀ (r1 r2 : Request CreateCardReq) (b1 b2 c1 c2 id1 id2 : String) (now1 now2 : Nat),
      r1.IdempotencyKey = T → r2.IdempotencyKey = T →
      (handleCreateCard s r1 b1 c1 id1 now1).2.Status = 201 →
      (∃ cr, (handleCreateCard s r1 b1 c1 id1 now1).1.cards = mapSet s.cards id1 cr) ∧
      (handleCreateCard s r1 b1 c1 id1 now1).1.columns = s.columns ∧
      (handleCreateCard (handleCreateCard s r1 b1 c1 id1 now1).1 r2 b2 c2 id2 now2).1 =
        (handleCreateCard s r1 b1 c1 id1 now1).1 ∧
      ((∃ v, createCardChecks (handleCreateCard s r1 b1 c1 id1 now1).1 r2 b2 c2 = .ok v) →
        (handleCreateCard (handleCreateCard s r1 b1 c1 id1 now1).1 r2 b2 c2 id2 now2).2.Status =
          (handleCreateCard s r1 b1 c1 id1 now1).2.Status ∧
        (handleCreateCard (handleCreateCard s r1 b1 c1 id1 now1).1 r2 b2 c2 id2 now2).2.Body =
          (handleCreateCard s r1 b1 c1 id1 now1).2.Body ∧
        (handleCreateCard (handleCreateCard s r1 b1 c1 id1 now1).1 r2 b2 c2 id2
          now2).2.ContentType = (handleCreateCard s r1 b1 c1 id1 now1).2.ContentType)) := by
  constructor
  · intro r1 r2 b1 b2 id1 id2 now1 now2 hk1 hk2 h201
    obtain ⟨cr, body, hs, hr⟩ := handleCreateColumn_fresh s r1 b1 id1 now1 (hk1 ▸ hT)
      (hk1 ▸ hmiss) h201
    have hget : mapGet (handleCreateColumn s r1 b1 id1 now1).1.idempo r2.IdempotencyKey =
        some (CachedResponse.mk 201 body ctJSON) := by
      rw [hs, hk1, hk2]
      simp [mapGet_mapSet]
    obtain ⟨h1, h2⟩ := handleCreateColumn_cached (handleCreateColumn s r1 b1 id1 now1).1 r2 b2
      id2 now2 _ (hk2 ▸ hT) hget
    refine ⟨⟨cr, by rw [hs]⟩, by rw [hs], h1, fun hv => ?_⟩
    rw [h2 hv, hr]
    exact ⟨rfl, rfl, rfl⟩
  · intro r1 r2 b1 b2 c1 c2 id1 id2 now1 now2 hk1 hk2 h201
    obtain ⟨cr, body, hs, hr⟩ := handleCreateCard_fresh s r1 b1 c1 id1 now1 (hk1 ▸ hT)
      (hk1 ▸ hmiss) h201
    have hget : mapGet (handleCreateCard s r1 b1 c1 id1 now1).1.idempo r2.IdempotencyKey =
        some (CachedResponse.mk 201 body ctJSON) := by
      rw [hs, hk1, hk2]
      simp [mapGet_mapSet]
    obtain ⟨h1, h2⟩ := handleCreateCard_cached (handleCreateCard s r1 b1 c1 id1 now1).1 r2 b2 c2
      id2 now2 _ (hk2 ▸ hT) hget
    refine ⟨⟨cr, by rw [hs]⟩, by rw [hs], h1, fun hv => ?_⟩
    rw [h2 hv, hr]
    exact ⟨rfl, rfl, rfl⟩

theorem create_replay_witness :
    (handleCreateColumn (handleCreateColumn store0 (ccReq "A" none none "t1") "b1" "A" 1).1
      (ccReq "B" none (some "A") "t1") "b1" "B" 2).1 =
      (handleCreateColumn store0 (ccReq "A" none none "t1") "b1" "A" 1).1 :=
  ((create_replay store0 "t1" (by decide) rfl).1 (ccReq "A" none none "t1")
    (ccReq "B" none (some "A") "t1") "b1" "b1" "A" "B" 1 2 rfl rfl (by decide)).2.2.1

/-- C6 as stated fails for a different payload: after a create-column with token `t1`
was answered 201, a second create-column with `t1` and an empty name is answered 422,
not with the first response. -/
theorem create_replay_fails :
    mapGet store0.idempo "t1" = none ∧
    (handleCreateColumn store0 (ccReq "A" none none "t1") "b1" "A" 1).2.Status = 201 ∧
    (handleCreateColumn (handleCreateColumn store0 (ccReq "A" none none "t1") "b1" "A" 1).1
      (ccReq "" none none "t1") "b1" "B" 2).2.Status = 422 := by decide

/-! ### Moves -/

/-- What `handleMoveCard` does: either it rejects the request and leaves the store as
it is, or every check passed and the card is rewritten with the new column, key,
version and time. -/
theorem handleMoveCard_cases (s : Store) (r : Request MoveCardReq) (boardID cardID : String)
    (now : Nat) :
    ((handleMoveCard s r boardID cardID now).1 = s ∧
      (handleMoveCard s r boardID cardID now).2.Status ≠ 200) ∨
    (∃ req rec1 tc b,
      authorize s r boardID = .ok () ∧ r.Body = some req ∧
      mapGet s.cards cardID = some rec1 ∧ rec1.BoardID = boardID ∧
      (req.ExpectedVer = none ∨ req.ExpectedVer = some rec1.Version) ∧
      mapGet s.columns (req.ToColumnID.getD rec1.ColumnID) = some tc ∧
      tc.BoardID = rec1.BoardID ∧
      insertBounds CardRec.ID CardRec.SortKey
        (listCardsSorted s boardID (req.ToColumnID.getD rec1.ColumnID))
        req.BeforeCardID req.AfterCardID = .ok b ∧
      handleMoveCard s r boardID cardID now =
        ({ s with
           cards := mapSet s.cards cardID
             (CardRec.mk rec1.ID rec1.BoardID (req.ToColumnID.getD rec1.ColumnID) rec1.Title
               rec1.Desc (lexoMid b.1 b.2) (wrapInt (rec1.Version + 1)) rec1.CreatedAt now) },
          writeJSON r 200 (Payload.moved (wrapInt (rec1.Version + 1))))) := by
  cases hA : authorize s r boardID with
  | error e =>
    left
    have := authorize_error_status s r boardID e hA
    simp only [handleMoveCard, hA]
    refine ⟨by trivial, by omega⟩
  | ok u =>
    cases hB : decodeBody r with
    | error e =>
      left
      have := decodeBody_error_status r e hB
      simp only [handleMoveCard, hA, hB]
      refine ⟨by trivial, by omega⟩
    | ok req =>
      have hbody := decodeBody_ok r req hB
      cases hC : mapGet s.cards cardID with
      | none =>
        left
        simp [handleMoveCard, hA, hB, hC, writeError, writeJSON]
      | some rec1 =>
        by_cases hbd : rec1.BoardID = boardID
        · subst hbd
          by_cases hv : req.ExpectedVer.isSome ∧ req.ExpectedVer ≠ some rec1.Version
          · left
            simp [handleMoveCard, hA, hB, hC, hv, writeError, writeJSON]
          · cases hT : mapGet s.columns (req.ToColumnID.getD rec1.ColumnID) with
            | none =>
              left
              simp [handleMoveCard, hA, hB, hC, hv, hT, writeError, writeJSON]
            | some tc =>
              by_cases htb : tc.BoardID = rec1.BoardID
              · cases hI : insertBounds CardRec.ID CardRec.SortKey
                    (listCardsSorted s rec1.BoardID (req.ToColumnID.getD rec1.ColumnID))
                    req.BeforeCardID req.AfterCardID with
                | error e =>
                  left
                  simp [handleMoveCard, hA, hB, hC, hv, hT, htb, hI, writeError, writeJSON]
                | ok b =>
                  right
                  obtain ⟨l, rr⟩ := b
                  refine ⟨req, rec1, tc, (l, rr), rfl, hbody, rfl, rfl, ?_, hT, htb, hI, ?_⟩
                  · cases hE : req.ExpectedVer with
                    | none => exact Or.inl rfl
                    | some v =>
                      right
                      by_contra hne
                      exact hv ⟨by simp [hE], by rw [hE]; exact hne⟩
                  · have hcol : (if req.ToColumnID.isSome = true then
                        req.ToColumnID.getD rec1.ColumnID else rec1.ColumnID) =
                        req.ToColumnID.getD rec1.ColumnID := by
                      cases req.ToColumnID <;> simp
                    simp [handleMoveCard, hA, hB, hC, hv, hT, htb, hI, hcol]
              · left
                simp [handleMoveCard, hA, hB, hC, hv, hT, htb, writeError, writeJSON]
        · left
          simp [handleMoveCard, hA, hB, hC, hbd, writeError, writeJSON]

/-- What `handleMoveColumn` does: either it rejects the request and leaves the store as
it is, or the column is listed on the board, the anchors resolve, and the entry under
the column id gets the new key and time. -/
theorem handleMoveColumn_cases (s : Store) (r : Request MoveColumnReq)
    (boardID columnID : String) (now : Nat) :
    ((handleMoveColumn s r boardID columnID now).1 = s ∧
      (handleMoveColumn s r boardID columnID now).2.Status ≠ 200) ∨
    (∃ req target b,
      authorize s r boardID = .ok () ∧ r.Body = some req ∧
      target ∈ listColumnsSorted s boardID ∧ target.ID = columnID ∧
      insertBounds ColumnRec.ID ColumnRec.SortKey (listColumnsSorted s boardID)
        req.BeforeColumnID req.AfterColumnID = .ok b ∧
      handleMoveColumn s r boardID columnID now =
        ((match mapGet s.columns columnID with
          | some c =>
            { s with
              columns := mapSet s.columns columnID
                (ColumnRec.mk c.ID c.BoardID c.Name (lexoMid b.1 b.2) c.CreatedAt now) }
          | none => s),
          writeJSON r 200 Payload.statusOk)) := by
  cases hA : authorize s r boardID with
  | error e =>
    left
    have := authorize_error_status s r boardID e hA
    simp only [handleMoveColumn, hA]
    refine ⟨by trivial, by omega⟩
  | ok u =>
    cases hB : decodeBody r with
    | error e =>
      left
      have := decodeBody_error_status r e hB
      simp only [handleMoveColumn, hA, hB]
      refine ⟨by trivial, by omega⟩
    | ok req =>
      have hbody := decodeBody_ok r req hB
      cases hF : (listColumnsSorted s boardID).find? (fun c => decide (c.ID = columnID)) with
      | none =>
        left
        simp [handleMoveColumn, hA, hB, hF, writeError, writeJSON]
      | some target =>
        have hmem := List.mem_of_find?_eq_some hF
        have hid : target.ID = columnID := by
          have := List.find?_some hF
          simpa using this
        cases hI : insertBounds ColumnRec.ID ColumnRec.SortKey (listColumnsSorted s boardID)
            req.BeforeColumnID req.AfterColumnID with
        | error e =>
          left
          simp [handleMoveColumn, hA, hB, hF, hI, writeError, writeJSON]
        | ok b =>
          right
          obtain ⟨l, rr⟩ := b
          refine ⟨req, target, (l, rr), rfl, hbody, hmem, hid, hI, ?_⟩
          simp only [handleMoveColumn, hA, hB, hF, hI]

/-- What `withIdempotency` leaves behind: on a hit the store as it was and the cached
response; otherwise the store of the closure, with at most the cache extended, and the
closure's status and payload. -/
theorem withIdempotency_cases {β : Type} (s : Store) (r : Request β)
    (handler : Store → Store × Nat × Payload × String) :
    (∃ c, r.IdempotencyKey ≠ "" ∧ mapGet s.idempo r.IdempotencyKey = some c ∧
      (withIdempotency s r handler).store = s ∧
      (withIdempotency s r handler).resp = HttpResponse.mk c.Status c.CT r.XRequestId c.Body) ∨
    ((withIdempotency s r handler).store.boards = (handler s).1.boards ∧
      (withIdempotency s r handler).store.columns = (handler s).1.columns ∧
      (withIdempotency s r handler).store.cards = (handler s).1.cards ∧
      (withIdempotency s r handler).store.memberships = (handler s).1.memberships ∧
      (withIdempotency s r handler).resp.Status = (handler s).2.1 ∧
      (withIdempotency s r handler).resp.Body = Bytes.marshal (handler s).2.2.1) := by
  by_cases hk : r.IdempotencyKey = ""
  · right
    rw [withIdempotency_no_key s r handler hk]
    simp
  · cases hc : mapGet s.idempo r.IdempotencyKey with
    | none =>
      right
      rw [withIdempotency_miss s r handler hk hc]
      simp
    | some c =>
      left
      rw [withIdempotency_hit s r handler c hk hc]
      exact ⟨c, hk, rfl, rfl, rfl⟩

theorem createColumnChecks_ok (s : Store) (r : Request CreateColumnReq) (boardID : String)
    (v : CreateColumnReq × String) (h : createColumnChecks s r boardID = .ok v) :
    r.Body = some v.1 := by
  unfold createColumnChecks at h
  split at h
  · cases h
  · split at h
    · cases h
    · rename_i req hreq
      split at h
      · cases h
      · split at h
        · cases h
        · cases h
          exact decodeBody_ok r req hreq

theorem createCardChecks_ok (s : Store) (r : Request CreateCardReq) (boardID columnID : String)
    (v : CreateCardReq × String) (h : createCardChecks s r boardID columnID = .ok v) :
    r.Body = some v.1 ∧ ∃ col, mapGet s.columns columnID = some col ∧ col.BoardID = boardID := by
  unfold createCardChecks at h
  split at h
  · cases h
  · split at h
    · cases h
    · rename_i col hcol
      split at h
      · cases h
      · rename_i hb
        split at h
        · cases h
        · rename_i req hreq
          split at h
          · cases h
          · split at h
            · cases h
            · cases h
              exact ⟨decodeBody_ok r req hreq, col, hcol, not_not.mp hb⟩

/-- What `handleCreateColumn` does to columns and cards: nothing, or it stores one
column whose key is the midpoint of the resolved bounds and answers 201. -/
theorem handleCreateColumn_cases (s : Store) (r : Request CreateColumnReq)
    (boardID id : String) (now : Nat) :
    ((handleCreateColumn s r boardID id now).1.columns = s.columns ∧
      (handleCreateColumn s r boardID id now).1.cards = s.cards ∧
      (handleCreateColumn s r boardID id now).2.Status ≠ 201) ∨
    ((handleCreateColumn s r boardID id now).1 = s ∧
      ∃ c, r.IdempotencyKey ≠ "" ∧ mapGet s.idempo r.IdempotencyKey = some c ∧
        (handleCreateColumn s r boardID id now).2 =
          HttpResponse.mk c.Status c.CT r.XRequestId c.Body) ∨
    (∃ req name b,
      r.Body = some req ∧
      insertBounds ColumnRec.ID ColumnRec.SortKey (listColumnsSorted s boardID)
        req.BeforeColumnID req.AfterColumnID = .ok b ∧
      (handleCreateColumn s r boardID id now).1.columns =
        mapSet s.columns id (ColumnRec.mk id boardID name (lexoMid b.1 b.2) now now) ∧
      (handleCreateColumn s r boardID id now).1.cards = s.cards ∧
      (handleCreateColumn s r boardID id now).2.Status = 201) := by
  cases hch : createColumnChecks s r boardID with
  | error e =>
    left
    rw [handleCreateColumn_error _ _ _ _ _ _ hch]
    exact ⟨rfl, rfl, createColumnChecks_error_status _ _ _ _ hch⟩
  | ok v =>
    have hbody := createColumnChecks_ok s r boardID v hch
    rw [handleCreateColumn_ok _ _ _ _ _ _ hch]
    rcases withIdempotency_cases s r (createColumnOp boardID v.1 v.2 id now) with
      ⟨c, hk, hc, hs, hr⟩ | ⟨_, hcols, hcards, _, hst, _⟩
    · right; left
      exact ⟨hs, c, hk, hc, hr⟩
    · rcases createColumnOp_cases boardID v.1 v.2 id now s with hop | ⟨b, hb, hop⟩
      · left
        rw [hop] at hcols hcards hst
        exact ⟨hcols, hcards, by simp only [hst]; decide⟩
      · right; right
        rw [hop] at hcols hcards hst
        exact ⟨v.1, v.2, b, hbody, hb, hcols, hcards, hst⟩

/-- What `handleCreateCard` does to columns and cards: nothing, or it stores one card
with version 0 whose key is the midpoint of the resolved bounds and answers 201. -/
theorem handleCreateCard_cases (s : Store) (r : Request CreateCardReq)
    (boardID columnID id : String) (now : Nat) :
    ((handleCreateCard s r boardID columnID id now).1.columns = s.columns ∧
      (handleCreateCard s r boardID columnID id now).1.cards = s.cards ∧
      (handleCreateCard s r boardID columnID id now).2.Status ≠ 201) ∨
    ((handleCreateCard s r boardID columnID id now).1 = s ∧
      ∃ c, r.IdempotencyKey ≠ "" ∧ mapGet s.idempo r.IdempotencyKey = some c ∧
        (handleCreateCard s r boardID columnID id now).2 =
          HttpResponse.mk c.Status c.CT r.XRequestId c.Body) ∨
    (∃ req title b col,
      r.Body = some req ∧ mapGet s.columns columnID = some col ∧ col.BoardID = boardID ∧
      insertBounds CardRec.ID CardRec.SortKey (listCardsSorted s boardID columnID)
        req.BeforeCardID req.AfterCardID = .ok b ∧
      (handleCreateCard s r boardID columnID id now).1.cards =
        mapSet s.cards id
          (CardRec.mk id boardID columnID title req.Description (lexoMid b.1 b.2) 0 now now) ∧
      (handleCreateCard s r boardID columnID id now).1.columns = s.columns ∧
      (handleCreateCard s r boardID columnID id now).2.Status = 201 ∧
      (handleCreateCard s r boardID columnID id now).2.Body =
        Bytes.marshal (Payload.card (Card.mk id boardID columnID title req.Description
          (lexoMid b.1 b.2) now now 0))) := by
  cases hch : createCardChecks s r boardID columnID with
  | error e =>
    left
    rw [handleCreateCard_error _ _ _ _ _ _ _ hch]
    exact ⟨rfl, rfl, createCardChecks_error_status _ _ _ _ _ hch⟩
  | ok v =>
    obtain ⟨hbody, col, hcol, hcb⟩ := createCardChecks_ok s r boardID columnID v hch
    rw [handleCreateCard_ok _ _ _ _ _ _ _ hch]
    rcases withIdempotency_cases s r (createCardOp boardID columnID v.1 v.2 id now) with
      ⟨c, hk, hc, hs, hr⟩ | ⟨_, hcols, hcards, _, hst, hbd⟩
    · right; left
      exact ⟨hs, c, hk, hc, hr⟩
    · rcases createCardOp_cases boardID columnID v.1 v.2 id now s with hop | ⟨b, hb, hop⟩
      · left
        rw [hop] at hcols hcards hst
        exact ⟨hcols, hcards, by simp only [hst]; decide⟩
      · right; right
        rw [hop] at hcols hcards hst hbd
        exact ⟨v.1, v.2, b, col, hbody, hcol, hcb, hb, hcards, hcols, hst, hbd⟩

/-! ### Claims on the idempotency of moves, versions and failed requests -/

/-- A value within the range of `int` is not changed by the reduction. -/
theorem wrapInt_eq (n : Int) (h1 : minInt ≤ n) (h2 : n ≤ maxInt) : wrapInt n = n := by
  unfold wrapInt
  unfold minInt at h1
  unfold maxInt at h2
  omega

/-- The reduction lands in the range of `int`. -/
theorem wrapInt_range (n : Int) : minInt ≤ wrapInt n ∧ wrapInt n ≤ maxInt := by
  unfold wrapInt minInt maxInt
  omega

/-- Incrementing the largest `int` gives the smallest. -/
theorem wrapInt_maxInt : wrapInt (maxInt + 1) = minInt := by decide

/-- The move handlers never write the idempotency cache. -/
theorem handleMoveCard_idempo (s : Store) (r : Request MoveCardReq) (boardID cardID : String)
    (now : Nat) : (handleMoveCard s r boardID cardID now).1.idempo = s.idempo := by
  rcases handleMoveCard_cases s r boardID cardID now with
    ⟨hs, _⟩ | ⟨_, _, _, _, _, _, _, _, _, _, _, _, hs⟩
  · rw [hs]
  · rw [hs]

theorem handleMoveColumn_idempo (s : Store) (r : Request MoveColumnReq)
    (boardID columnID : String) (now : Nat) :
    (handleMoveColumn s r boardID columnID now).1.idempo = s.idempo := by
  rcases handleMoveColumn_cases s r boardID columnID now with
    ⟨hs, _⟩ | ⟨_, _, _, _, _, _, _, _, hs⟩
  · rw [hs]
  · rw [hs]
    cases mapGet s.columns columnID <;> rfl

/-- An accepted move-card rewrites the card under `cardID`: the version is incremented
as a Go `int` and is reported in the response; the identity fields stay, as do the other cards,
the columns and the cache. -/
theorem handleMoveCard_accepted (s : Store) (r : Request MoveCardReq) (boardID cardID : String)
    (now : Nat) (h : (handleMoveCard s r boardID cardID now).2.Status = 200) :
    ∃ c0 c1, mapGet s.cards cardID = some c0 ∧
      mapGet (handleMoveCard s r boardID cardID now).1.cards cardID = some c1 ∧
      c1.Version = wrapInt (c0.Version + 1) ∧
      (handleMoveCard s r boardID cardID now).2.Body =
        Bytes.encode (Payload.moved (wrapInt (c0.Version + 1))) ∧
      (handleMoveCard s r boardID cardID now).1.idempo = s.idempo ∧
      (handleMoveCard s r boardID cardID now).1.columns = s.columns ∧
      (∀ cid, cid ≠ cardID →
        mapGet (handleMoveCard s r boardID cardID now).1.cards cid = mapGet s.cards cid) := by
  rcases handleMoveCard_cases s r boardID cardID now with
    ⟨_, hne⟩ | ⟨q, rec1, _, b, _, _, hc, _, _, _, _, _, hs⟩
  · exact absurd h hne
  · rw [hs]
    refine ⟨rec1, CardRec.mk rec1.ID rec1.BoardID (q.ToColumnID.getD rec1.ColumnID) rec1.Title
      rec1.Desc (lexoMid b.1 b.2) (wrapInt (rec1.Version + 1)) rec1.CreatedAt now, hc,
      by simp only [mapGet_mapSet, if_true], rfl, rfl, rfl, rfl, ?_⟩
    intro cid hcid
    simp only [mapGet_mapSet, hcid, if_false]

/-- At the largest version the increment wraps: the move is answered 200 and the card
is stored with the version `minInt`. -/
theorem handleMoveCard_wraps :
    (handleMoveCard storeMaxVersion (mcReq none none none none "") "b1" "X" 3).2.Status = 200 ∧
    (mapGet (handleMoveCard storeMaxVersion (mcReq none none none none "") "b1" "X" 3).1.cards
      "X").map CardRec.Version = some minInt := by decide

/-- C7, as the code has it. The move handlers are not wrapped by the idempotency cache:
no move-card and no move-column request, accepted or rejected, changes the cache; and a
second accepted move-card that carries the same Idempotency-Key as the first is applied
again, so the version has been incremented twice (as a Go `int`) and the second response
reports that value.  When the first version plus 2 does not exceed `maxInt`, that value is
the first version plus 2. -/
theorem moves_not_cached (s : Store) :
    (∀ (r : Request MoveCardReq) (boardID cardID : String) (now : Nat),
      (handleMoveCard s r boardID cardID now).1.idempo = s.idempo) ∧
    (∀ (r : Request MoveColumnReq) (boardID columnID : String) (now : Nat),
      (handleMoveColumn s r boardID columnID now).1.idempo = s.idempo) ∧
    (∀ (r1 r2 : Request MoveCardReq) (boardID cardID : String) (now1 now2 : Nat) (c0 : CardRec),
      mapGet s.cards cardID = some c0 →
      r1.IdempotencyKey = r2.IdempotencyKey →
      (handleMoveCard s r1 boardID cardID now1).2.Status = 200 →
      (handleMoveCard (handleMoveCard s r1 boardID cardID now1).1 r2 boardID cardID
        now2).2.Status = 200 →
      ∃ c2, mapGet (handleMoveCard (handleMoveCard s r1 boardID cardID now1).1 r2 boardID
          cardID now2).1.cards cardID = some c2 ∧
        c2.Version = wrapInt (wrapInt (c0.Version + 1) + 1) ∧
        (handleMoveCard (handleMoveCard s r1 boardID cardID now1).1 r2 boardID cardID
          now2).2.Body = Bytes.encode (Payload.moved c2.Version) ∧
        (minInt ≤ c0.Version → c0.Version + 2 ≤ maxInt → c2.Version = c0.Version + 2) ∧
        (handleMoveCard (handleMoveCard s r1 boardID cardID now1).1 r2 boardID cardID
          now2).1.idempo = s.idempo) := by
  refine ⟨handleMoveCard_idempo s, handleMoveColumn_idempo s, ?_⟩
  intro r1 r2 boardID cardID now1 now2 c0 h0 _ h1 h2
  obtain ⟨a0, a1, ha0, ha1, hv1, _, hi1, _, _⟩ :=
    handleMoveCard_accepted s r1 boardID cardID now1 h1
  obtain ⟨e0, e1, he0, he1, hv2, hb2, hi2, _, _⟩ :=
    handleMoveCard_accepted (handleMoveCard s r1 boardID cardID now1).1 r2 boardID cardID now2 h2
  rw [h0] at ha0
  cases ha0
  rw [ha1] at he0
  cases he0
  have hv : e1.Version = wrapInt (wrapInt (c0.Version + 1) + 1) := by rw [hv2, hv1]
  refine ⟨e1, he1, hv, by rw [hb2, hv2], fun hlo hhi => ?_, by rw [hi2, hi1]⟩
  rw [hv, wrapInt_eq (c0.Version + 1), wrapInt_eq] <;>
    (unfold minInt at *; unfold maxInt at *; omega)

theorem moves_not_cached_witness :
    ∃ c2, mapGet (handleMoveCard (handleMoveCard store1 (mcReq none none none none "t1") "b1"
        "X" 3).1 (mcReq none none none none "t1") "b1" "X" 4).1.cards "X" = some c2 ∧
      c2.Version = wrapInt (wrapInt ((0 : Int) + 1) + 1) ∧ c2.Version = (0 : Int) + 2 :=
  have ⟨c2, h1, h2, _, h4, _⟩ :=
    (moves_not_cached store1).2.2 (mcReq none none none none "t1")
      (mcReq none none none none "t1") "b1" "X" 3 4 (CardRec.mk "X" "b1" "A" "X" none "h" 0 2 2)
      (by decide) rfl (by decide) (by decide)
  ⟨c2, h1, h2, h4 (by decide) (by decide)⟩

/-- C7 as stated fails: two move-card requests with the same Idempotency-Key are both
applied; the version goes from 0 to 1 and then to 2, and the key from `q` to `u`. -/
theorem moves_replay_fails :
    (handleMoveCard store1 (mcReq none none none none "t1") "b1" "X" 3).2.Status = 200 ∧
    (mapGet (handleMoveCard store1 (mcReq none none none none "t1") "b1" "X" 3).1.cards "X").map
      (fun c => (c.Version, c.SortKey)) = some (1, "q") ∧
    (mapGet (handleMoveCard (handleMoveCard store1 (mcReq none none none none "t1") "b1" "X"
      3).1 (mcReq none none none none "t1") "b1" "X" 4).1.cards "X").map
      (fun c => (c.Version, c.SortKey)) = some (2, "u") ∧
    (handleMoveCard (handleMoveCard store1 (mcReq none none none none "t1") "b1" "X" 3).1
      (mcReq none none none none "t1") "b1" "X" 4).2.Body ≠
      (handleMoveCard store1 (mcReq none none none none "t1") "b1" "X" 3).2.Body := by decide

/-- C8. Version state machine.  A create-card that stores a card stores it with version
0 (and says so in its response); it leaves every card under another id as it was.  An
accepted move-card (status 200) increments the version of the card as a Go `int` and
reports the new value; for every previous version below `maxInt` the new value is the
previous version plus 1 (at `maxInt` the increment wraps to `minInt`).  A rejected move
changes nothing; a move leaves every other card as it was.  Create-column and move-column
do not touch the cards. -/
theorem version_state_machine (s : Store) :
    (∀ (r : Request CreateCardReq) (boardID columnID id : String) (now : Nat),
      (∀ cid, cid ≠ id →
        mapGet (handleCreateCard s r boardID columnID id now).1.cards cid = mapGet s.cards cid) ∧
      ((handleCreateCard s r boardID columnID id now).1.cards = s.cards ∨
        (∃ c, mapGet (handleCreateCard s r boardID columnID id now).1.cards id = some c ∧
          c.Version = 0 ∧
          ∃ out, (handleCreateCard s r boardID columnID id now).2.Body =
            Bytes.marshal (Payload.card out) ∧ out.Version = 0)) ∧
      ((handleCreateCard s r boardID columnID id now).2.Status = 201 →
        (r.IdempotencyKey = "" ∨ mapGet s.idempo r.IdempotencyKey = none) →
        ∃ c, mapGet (handleCreateCard s r boardID columnID id now).1.cards id = some c ∧
          c.Version = 0)) ∧
    (∀ (r : Request MoveCardReq) (boardID cardID : String) (now : Nat),
      ((handleMoveCard s r boardID cardID now).2.Status = 200 →
        ∃ c0 c1, mapGet s.cards cardID = some c0 ∧
          mapGet (handleMoveCard s r boardID cardID now).1.cards cardID = some c1 ∧
          c1.Version = wrapInt (c0.Version + 1) ∧
          (handleMoveCard s r boardID cardID now).2.Body =
            Bytes.encode (Payload.moved c1.Version) ∧
          (minInt ≤ c0.Version → c0.Version < maxInt →
            c1.Version = c0.Version + 1 ∧
            (handleMoveCard s r boardID cardID now).2.Body =
              Bytes.encode (Payload.moved (c0.Version + 1)))) ∧
      ((handleMoveCard s r boardID cardID now).2.Status ≠ 200 →
        (handleMoveCard s r boardID cardID now).1 = s) ∧
      (∀ cid, cid ≠ cardID →
        mapGet (handleMoveCard s r boardID cardID now).1.cards cid = mapGet s.cards cid)) ∧
    (∀ (r : Request CreateColumnReq) (boardID id : String) (now : Nat),
      (handleCreateColumn s r boardID id now).1.cards = s.cards) ∧
    (∀ (r : Request MoveColumnReq) (boardID columnID : String) (now : Nat),
      (handleMoveColumn s r boardID columnID now).1.cards = s.cards) := by
  refine ⟨?_, ?_, ?_, ?_⟩
  · intro r boardID columnID id now
    rcases handleCreateCard_cases s r boardID columnID id now with
      ⟨_, hcards, hst⟩ | ⟨hs, c, hk, hc, _⟩ | ⟨req, title, b, col, _, _, _, _, hcards, _, hst, hbody⟩
    · refine ⟨fun cid _ => by rw [hcards], Or.inl hcards, fun h => absurd h hst⟩
    · refine ⟨fun cid _ => by rw [hs], Or.inl (by rw [hs]), fun _ hmiss => ?_⟩
      rcases hmiss with hm | hm
      · exact absurd hm hk
      · rw [hm] at hc; cases hc
    · have hget : mapGet (handleCreateCard s r boardID columnID id now).1.cards id =
          some (CardRec.mk id boardID columnID title req.Description (lexoMid b.1 b.2) 0 now
            now) := by
        rw [hcards]; simp only [mapGet_mapSet, if_true]
      refine ⟨fun cid hcid => by rw [hcards]; simp only [mapGet_mapSet, hcid, if_false],
        Or.inr ⟨_, hget, rfl, _, hbody, rfl⟩, fun _ _ => ⟨_, hget, rfl⟩⟩
  · intro r boardID cardID now
    refine ⟨fun h => ?_, fun h => ?_, fun cid hcid => ?_⟩
    · obtain ⟨c0, c1, h0, h1, hv, hb, _⟩ := handleMoveCard_accepted s r boardID cardID now h
      have hplus : minInt ≤ c0.Version → c0.Version < maxInt →
          wrapInt (c0.Version + 1) = c0.Version + 1 := by
        intro hlo hhi
        apply wrapInt_eq <;> (unfold minInt at *; unfold maxInt at *; omega)
      refine ⟨c0, c1, h0, h1, hv, by rw [hb, hv], fun hlo hhi => ⟨?_, ?_⟩⟩
      · rw [hv, hplus hlo hhi]
      · rw [hb, hplus hlo hhi]
    · rcases handleMoveCard_cases s r boardID cardID now with
        ⟨hs, _⟩ | ⟨_, _, _, _, _, _, _, _, _, _, _, _, hs⟩
      · exact hs
      · rw [hs] at h
        exact absurd rfl h
    · rcases handleMoveCard_cases s r boardID cardID now with
        ⟨hs, _⟩ | ⟨_, _, _, _, _, _, _, _, _, _, _, _, hs⟩
      · rw [hs]
      · rw [hs]
        simp only [mapGet_mapSet, hcid, if_false]
  · intro r boardID id now
    rcases handleCreateColumn_cases s r boardID id now with
      ⟨_, hcards, _⟩ | ⟨hs, _⟩ | ⟨_, _, _, _, _, _, hcards, _⟩
    · exact hcards
    · rw [hs]
    · exact hcards
  · intro r boardID columnID now
    rcases handleMoveColumn_cases s r boardID columnID now with
      ⟨hs, _⟩ | ⟨_, _, _, _, _, _, _, _, hs⟩
    · rw [hs]
    · rw [hs]
      cases mapGet s.columns columnID <;> rfl

theorem version_state_machine_witness :
    ∃ c0 c1, mapGet store1.cards "X" = some c0 ∧
      mapGet (handleMoveCard store1 (mcReq none none none (some 0) "") "b1" "X" 3).1.cards "X" =
        some c1 ∧
      c1.Version = wrapInt (c0.Version + 1) ∧ c0.Version = 0 ∧ c1.Version = c0.Version + 1 ∧
      (handleMoveCard store1 (mcReq none none none (some 0) "") "b1" "X" 3).2.Body =
        Bytes.encode (Payload.moved (c0.Version + 1)) :=
  have ⟨c0, c1, h0, h1, hv, _, hb⟩ :=
    ((version_state_machine store1).2.1 (mcReq none none none (some 0) "") "b1" "X" 3).1
      (by decide)
  have hc0 : c0 = CardRec.mk "X" "b1" "A" "X" none "h" 0 2 2 :=
    Option.some.inj (h0.symm.trans (by decide))
  have hz : c0.Version = 0 := by rw [hc0]
  have hp := hb (by rw [hz]; decide) (by rw [hz]; decide)
  ⟨c0, c1, h0, h1, hv, hz, hp.1, hp.2⟩

/-- C9. A move-card on an existing card of the board with a supplied expectedVersion
other than the card's version leaves the store as it is, whatever target column and
anchors it carries; it is never accepted, and once the caller is past the permission
check the answer is 412 precondition_failed. -/
theorem stale_version_rejected (s : Store) (r : Request MoveCardReq) (boardID cardID : String)
    (now : Nat) (req : MoveCardReq) (c : CardRec) (v : Int) (hbody : r.Body = some req)
    (hc : mapGet s.cards cardID = some c) (hb : c.BoardID = boardID)
    (hv : req.ExpectedVer = some v) (hne : v ≠ c.Version) :
    (handleMoveCard s r boardID cardID now).1 = s ∧
    mapGet (handleMoveCard s r boardID cardID now).1.cards cardID = some c ∧
    (handleMoveCard s r boardID cardID now).2.Status ≠ 200 ∧
    (authorize s r boardID = .ok () →
      (handleMoveCard s r boardID cardID now).2 =
        writeError r 412 "precondition_failed" "Stale version" []) := by
  have hstore : (handleMoveCard s r boardID cardID now).1 = s ∧
      (handleMoveCard s r boardID cardID now).2.Status ≠ 200 := by
    rcases handleMoveCard_cases s r boardID cardID now with
      h | ⟨q, rec1, _, _, _, hq, hrec, _, hver, _⟩
    · exact h
    · rw [hbody] at hq
      cases hq
      rw [hc] at hrec
      cases hrec
      rw [hv] at hver
      rcases hver with h | h
      · cases h
      · exact absurd (Option.some.inj h) hne
  refine ⟨hstore.1, by rw [hstore.1]; exact hc, hstore.2, fun hA => ?_⟩
  have hne2 : ¬ (some v = some c.Version) := fun h => hne (Option.some.inj h)
  simp [handleMoveCard, hA, decodeBody, hbody, hc, hb, hv, hne2]

theorem stale_version_rejected_witness :
    (handleMoveCard store1 (mcReq (some "A") none none (some 7) "") "b1" "X" 3).1 = store1 ∧
    (handleMoveCard store1 (mcReq (some "A") none none (some 7) "") "b1" "X" 3).2.Status = 412 :=
  have h := stale_version_rejected store1 (mcReq (some "A") none none (some 7) "") "b1" "X" 3
    ⟨some "A", none, none, some 7⟩ (CardRec.mk "X" "b1" "A" "X" none "h" 0 2 2) 7 rfl
    (by decide) rfl rfl (by decide)
  ⟨h.1, by rw [h.2.2.2 rfl]; rfl⟩

/-- C10. No partial application: a create-column or create-card that is not answered
201, and a move-column or move-card that is not answered 200, leaves every column
record and every card record of the store as it was. -/
theorem no_partial_application (s : Store) :
    (∀ (r : Request CreateColumnReq) (boardID id : String) (now : Nat),
      (handleCreateColumn s r boardID id now).2.Status ≠ 201 →
      (handleCreateColumn s r boardID id now).1.columns = s.columns ∧
      (handleCreateColumn s r boardID id now).1.cards = s.cards) ∧
    (∀ (r : Request MoveColumnReq) (boardID columnID : String) (now : Nat),
      (handleMoveColumn s r boardID columnID now).2.Status ≠ 200 →
      (handleMoveColumn s r boardID columnID now).1.columns = s.columns ∧
      (handleMoveColumn s r boardID columnID now).1.cards = s.cards) ∧
    (∀ (r : Request CreateCardReq) (boardID columnID id : String) (now : Nat),
      (handleCreateCard s r boardID columnID id now).2.Status ≠ 201 →
      (handleCreateCard s r boardID columnID id now).1.columns = s.columns ∧
      (handleCreateCard s r boardID columnID id now).1.cards = s.cards) ∧
    (∀ (r : Request MoveCardReq) (boardID cardID : String) (now : Nat),
      (handleMoveCard s r boardID cardID now).2.Status ≠ 200 →
      (handleMoveCard s r boardID cardID now).1.columns = s.columns ∧
      (handleMoveCard s r boardID cardID now).1.cards = s.cards) := by
  refine ⟨?_, ?_, ?_, ?_⟩
  · intro r boardID id now h
    rcases handleCreateColumn_cases s r boardID id now with
      ⟨hcols, hcards, _⟩ | ⟨hs, _⟩ | ⟨_, _, _, _, _, _, _, hst⟩
    · exact ⟨hcols, hcards⟩
    · rw [hs]; exact ⟨rfl, rfl⟩
    · exact absurd hst h
  · intro r boardID columnID now h
    rcases handleMoveColumn_cases s r boardID columnID now with
      ⟨hs, _⟩ | ⟨_, _, _, _, _, _, _, _, hs⟩
    · rw [hs]; exact ⟨rfl, rfl⟩
    · rw [hs] at h
      exact absurd rfl h
  · intro r boardID columnID id now h
    rcases handleCreateCard_cases s r boardID columnID id now with
      ⟨hcols, hcards, _⟩ | ⟨hs, _⟩ | ⟨_, _, _, _, _, _, _, _, _, _, hst, _⟩
    · exact ⟨hcols, hcards⟩
    · rw [hs]; exact ⟨rfl, rfl⟩
    · exact absurd hst h
  · intro r boardID cardID now h
    rcases handleMoveCard_cases s r boardID cardID now with
      ⟨hs, _⟩ | ⟨_, _, _, _, _, _, _, _, _, _, _, _, hs⟩
    · rw [hs]; exact ⟨rfl, rfl⟩
    · rw [hs] at h
      exact absurd rfl h

theorem no_partial_application_witness :
    (handleMoveCard store1 (mcReq (some "nowhere") none none none "") "b1" "X" 3).1.columns =
      store1.columns ∧
    (handleMoveCard store1 (mcReq (some "nowhere") none none none "") "b1" "X" 3).1.cards =
      store1.cards :=
  (no_partial_application store1).2.2.2 (mcReq (some "nowhere") none none none "") "b1" "X" 3
    (by decide)

/-! ### Sibling keys -/

theorem mem_of_mapGet {V : Type} (m : List (String × V)) (k : String) (v : V)
    (h : mapGet m k = some v) : (k, v) ∈ m := by
  induction m with
  | nil => cases h
  | cons p m ih =>
    obtain ⟨a, w⟩ := p
    by_cases ha : a = k
    · subst ha
      simp only [mapGet, if_true, Option.some.injEq] at h
      subst h
      exact List.mem_cons_self _ _
    · simp only [mapGet, ha, if_false] at h
      exact List.mem_cons_of_mem _ (ih h)

theorem mapGet_of_mem {V : Type} (m : List (String × V)) (k : String) (v : V)
    (hn : (m.map Prod.fst).Nodup) (h : (k, v) ∈ m) : mapGet m k = some v := by
  induction m with
  | nil => cases h
  | cons p m ih =>
    obtain ⟨a, w⟩ := p
    simp only [List.map_cons, List.nodup_cons] at hn
    rcases List.mem_cons.mp h with h1 | h1
    · cases h1
      simp [mapGet]
    · have hne : a ≠ k := by
        intro e
        subst e
        exact hn.1 (List.mem_map.mpr ⟨(a, v), h1, rfl⟩)
      simp only [mapGet, hne, if_false]
      exact ih hn.2 h1

theorem mem_mapSet {V : Type} (m : List (String × V)) (k : String) (v : V) (x : String × V) :
    x ∈ mapSet m k v ↔ x = (k, v) ∨ (x ∈ m ∧ x.1 ≠ k) := by
  simp [mapSet, List.mem_filter]

theorem mapSet_keys_nodup {V : Type} (m : List (String × V)) (k : String) (v : V)
    (hn : (m.map Prod.fst).Nodup) : ((mapSet m k v).map Prod.fst).Nodup := by
  simp only [mapSet, List.map_cons, List.nodup_cons]
  constructor
  · intro hmem
    obtain ⟨x, hx, hk⟩ := List.mem_map.mp hmem
    have := (List.mem_filter.mp hx).2
    simp [hk] at this
  · exact (List.Nodup.sublist (List.Sublist.map _ (List.filter_sublist _)) hn)

/-- C1 as stated fails: after create-column `A`, then `B` with insertAfter `A`, then `C`
with insertAfter `A` again, the columns `B` and `C` of board `b1` both carry the key
`q`. -/
theorem sibling_keys_collide :
    Reachable storeABC ∧ ¬ SiblingKeysDistinct storeABC := by
  constructor
  · refine Reachable.step _ _ (Reachable.step _ _ (Reachable.step _ _
      (Reachable.init store0 rfl rfl) (Step.createColumn _ _ _ _ _ ?_))
      (Step.createColumn _ _ _ _ _ ?_)) (Step.createColumn _ _ _ _ _ ?_)
    · decide
    · decide
    · decide
  · intro h
    exact h.1 "B" (ColumnRec.mk "B" "b1" "B" "q" 2 2) "C" (ColumnRec.mk "C" "b1" "C" "q" 3 3)
      (by decide) (by decide) (by decide) rfl rfl

/-! ### Sorted listings -/

theorem strLess_iff_lt (a b : String) : strLess a b = true ↔ a.data < b.data :=
  goLess_iff_lt a.data b.data

/-- The sort key of a record in the order of the comparison closures: SortKey, then
CreatedAt, then ID. -/
theorem triple_lt_iff (k1 k2 i1 i2 : String) (t1 t2 : Nat) :
    (toLex (k1.data, toLex (t1, i1.data)) < toLex (k2.data, toLex (t2, i2.data))) ↔
      ((if k1 = k2 then (if t1 = t2 then strLess i1 i2 else decide (t1 < t2))
        else strLess k1 k2) = true) := by
  rw [Prod.Lex.lt_iff]
  simp only []
  rw [Prod.Lex.lt_iff]
  simp only []
  by_cases hk : k1 = k2
  · subst hk
    simp only [if_true, lt_irrefl, false_or, true_and]
    by_cases ht : t1 = t2
    · subst ht
      simp only [if_true, lt_irrefl, false_or, true_and, strLess_iff_lt]
    · simp only [ht, if_false, false_and, or_false, decide_eq_true_eq]
  · have hd : k1.data ≠ k2.data := fun e => hk (String.ext e)
    simp only [hk, if_false, hd, false_and, or_false, strLess_iff_lt]

theorem colLess_iff (a b : ColumnRec) :
    colLess a b = true ↔
      toLex (a.SortKey.data, toLex (a.CreatedAt, a.ID.data)) <
        toLex (b.SortKey.data, toLex (b.CreatedAt, b.ID.data)) := by
  rw [triple_lt_iff]; rfl

theorem cardLess_iff (a b : CardRec) :
    cardLess a b = true ↔
      toLex (a.SortKey.data, toLex (a.CreatedAt, a.ID.data)) <
        toLex (b.SortKey.data, toLex (b.CreatedAt, b.ID.data)) := by
  rw [triple_lt_iff]; rfl

/-- The outcome of `sortSlice` is a permutation of its input. -/
theorem sortSlice_perm {α : Type} (less : α → α → Bool) (xs : List α) :
    (sortSlice less xs).Perm xs :=
  List.perm_insertionSort _ xs

/-- When `less` is the strict order of a linearly ordered sort key, `sortSlice` returns
the elements in ascending order of that key. -/
theorem sortSlice_sorted {α β : Type} [LinearOrder β] (less : α → α → Bool) (f : α → β)
    (h : ∀ a b, less a b = true ↔ f a < f b) (xs : List α) :
    (sortSlice less xs).Pairwise (fun a b => f a ≤ f b) := by
  have hr : ∀ a b, (less b a = false) ↔ f a ≤ f b := by
    intro a b
    rw [← not_lt, ← h b a]
    simp
  haveI : IsTotal α (fun a b => less b a = false) :=
    ⟨fun a b => by rw [hr, hr]; exact le_total _ _⟩
  haveI : IsTrans α (fun a b => less b a = false) :=
    ⟨fun a b c => by rw [hr, hr, hr]; exact le_trans⟩
  have hs := List.sorted_insertionSort (fun a b => less b a = false) xs
  exact List.Pairwise.imp (fun {a b} hab => (hr a b).mp hab) hs

/-- In a list in ascending order every element is at most the last one. -/
theorem le_getLast_of_pairwise {α β : Type} [Preorder β] (f : α → β) (xs : List α) (x y : α)
    (hs : xs.Pairwise (fun a b => f a ≤ f b)) (hx : xs.getLast? = some x) (hy : y ∈ xs) :
    f y ≤ f x := by
  induction xs with
  | nil => cases hy
  | cons a xs ih =>
    cases xs with
    | nil =>
      simp at hx hy
      subst hx; subst hy
      exact le_refl _
    | cons b xs =>
      rw [List.getLast?_cons_cons] at hx
      rw [List.pairwise_cons] at hs
      rcases List.mem_cons.mp hy with hy1 | hy1
      · subst hy1
        have hxm : x ∈ b :: xs := List.mem_of_getLast?_eq_some hx
        exact hs.1 x hxm
      · exact ih hs.2 hx hy1

/-- No column of the listing has a key above the key of the last one. -/
theorem listColumnsSorted_last (s : Store) (boardID : String) (x y : ColumnRec)
    (hx : (listColumnsSorted s boardID).getLast? = some x)
    (hy : y ∈ listColumnsSorted s boardID) : strLess x.SortKey y.SortKey = false := by
  have hs := sortSlice_sorted colLess
    (fun c : ColumnRec => toLex (c.SortKey.data, toLex (c.CreatedAt, c.ID.data)))
    colLess_iff ((s.columns.map Prod.snd).filter (fun c => decide (c.BoardID = boardID)))
  have hle := le_getLast_of_pairwise _ _ x y hs hx hy
  rw [Prod.Lex.le_iff] at hle
  cases hlt : strLess x.SortKey y.SortKey with
  | false => rfl
  | true =>
    rw [strLess_iff_lt] at hlt
    rcases hle with h1 | ⟨h1, _⟩
    · exact absurd (lt_trans h1 hlt) (lt_irrefl _)
    · simp only [] at h1
      rw [h1] at hlt
      exact absurd hlt (lt_irrefl _)

/-- No card of the listing has a key above the key of the last one. -/
theorem listCardsSorted_last (s : Store) (boardID columnID : String) (x y : CardRec)
    (hx : (listCardsSorted s boardID columnID).getLast? = some x)
    (hy : y ∈ listCardsSorted s boardID columnID) : strLess x.SortKey y.SortKey = false := by
  have hs := sortSlice_sorted cardLess
    (fun c : CardRec => toLex (c.SortKey.data, toLex (c.CreatedAt, c.ID.data)))
    cardLess_iff ((s.cards.map Prod.snd).filter
      (fun c => decide (c.BoardID = boardID ∧ c.ColumnID = columnID)))
  have hle := le_getLast_of_pairwise _ _ x y hs hx hy
  rw [Prod.Lex.le_iff] at hle
  cases hlt : strLess x.SortKey y.SortKey with
  | false => rfl
  | true =>
    rw [strLess_iff_lt] at hlt
    rcases hle with h1 | ⟨h1, _⟩
    · exact absurd (lt_trans h1 hlt) (lt_irrefl _)
    · simp only [] at h1
      rw [h1] at hlt
      exact absurd hlt (lt_irrefl _)

theorem mem_listColumnsSorted (s : Store) (boardID : String) (c : ColumnRec) :
    c ∈ listColumnsSorted s boardID ↔ (∃ k, (k, c) ∈ s.columns) ∧ c.BoardID = boardID := by
  unfold listColumnsSorted
  rw [(sortSlice_perm _ _).mem_iff, List.mem_filter, List.mem_map]
  simp

theorem mem_listCardsSorted (s : Store) (boardID columnID : String) (c : CardRec) :
    c ∈ listCardsSorted s boardID columnID ↔
      (∃ k, (k, c) ∈ s.cards) ∧ c.BoardID = boardID ∧ c.ColumnID = columnID := by
  unfold listCardsSorted
  rw [(sortSlice_perm _ _).mem_iff, List.mem_filter, List.mem_map]
  simp

/-! ### Generated keys and resolved bounds -/

/-- The loop returns symbols of the alphabet, the last one with an index from 1 to 34. -/
theorem midFrom_symbols (fuel : Nat) (L R K : List Char)
    (hL : ∀ c ∈ L, c ∈ lexoAlphabet) (hR : ∀ c ∈ R, c ∈ lexoAlphabet)
    (h : midFrom fuel L R = some K) :
    (∀ c ∈ K, c ∈ lexoAlphabet) ∧
    ∃ m, 1 ≤ m ∧ m ≤ 34 ∧ K.getLast? = some (lexoAlphabet.getD m '0') := by
  induction fuel generalizing L R K with
  | zero => simp [midFrom] at h
  | succ n ih =>
    have hl36 : (L.head?.map a2i).getD 0 < 36 := by
      cases L with
      | nil => simp
      | cons c L => simpa using a2i_lt_of_mem c (hL c (List.mem_cons_self _ _))
    have hr36 : (R.head?.map a2i).getD 35 < 36 := by
      cases R with
      | nil => simp
      | cons d R => simpa using a2i_lt_of_mem d (hR d (List.mem_cons_self _ _))
    simp only [midFrom] at h
    split at h
    · rename_i hlr
      cases h
      have hm : ((L.head?.map a2i).getD 0 + (R.head?.map a2i).getD 35) / 2 < 36 := by omega
      refine ⟨?_, _, by omega, by omega, rfl⟩
      intro c hc
      rw [List.mem_singleton] at hc
      subst hc
      exact alphabet_getD_mem _ hm
    · cases hm : midFrom n L.tail R.tail with
      | none => simp [hm] at h
      | some K1 =>
        simp only [hm, Option.map_some', Option.some.injEq] at h
        subst h
        obtain ⟨h1, m, hm1, hm2, hm3⟩ := ih L.tail R.tail K1
          (fun x hx => hL x (List.mem_of_mem_tail hx))
          (fun x hx => hR x (List.mem_of_mem_tail hx)) hm
        refine ⟨?_, m, hm1, hm2, ?_⟩
        · intro c hc
          rcases List.mem_cons.mp hc with hc1 | hc1
          · subst hc1
            exact alphabet_getD_mem _ hl36
          · exact h1 c hc1
        · cases K1 with
          | nil => simp at hm3
          | cons k K2 => rw [List.getLast?_cons_cons]; exact hm3

/-- Whatever bounds over the alphabet it is given, `lexoMid` returns a generated key. -/
theorem lexoMid_genKey (left right : Option String)
    (hl : ∀ l, left = some l → OverAlphabet l) (hr : ∀ r, right = some r → OverAlphabet r) :
    GenKey (lexoMid left right) := by
  have hd := lexoMid_data left right
  have hL : ∀ c ∈ (left.getD "").data, c ∈ lexoAlphabet := by
    cases left with
    | none => intro c hc; simp at hc
    | some l => exact hl l rfl
  have hR : ∀ c ∈ (right.getD "").data, c ∈ lexoAlphabet := by
    cases right with
    | none => intro c hc; simp at hc
    | some r => exact hr r rfl
  obtain ⟨h1, m, hm1, hm2, hm3⟩ := midFrom_symbols _ _ _ _ hL hR hd
  refine ⟨h1, _, hm3, ?_⟩
  intro h0
  have := a2i_alphabet m (by omega)
  rw [h0] at this
  have h00 : a2i '0' = 0 := by decide
  omega

theorem GenKey.isOrderKey {s : String} (h : GenKey s) : IsOrderKey s := by
  refine ⟨?_, h.1⟩
  obtain ⟨c, hc, _⟩ := h.2
  intro hnil
  rw [hnil] at hc
  cases hc

/-- A generated key is not another key followed by symbols `0`, unless it is that key. -/
theorem GenKey.not_zeroExtension {l r : String} (hr : GenKey r) (hlt : strLess l r = true) :
    ¬ ZeroExtension l r := by
  rintro ⟨n, hn⟩
  obtain ⟨c, hc, hc0⟩ := hr.2
  cases n with
  | zero =>
    simp only [List.replicate_zero, List.append_nil] at hn
    unfold strLess at hlt
    rw [hn, goLess_irrefl] at hlt
    cases hlt
  | succ k =>
    rw [hn, List.replicate_succ', ← List.append_assoc, List.getLast?_concat] at hc
    exact hc0 (Option.some.inj hc).symm

/-- The bounds that `insertBounds` resolves are keys of listed siblings. -/
theorem insertBounds_mem {T : Type} (ID key : T → String) (sibs : List T)
    (beforeID afterID : Option String) (b : Option String × Option String)
    (h : insertBounds ID key sibs beforeID afterID = .ok b) :
    (∀ l, b.1 = some l → l ∈ sibs.map key) ∧ (∀ r, b.2 = some r → r ∈ sibs.map key) := by
  have hfind : ∀ id k, idToKey ID key sibs id = some k → k ∈ sibs.map key := by
    intro id k hk
    unfold idToKey at hk
    cases hf : sibs.find? (fun c => decide (ID c = id)) with
    | none => rw [hf] at hk; cases hk
    | some x =>
      rw [hf] at hk
      simp only [Option.map_some', Option.some.injEq] at hk
      subst hk
      exact List.mem_map.mpr ⟨x, List.mem_of_find?_eq_some hf, rfl⟩
  unfold insertBounds at h
  split at h
  · cases h
    refine ⟨fun l hl => ?_, fun r hr => by cases hr⟩
    simp only [Option.map_eq_some'] at hl
    obtain ⟨x, hx, hxl⟩ := hl
    subst hxl
    exact List.mem_map.mpr ⟨x, List.mem_of_getLast?_eq_some hx, rfl⟩
  · unfold anchorsToKeys at h
    split at h
    · split at h
      · cases h
      · rename_i rk hrk
        split at h
        · split at h
          · cases h
          · rename_i lk hlk
            cases h
            exact ⟨fun l hl => by cases hl; exact hfind _ _ hlk,
              fun r hr => by cases hr; exact hfind _ _ hrk⟩
        · cases h
          exact ⟨fun l hl => (by cases hl), fun r hr => by cases hr; exact hfind _ _ hrk⟩
    · split at h
      · split at h
        · cases h
        · rename_i lk hlk
          cases h
          exact ⟨fun l hl => by cases hl; exact hfind _ _ hlk, fun r hr => by cases hr⟩
      · cases h
        exact ⟨fun l hl => (by cases hl), fun r hr => by cases hr⟩

/-- The result is above a present left bound over the alphabet. -/
theorem key_lt_lexoMid (l : String) (right : Option String) (hl : OverAlphabet l)
    (hr : ∀ r, right = some r → OverAlphabet r) :
    strLess l (lexoMid (some l) right) = true := by
  have hd := lexoMid_data (some l) right
  have hR : ∀ c ∈ (right.getD "").data, c ∈ lexoAlphabet := by
    cases right with
    | none => intro c hc; simp at hc
    | some r => exact hr r rfl
  exact midFrom_gt _ _ _ _ hl hR hd

/-- The result is below a right bound that is a generated key above the left bound. -/
theorem lexoMid_lt_key (left : Option String) (r : String)
    (hl : ∀ l, left = some l → OverAlphabet l) (hr : GenKey r)
    (hlt : ∀ l, left = some l → strLess l r = true) :
    strLess (lexoMid left (some r)) r = true := by
  have hd := lexoMid_data left (some r)
  simp only [Option.getD_some] at hd
  obtain ⟨c, hc, hc0⟩ := hr.2
  cases left with
  | none =>
    simp only [Option.getD_none] at hd
    have hne : goLess [] r.data = true := by
      cases hdat : r.data with
      | nil => rw [hdat] at hc; cases hc
      | cons x R => rfl
    refine midFrom_lt _ _ _ _ (by simp) hr.1 hne ?_ hd
    rintro ⟨n, hn⟩
    have hmem := List.mem_of_getLast?_eq_some hc
    rw [hn] at hmem
    simp only [List.nil_append] at hmem
    exact hc0 (List.eq_of_mem_replicate hmem)
  | some l =>
    simp only [Option.getD_some] at hd
    exact midFrom_lt _ _ _ _ (hl l rfl) hr.1 (hlt l rfl)
      (hr.not_zeroExtension (hlt l rfl)) hd

/-- The midpoint of adjacent bounds is the key of no sibling. -/
theorem lexoMid_not_mem (keys : List String) (b : Option String × Option String)
    (hkeys : ∀ k ∈ keys, GenKey k)
    (hb1 : ∀ l, b.1 = some l → l ∈ keys) (hb2 : ∀ r, b.2 = some r → r ∈ keys)
    (hadj : BoundsAdjacent keys b) : lexoMid b.1 b.2 ∉ keys := by
  intro hmem
  apply hadj.2 _ hmem
  obtain ⟨bl, br⟩ := b
  refine ⟨fun l hl => ?_, fun r hr => ?_⟩
  · simp only at hl
    subst hl
    exact key_lt_lexoMid l br (hkeys l (hb1 l rfl)).1 (fun r hr => (hkeys r (hb2 r hr)).1)
  · simp only at hr
    subst hr
    exact lexoMid_lt_key bl r (fun l hl => (hkeys l (hb1 l hl)).1) (hkeys r (hb2 r rfl))
      (fun l hl => hadj.1 l r hl rfl)

/-- A create-column or move-column request without anchors names adjacent bounds: the
last column of the listing and nothing to its right. -/
theorem anchorsAdjacent_columns_none (s : Store) (boardID : String) :
    AnchorsAdjacent ColumnRec.ID ColumnRec.SortKey (listColumnsSorted s boardID) none none := by
  intro b hb
  simp only [insertBounds, and_self, if_true] at hb
  cases hb
  refine ⟨fun l r _ hr => (by cases hr), ?_⟩
  intro k hk hcon
  obtain ⟨y, hy, hyk⟩ := List.mem_map.mp hk
  cases hlast : (listColumnsSorted s boardID).getLast? with
  | none =>
    rw [List.getLast?_eq_none_iff] at hlast
    rw [hlast] at hy
    cases hy
  | some x =>
    have h1 := hcon.1 x.SortKey (by simp [hlast])
    have h2 := listColumnsSorted_last s boardID x y hlast hy
    rw [hyk, h1] at h2
    cases h2

/-- The same for create-card and move-card. -/
theorem anchorsAdjacent_cards_none (s : Store) (boardID columnID : String) :
    AnchorsAdjacent CardRec.ID CardRec.SortKey (listCardsSorted s boardID columnID) none
      none := by
  intro b hb
  simp only [insertBounds, and_self, if_true] at hb
  cases hb
  refine ⟨fun l r _ hr => (by cases hr), ?_⟩
  intro k hk hcon
  obtain ⟨y, hy, hyk⟩ := List.mem_map.mp hk
  cases hlast : (listCardsSorted s boardID columnID).getLast? with
  | none =>
    rw [List.getLast?_eq_none_iff] at hlast
    rw [hlast] at hy
    cases hy
  | some x =>
    have h1 := hcon.1 x.SortKey (by simp [hlast])
    have h2 := listCardsSorted_last s boardID columnID x y hlast hy
    rw [hyk, h1] at h2
    cases h2

/-! ### One request preserves the invariant -/

/-- Well-formedness and key distinctness only read the columns and the cards. -/
theorem invariant_congr (s t : Store) (hcols : t.columns = s.columns) (hcards : t.cards = s.cards)
    (h : WellFormed s ∧ SiblingKeysDistinct s) : WellFormed t ∧ SiblingKeysDistinct t := by
  obtain ⟨hw, hd⟩ := h
  constructor
  · constructor
    · rw [hcols]; exact hw.colKeys
    · rw [hcards]; exact hw.cardKeys
    · rw [hcols]; exact hw.colRec
    · rw [hcols, hcards]; exact hw.cardRec
  · unfold SiblingKeysDistinct
    rw [hcols, hcards]
    exact hd

/-- Writing a column record under its id keeps the invariant when its key is a generated
key that no other column of its board carries and the write does not change the board
of an existing column. -/
theorem invariant_put_column (s t : Store) (id : String) (cr : ColumnRec)
    (h : WellFormed s ∧ SiblingKeysDistinct s)
    (hcols : t.columns = mapSet s.columns id cr) (hcards : t.cards = s.cards)
    (hid : cr.ID = id) (hkey : GenKey cr.SortKey)
    (hboard : ∀ c0, mapGet s.columns id = some c0 → c0.BoardID = cr.BoardID)
    (hnew : ∀ k c, mapGet s.columns k = some c → k ≠ id → c.BoardID = cr.BoardID →
      c.SortKey ≠ cr.SortKey) :
    WellFormed t ∧ SiblingKeysDistinct t := by
  obtain ⟨hw, hd⟩ := h
  constructor
  · constructor
    · rw [hcols]; exact mapSet_keys_nodup _ _ _ hw.colKeys
    · rw [hcards]; exact hw.cardKeys
    · intro k c hmem
      rw [hcols, mem_mapSet] at hmem
      rcases hmem with h1 | ⟨h1, _⟩
      · cases h1
        exact ⟨hid, hkey⟩
      · exact hw.colRec k c h1
    · intro k c hmem
      rw [hcards] at hmem
      obtain ⟨h1, h2, col, hcol, hcb⟩ := hw.cardRec k c hmem
      refine ⟨h1, h2, ?_⟩
      rw [hcols]
      by_cases hc : c.ColumnID = id
      · refine ⟨cr, by simp only [mapGet_mapSet, hc, if_true], ?_⟩
        rw [hc] at hcol
        rw [← hboard col hcol, hcb]
      · exact ⟨col, by simp only [mapGet_mapSet, hc, if_false]; exact hcol, hcb⟩
  · constructor
    · intro k1 c1 k2 c2 h1 h2 hne hb
      rw [hcols, mapGet_mapSet] at h1 h2
      by_cases e1 : k1 = id
      · by_cases e2 : k2 = id
        · exact absurd (e1.trans e2.symm) hne
        · simp only [e1, if_true, Option.some.injEq] at h1
          simp only [e2, if_false] at h2
          subst h1
          exact (hnew k2 c2 h2 e2 hb.symm).symm
      · simp only [e1, if_false] at h1
        by_cases e2 : k2 = id
        · simp only [e2, if_true, Option.some.injEq] at h2
          subst h2
          exact hnew k1 c1 h1 e1 hb
        · simp only [e2, if_false] at h2
          exact hd.1 k1 c1 k2 c2 h1 h2 hne hb
    · rw [hcards]
      exact hd.2

/-- Writing a card record under its id keeps the invariant when its key is a generated
key that no other card of its column carries and its column is a column of its board. -/
theorem invariant_put_card (s t : Store) (id : String) (cr : CardRec)
    (h : WellFormed s ∧ SiblingKeysDistinct s)
    (hcols : t.columns = s.columns) (hcards : t.cards = mapSet s.cards id cr)
    (hid : cr.ID = id) (hkey : GenKey cr.SortKey)
    (hcol : ∃ col, mapGet s.columns cr.ColumnID = some col ∧ col.BoardID = cr.BoardID)
    (hnew : ∀ k c, mapGet s.cards k = some c → k ≠ id → c.ColumnID = cr.ColumnID →
      c.SortKey ≠ cr.SortKey) :
    WellFormed t ∧ SiblingKeysDistinct t := by
  obtain ⟨hw, hd⟩ := h
  constructor
  · constructor
    · rw [hcols]; exact hw.colKeys
    · rw [hcards]; exact mapSet_keys_nodup _ _ _ hw.cardKeys
    · rw [hcols]; exact hw.colRec
    · intro k c hmem
      rw [hcards, mem_mapSet] at hmem
      rw [hcols]
      rcases hmem with h1 | ⟨h1, _⟩
      · cases h1
        exact ⟨hid, hkey, hcol⟩
      · exact hw.cardRec k c h1
  · constructor
    · rw [hcols]
      exact hd.1
    · intro k1 c1 k2 c2 h1 h2 hne hb
      rw [hcards, mapGet_mapSet] at h1 h2
      by_cases e1 : k1 = id
      · by_cases e2 : k2 = id
        · exact absurd (e1.trans e2.symm) hne
        · simp only [e1, if_true, Option.some.injEq] at h1
          simp only [e2, if_false] at h2
          subst h1
          exact (hnew k2 c2 h2 e2 hb.symm).symm
      · simp only [e1, if_false] at h1
        by_cases e2 : k2 = id
        · simp only [e2, if_true, Option.some.injEq] at h2
          subst h2
          exact hnew k1 c1 h1 e1 hb
        · simp only [e2, if_false] at h2
          exact hd.2 k1 c1 k2 c2 h1 h2 hne hb

/-- The keys of the listed columns are generated keys. -/
theorem listColumnsSorted_genKey (s : Store) (hw : WellFormed s) (boardID : String) :
    ∀ k ∈ (listColumnsSorted s boardID).map ColumnRec.SortKey, GenKey k := by
  intro k hk
  obtain ⟨c, hc, hck⟩ := List.mem_map.mp hk
  obtain ⟨⟨k0, hk0⟩, _⟩ := (mem_listColumnsSorted s boardID c).mp hc
  rw [← hck]
  exact (hw.colRec k0 c hk0).2

/-- The keys of the listed cards are generated keys. -/
theorem listCardsSorted_genKey (s : Store) (hw : WellFormed s) (boardID columnID : String) :
    ∀ k ∈ (listCardsSorted s boardID columnID).map CardRec.SortKey, GenKey k := by
  intro k hk
  obtain ⟨c, hc, hck⟩ := List.mem_map.mp hk
  obtain ⟨⟨k0, hk0⟩, _⟩ := (mem_listCardsSorted s boardID columnID c).mp hc
  rw [← hck]
  exact (hw.cardRec k0 c hk0).2.1

/-- The midpoint of resolved, adjacent bounds is a generated key that no listed sibling
carries. -/
theorem newKey_fresh {T : Type} (ID key : T → String) (sibs : List T)
    (beforeID afterID : Option String) (b : Option String × Option String)
    (hgen : ∀ k ∈ sibs.map key, GenKey k)
    (hb : insertBounds ID key sibs beforeID afterID = .ok b)
    (hadj : AnchorsAdjacent ID key sibs beforeID afterID) :
    GenKey (lexoMid b.1 b.2) ∧ ∀ x ∈ sibs, key x ≠ lexoMid b.1 b.2 := by
  obtain ⟨h1, h2⟩ := insertBounds_mem ID key sibs beforeID afterID b hb
  refine ⟨lexoMid_genKey _ _ (fun l hl => (hgen l (h1 l hl)).1)
    (fun r hr => (hgen r (h2 r hr)).1), ?_⟩
  intro x hx e
  exact lexoMid_not_mem (sibs.map key) b hgen h1 h2 (hadj b hb)
    (e ▸ List.mem_map.mpr ⟨x, hx, rfl⟩)

/-- One request with adjacent anchors keeps the store well formed and its sibling keys
distinct. -/
theorem adjStep_invariant (s t : Store) (h : WellFormed s ∧ SiblingKeysDistinct s)
    (hs : AdjStep s t) : WellFormed t ∧ SiblingKeysDistinct t := by
  cases hs with
  | createColumn r boardID id now hfresh hadj =>
    rcases handleCreateColumn_cases s r boardID id now with
      ⟨hcols, hcards, _⟩ | ⟨hst, _⟩ | ⟨req, name, b, hbody, hb, hcols, hcards, _⟩
    · exact invariant_congr s _ hcols hcards h
    · rw [hst]; exact h
    · obtain ⟨hg, hne⟩ := newKey_fresh ColumnRec.ID ColumnRec.SortKey _ _ _ b
        (listColumnsSorted_genKey s h.1 boardID) hb (hadj req hbody)
      refine invariant_put_column s _ id _ h hcols hcards rfl hg ?_ ?_
      · intro c0 hc0
        rw [hfresh] at hc0
        cases hc0
      · intro k c hkc _ hbd
        exact hne c ((mem_listColumnsSorted s boardID c).mpr
          ⟨⟨k, mem_of_mapGet _ _ _ hkc⟩, hbd⟩)
  | moveColumn r boardID columnID now hadj =>
    rcases handleMoveColumn_cases s r boardID columnID now with
      ⟨hst, _⟩ | ⟨req, target, b, _, hbody, htm, htid, hb, hst⟩
    · rw [hst]; exact h
    · obtain ⟨⟨k0, hk0⟩, htb⟩ := (mem_listColumnsSorted s boardID target).mp htm
      have hk : k0 = columnID := by rw [← htid]; exact ((h.1.colRec k0 target hk0).1).symm
      subst hk
      have hget := mapGet_of_mem _ _ _ h.1.colKeys hk0
      obtain ⟨hg, hne⟩ := newKey_fresh ColumnRec.ID ColumnRec.SortKey _ _ _ b
        (listColumnsSorted_genKey s h.1 boardID) hb (hadj req hbody)
      rw [hst]
      simp only [hget]
      refine invariant_put_column s _ k0
        (ColumnRec.mk target.ID target.BoardID target.Name (lexoMid b.1 b.2) target.CreatedAt now)
        h rfl rfl htid hg ?_ ?_
      · intro c0 hc0
        rw [hget] at hc0
        cases hc0
        rfl
      · intro k c hkc _ hbd
        exact hne c ((mem_listColumnsSorted s boardID c).mpr
          ⟨⟨k, mem_of_mapGet _ _ _ hkc⟩, hbd.trans htb⟩)
  | createCard r boardID columnID id now hfresh hadj =>
    rcases handleCreateCard_cases s r boardID columnID id now with
      ⟨hcols, hcards, _⟩ | ⟨hst, _⟩ |
      ⟨req, title, b, col, hbody, hcol, hcb, hb, hcards, hcols, _, _⟩
    · exact invariant_congr s _ hcols hcards h
    · rw [hst]; exact h
    · obtain ⟨hg, hne⟩ := newKey_fresh CardRec.ID CardRec.SortKey _ _ _ b
        (listCardsSorted_genKey s h.1 boardID columnID) hb (hadj req hbody)
      refine invariant_put_card s _ id _ h hcols hcards rfl hg ⟨col, hcol, hcb⟩ ?_
      intro k c hkc _ hcc
      have hmem := mem_of_mapGet _ _ _ hkc
      obtain ⟨_, _, col1, hcol1, hcb1⟩ := h.1.cardRec k c hmem
      have hcc1 : c.ColumnID = columnID := hcc
      rw [hcc1, hcol] at hcol1
      cases hcol1
      exact hne c ((mem_listCardsSorted s boardID columnID c).mpr
        ⟨⟨k, hmem⟩, hcb1.symm.trans hcb, hcc1⟩)
  | moveCard r boardID cardID now hadj =>
    rcases handleMoveCard_cases s r boardID cardID now with
      ⟨hst, _⟩ | ⟨req, rec1, tc, b, _, hbody, hrec, hrb, _, htc, htb, hb, hst⟩
    · rw [hst]; exact h
    · obtain ⟨hg, hne⟩ := newKey_fresh CardRec.ID CardRec.SortKey _ _ _ b
        (listCardsSorted_genKey s h.1 boardID _) hb (hadj req rec1 hbody hrec)
      have hid : rec1.ID = cardID := (h.1.cardRec cardID rec1 (mem_of_mapGet _ _ _ hrec)).1
      rw [hst]
      refine invariant_put_card s _ cardID
        (CardRec.mk rec1.ID rec1.BoardID (req.ToColumnID.getD rec1.ColumnID) rec1.Title rec1.Desc
          (lexoMid b.1 b.2) (wrapInt (rec1.Version + 1)) rec1.CreatedAt now)
        h rfl rfl hid hg ⟨tc, htc, htb⟩ ?_
      intro k c hkc _ hcc
      have hmem := mem_of_mapGet _ _ _ hkc
      obtain ⟨_, _, col1, hcol1, hcb1⟩ := h.1.cardRec k c hmem
      have hcc1 : c.ColumnID = req.ToColumnID.getD rec1.ColumnID := hcc
      rw [hcc1, htc] at hcol1
      cases hcol1
      exact hne c ((mem_listCardsSorted s boardID _ c).mpr
        ⟨⟨k, hmem⟩, hcb1.symm.trans (htb.trans hrb), hcc1⟩)

/-- Every store reached through requests with adjacent anchors is well formed and has
distinct sibling keys. -/
theorem adjReachable_invariant (s : Store) (h : AdjReachable s) :
    WellFormed s ∧ SiblingKeysDistinct s := by
  induction h with
  | init s hcols hcards =>
    constructor
    · constructor
      · rw [hcols]; exact List.nodup_nil
      · rw [hcards]; exact List.nodup_nil
      · intro k c hmem; rw [hcols] at hmem; cases hmem
      · intro k c hmem; rw [hcards] at hmem; cases hmem
    · constructor
      · intro k1 c1 k2 c2 h1; rw [hcols] at h1; cases h1
      · intro k1 c1 k2 c2 h1; rw [hcards] at h1; cases h1
  | step s t _ hst ih => exact adjStep_invariant s t ih hst

/-- C1, as the code has it. In every store reached from a store without columns and
cards by sequentially handled create-column, move-column, create-card and move-card
requests whose anchors, when a request carries any, name neighbouring siblings of the
sorted listing (no sibling key strictly between the resolved bounds, left below right),
the SortKeys of the columns of one board are pairwise distinct and so are the SortKeys
of the cards of one column.  Requests without anchors always qualify. -/
theorem sibling_keys_distinct (s : Store) (h : AdjReachable s) :
    SiblingKeysDistinct s ∧
    (∀ boardID, AnchorsAdjacent ColumnRec.ID ColumnRec.SortKey (listColumnsSorted s boardID)
      none none) ∧
    (∀ boardID columnID, AnchorsAdjacent CardRec.ID CardRec.SortKey
      (listCardsSorted s boardID columnID) none none) :=
  ⟨(adjReachable_invariant s h).2, anchorsAdjacent_columns_none s,
    anchorsAdjacent_cards_none s⟩

theorem sibling_keys_distinct_witness : SiblingKeysDistinct storeAB :=
  (sibling_keys_distinct storeAB
    (AdjReachable.step _ _
      (AdjReachable.step _ _ (AdjReachable.init store0 rfl rfl)
        (AdjStep.createColumn store0 (ccReq "A" none none "") "b1" "A" 1 (by decide)
          (fun req hreq => by
            cases hreq
            exact anchorsAdjacent_columns_none store0 "b1")))
      (AdjStep.createColumn _ (ccReq "B" none (some "A") "") "b1" "B" 2 (by decide)
        (fun req hreq => by
          cases hreq
          intro b hb
          have hb2 : insertBounds ColumnRec.ID ColumnRec.SortKey
              (listColumnsSorted (handleCreateColumn store0 (ccReq "A" none none "") "b1" "A"
                1).1 "b1") none (some "A") = .ok (some "h", none) := rfl
          rw [hb2] at hb
          cases hb
          refine ⟨fun l r _ hr => (by cases hr), ?_⟩
          intro k hk hcon
          have hk2 : k = "h" := by
            have hl : (listColumnsSorted (handleCreateColumn store0 (ccReq "A" none none "")
                "b1" "A" 1).1 "b1").map ColumnRec.SortKey = ["h"] := by decide
            rw [hl] at hk
            exact List.mem_singleton.mp hk
          subst hk2
          have := hcon.1 "h" rfl
          revert this
          decide)))).1

/-! ### Termination of the midpoint loop -/

/-- More fuel does not change what the loop returns. -/
theorem midFrom_add_fuel (n e : Nat) (L R K : List Char) (h : midFrom n L R = some K) :
    midFrom (n + e) L R = some K := by
  induction n generalizing L R K with
  | zero => simp [midFrom] at h
  | succ m ih =>
    rw [Nat.succ_add]
    simp only [midFrom] at h ⊢
    split
    · rename_i hlr
      simpa only [hlr, if_true] using h
    · rename_i hlr
      simp only [hlr, if_false] at h
      cases hm : midFrom m L.tail R.tail with
      | none => simp [hm] at h
      | some K1 =>
        rw [ih _ _ _ hm]
        simpa only [hm] using h

/-- The loop of `lexoMid`, started at position 0 with `max (len L) (len R) + 1` units of
fuel, returns. -/
theorem lexoMidLoop_isSome (L R : List Char) :
    ∃ K, lexoMidLoop L R (max L.length R.length + 1) 0 [] = some K := by
  obtain ⟨K, hK⟩ := midFrom_isSome (max L.length R.length + 1) L R (Nat.lt_succ_self _)
  refine ⟨K, ?_⟩
  rw [lexoMidLoop_eq_midFrom]
  simp [hK]

/-- C14. The loop of `lexoMid` returns on every input, whether or not `left < right` and
whatever the symbols are: `max (len left) (len right) + 1` iterations are enough, and
with any larger number of iterations allowed the loop returns the same string, the one
that `lexoMid` yields. -/
theorem lexoMid_terminates (left right : Option String) (extra : Nat) :
    lexoMidLoop (left.getD "").data (right.getD "").data
      (max (left.getD "").data.length (right.getD "").data.length + 1 + extra) 0 [] =
      some (lexoMid left right).data := by
  rw [lexoMidLoop_eq_midFrom]
  simp only [List.drop_zero]
  rw [midFrom_add_fuel _ extra _ _ _ (lexoMid_data left right)]
  simp

/-! ### Requests without a token, and what a move leaves alone -/

/-- C19. With an empty Idempotency-Key `withIdempotency` calls the closure once, writes
the closure's status and the encoding of its body, and leaves the store, cache
included, as the closure left it: it adds no cache entry. -/
theorem withIdempotency_without_token {β : Type} (s : Store) (r : Request β)
    (handler : Store → Store × Nat × Payload × String) (hk : r.IdempotencyKey = "") :
    (withIdempotency s r handler).calls = 1 ∧
    (withIdempotency s r handler).resp.Status = (handler s).2.1 ∧
    (withIdempotency s r handler).resp.Body = Bytes.marshal (handler s).2.2.1 ∧
    (withIdempotency s r handler).store = (handler s).1 ∧
    (withIdempotency s r handler).store.idempo = (handler s).1.idempo ∧
    ((handler s).1.idempo = s.idempo → (withIdempotency s r handler).store.idempo = s.idempo) := by
  rw [withIdempotency_no_key s r handler hk]
  exact ⟨rfl, rfl, rfl, rfl, rfl, fun h => h⟩

theorem withIdempotency_without_token_witness :
    (withIdempotency store0 (ccReq "A" none none "")
      (createColumnOp "b1" ⟨"A", none, none⟩ "A" "A" 1)).calls = 1 ∧
    (withIdempotency store0 (ccReq "A" none none "")
      (createColumnOp "b1" ⟨"A", none, none⟩ "A" "A" 1)).store.idempo = store0.idempo :=
  have h := withIdempotency_without_token store0 (ccReq "A" none none "")
    (createColumnOp "b1" ⟨"A", none, none⟩ "A" "A" 1) rfl
  ⟨h.1, h.2.2.2.2.2 rfl⟩

/-- C20. A move-card answered 200 rewrites the card under `cardID` only: its ID, BoardID,
title, description and creation time stay, its column is the supplied toColumnId or, if
none is supplied, the old column, its version is the old one incremented as a Go `int`;
every other card, and the columns, boards, memberships and cache, are as before. -/
theorem move_card_frame (s : Store) (r : Request MoveCardReq) (boardID cardID : String)
    (now : Nat) (h : (handleMoveCard s r boardID cardID now).2.Status = 200) :
    ∃ req c0 c1, r.Body = some req ∧ mapGet s.cards cardID = some c0 ∧
      mapGet (handleMoveCard s r boardID cardID now).1.cards cardID = some c1 ∧
      c1.ID = c0.ID ∧ c1.BoardID = c0.BoardID ∧ c1.Title = c0.Title ∧ c1.Desc = c0.Desc ∧
      c1.CreatedAt = c0.CreatedAt ∧
      (req.ToColumnID = none → c1.ColumnID = c0.ColumnID) ∧
      (∀ t, req.ToColumnID = some t → c1.ColumnID = t) ∧
      c1.Version = wrapInt (c0.Version + 1) ∧ c1.UpdatedAt = now ∧
      (∀ cid, cid ≠ cardID →
        mapGet (handleMoveCard s r boardID cardID now).1.cards cid = mapGet s.cards cid) ∧
      (handleMoveCard s r boardID cardID now).1.columns = s.columns ∧
      (handleMoveCard s r boardID cardID now).1.boards = s.boards ∧
      (handleMoveCard s r boardID cardID now).1.memberships = s.memberships ∧
      (handleMoveCard s r boardID cardID now).1.idempo = s.idempo := by
  rcases handleMoveCard_cases s r boardID cardID now with
    ⟨_, hne⟩ | ⟨q, rec1, _, b, _, hbody, hc, _, _, _, _, _, hs⟩
  · exact absurd h hne
  · rw [hs]
    refine ⟨q, rec1, CardRec.mk rec1.ID rec1.BoardID (q.ToColumnID.getD rec1.ColumnID) rec1.Title
      rec1.Desc (lexoMid b.1 b.2) (wrapInt (rec1.Version + 1)) rec1.CreatedAt now, hbody, hc,
      by simp only [mapGet_mapSet, if_true], rfl, rfl, rfl, rfl, rfl, ?_, ?_, rfl, rfl, ?_,
      rfl, rfl, rfl, rfl⟩
    · intro hn
      simp only [hn, Option.getD_none]
    · intro t ht
      simp only [ht, Option.getD_some]
    · intro cid hcid
      simp only [mapGet_mapSet, hcid, if_false]

theorem move_card_frame_witness :
    ∃ req c0 c1, (mcReq none none none none "").Body = some req ∧
      mapGet store1.cards "X" = some c0 ∧
      mapGet (handleMoveCard store1 (mcReq none none none none "") "b1" "X" 3).1.cards "X" =
        some c1 ∧ c1.ID = c0.ID ∧ c1.BoardID = c0.BoardID :=
  have ⟨req, c0, c1, h1, h2, h3, h4, h5, _⟩ :=
    move_card_frame store1 (mcReq none none none none "") "b1" "X" 3 (by decide)
  ⟨req, c0, c1, h1, h2, h3, h4, h5⟩

/-! ### Repeated insertion at one end -/

theorem strLess_trans {a b c : String} (h1 : strLess a b = true) (h2 : strLess b c = true) :
    strLess a c = true := by
  rw [strLess_iff_lt] at h1 h2 ⊢
  exact lt_trans h1 h2

theorem strLess_ne {a b : String} (h : strLess a b = true) : a ≠ b := by
  intro e
  subst e
  unfold strLess at h
  rw [goLess_irrefl] at h
  cases h

theorem endKeys_genKey (n : Nat) : GenKey (endKeys n) := by
  cases n with
  | zero => exact lexoMid_genKey none none (fun l hl => by cases hl) (fun r hr => by cases hr)
  | succ m =>
    exact lexoMid_genKey _ none
      (fun l hl => by cases hl; exact (endKeys_genKey m).1) (fun r hr => by cases hr)

theorem startKeys_genKey (n : Nat) : GenKey (startKeys n) := by
  cases n with
  | zero => exact lexoMid_genKey none none (fun l hl => by cases hl) (fun r hr => by cases hr)
  | succ m =>
    exact lexoMid_genKey none _ (fun l hl => by cases hl)
      (fun r hr => by cases hr; exact (startKeys_genKey m).1)

theorem endKeys_step (n : Nat) : strLess (endKeys n) (endKeys (n + 1)) = true :=
  key_lt_lexoMid (endKeys n) none (endKeys_genKey n).1 (fun r hr => by cases hr)

theorem startKeys_step (n : Nat) : strLess (startKeys (n + 1)) (startKeys n) = true :=
  lexoMid_lt_key none (startKeys n) (fun l hl => by cases hl) (startKeys_genKey n)
    (fun l hl => by cases hl)

theorem endKeys_lt (i d : Nat) : strLess (endKeys i) (endKeys (i + d + 1)) = true := by
  induction d with
  | zero => exact endKeys_step i
  | succ e ih => exact strLess_trans ih (endKeys_step (i + e + 1))

theorem startKeys_lt (i d : Nat) : strLess (startKeys (i + d + 1)) (startKeys i) = true := by
  induction d with
  | zero => exact startKeys_step i
  | succ e ih => exact strLess_trans (startKeys_step (i + e + 1)) ih

/-- C15. Repeated insertion at the same boundary never collides: among the keys of
repeated insertion at the end, an earlier key is strictly below every later one, among
those of repeated insertion at the start strictly above, for any number of insertions;
so the keys are pairwise distinct. -/
theorem repeated_insertion_distinct (i j : Nat) (h : i < j) :
    strLess (endKeys i) (endKeys j) = true ∧ strLess (startKeys j) (startKeys i) = true ∧
    endKeys i ≠ endKeys j ∧ startKeys i ≠ startKeys j := by
  obtain ⟨d, rfl⟩ : ∃ d, j = i + d + 1 := ⟨j - i - 1, by omega⟩
  exact ⟨endKeys_lt i d, startKeys_lt i d, strLess_ne (endKeys_lt i d),
    (strLess_ne (startKeys_lt i d)).symm⟩

theorem repeated_insertion_distinct_witness :
    (0 : Nat) < 3 ∧ strLess (endKeys 0) (endKeys 3) = true ∧
    strLess (startKeys 3) (startKeys 0) = true ∧
    endKeys 0 ≠ endKeys 3 ∧ startKeys 0 ≠ startKeys 3 :=
  ⟨by decide, repeated_insertion_distinct 0 3 (by decide)⟩

/-! ### The cache keeps its entries -/

theorem createColumnOp_idempo (boardID : String) (req : CreateColumnReq) (name id : String)
    (now : Nat) (s : Store) : (createColumnOp boardID req name id now s).1.idempo = s.idempo := by
  rcases createColumnOp_cases boardID req name id now s with h | ⟨b, _, h⟩ <;> rw [h]

theorem createCardOp_idempo (boardID columnID : String) (req : CreateCardReq)
    (title id : String) (now : Nat) (s : Store) :
    (createCardOp boardID columnID req title id now s).1.idempo = s.idempo := by
  rcases createCardOp_cases boardID columnID req title id now s with h | ⟨b, _, h⟩ <;> rw [h]

/-- Around a closure that leaves the cache alone, `withIdempotency` keeps every entry
the cache holds. -/
theorem withIdempotency_keeps {β : Type} (s : Store) (r : Request β)
    (handler : Store → Store × Nat × Payload × String) (T : String) (c : CachedResponse)
    (hh : (handler s).1.idempo = s.idempo) (hT : mapGet s.idempo T = some c) :
    mapGet (withIdempotency s r handler).store.idempo T = some c := by
  by_cases hk : r.IdempotencyKey = ""
  · rw [withIdempotency_no_key s r handler hk]
    simp only [hh, hT]
  · cases hc : mapGet s.idempo r.IdempotencyKey with
    | none =>
      rw [withIdempotency_miss s r handler hk hc]
      have hne : T ≠ r.IdempotencyKey := by
        intro e
        rw [e, hc] at hT
        cases hT
      simp only [mapGet_mapSet, hne, if_false, hh, hT]
    | some c1 =>
      rw [withIdempotency_hit s r handler c1 hk hc]
      exact hT

/-- One handled request keeps every entry the cache holds. -/
theorem handled_keeps (s t : Store) (h : Handled s t) (T : String) (c : CachedResponse)
    (hT : mapGet s.idempo T = some c) : mapGet t.idempo T = some c := by
  cases h with
  | createColumn r boardID id now =>
    cases hch : createColumnChecks s r boardID with
    | error e => rw [handleCreateColumn_error _ _ _ _ _ _ hch]; exact hT
    | ok v =>
      rw [handleCreateColumn_ok _ _ _ _ _ _ hch]
      exact withIdempotency_keeps s r _ T c (createColumnOp_idempo _ _ _ _ _ s) hT
  | moveColumn r boardID columnID now =>
    rcases handleMoveColumn_cases s r boardID columnID now with
      ⟨hs, _⟩ | ⟨_, _, _, _, _, _, _, _, hs⟩
    · rw [hs]; exact hT
    · rw [hs]
      cases mapGet s.columns columnID <;> exact hT
  | createCard r boardID columnID id now =>
    cases hch : createCardChecks s r boardID columnID with
    | error e => rw [handleCreateCard_error _ _ _ _ _ _ _ hch]; exact hT
    | ok v =>
      rw [handleCreateCard_ok _ _ _ _ _ _ _ hch]
      exact withIdempotency_keeps s r _ T c (createCardOp_idempo _ _ _ _ _ _ s) hT
  | moveCard r boardID cardID now =>
    rcases handleMoveCard_cases s r boardID cardID now with
      ⟨hs, _⟩ | ⟨_, _, _, _, _, _, _, _, _, _, _, _, hs⟩
    · rw [hs]; exact hT
    · rw [hs]; exact hT

/-- C17. Idempotency records are immutable: once the cache maps a token `T` to a
response, it maps `T` to that response after every further sequence of sequentially
handled create-column, move-column, create-card and move-card requests; and
`withIdempotency` keeps the entry around any closure that leaves the cache alone. -/
theorem cache_entries_immutable (T : String) (c : CachedResponse) :
    (∀ (s t : Store), Relation.ReflTransGen Handled s t → mapGet s.idempo T = some c →
      mapGet t.idempo T = some c) ∧
    (∀ (β : Type) (s : Store) (r : Request β)
      (handler : Store → Store × Nat × Payload × String),
      (handler s).1.idempo = s.idempo → mapGet s.idempo T = some c →
      mapGet (withIdempotency s r handler).store.idempo T = some c) := by
  constructor
  · intro s t hst hT
    induction hst with
    | refl => exact hT
    | tail _ hstep ih => exact handled_keeps _ _ hstep T c ih
  · intro β s r handler hh hT
    exact withIdempotency_keeps s r handler T c hh hT

theorem cache_entries_immutable_witness :
    mapGet (handleCreateColumn (handleCreateColumn store0 (ccReq "A" none none "t1") "b1" "A"
      1).1 (ccReq "B" none none "t2") "b1" "B" 2).1.idempo "t1" =
      some (CachedResponse.mk 201
        (Bytes.marshal (Payload.column (Column.mk "A" "b1" "A" "h" 1 1))) ctJSON) :=
  (cache_entries_immutable "t1" (CachedResponse.mk 201
    (Bytes.marshal (Payload.column (Column.mk "A" "b1" "A" "h" 1 1))) ctJSON)).1
    (handleCreateColumn store0 (ccReq "A" none none "t1") "b1" "A" 1).1 _
    (Relation.ReflTransGen.single (Handled.createColumn _ (ccReq "B" none none "t2") "b1" "B" 2))
    (by decide)

/-! ### Errors and the cache -/

/-- A create-column request with a token that is not cached, past the handler's checks
and not answered 201, was answered 422 for its anchors; the answer is cached under the
token and no column or card was written. -/
theorem handleCreateColumn_anchor_error (s : Store) (r : Request CreateColumnReq)
    (boardID id : String) (now : Nat) (hk : r.IdempotencyKey ≠ "")
    (hc : mapGet s.idempo r.IdempotencyKey = none)
    (hch : ∃ v, createColumnChecks s r boardID = .ok v)
    (h : (handleCreateColumn s r boardID id now).2.Status ≠ 201) :
    handleCreateColumn s r boardID id now =
      ({ s with
         idempo := mapSet s.idempo r.IdempotencyKey
           (CachedResponse.mk 422 (Bytes.marshal Payload.invalidAnchors) ctJSON) },
        HttpResponse.mk 422 ctJSON r.XRequestId (Bytes.marshal Payload.invalidAnchors)) := by
  obtain ⟨v, hv⟩ := hch
  rw [handleCreateColumn_ok _ _ _ _ _ _ hv, withIdempotency_miss _ _ _ hk hc] at h ⊢
  rcases createColumnOp_cases boardID v.1 v.2 id now s with hop | ⟨b, _, hop⟩
  · rw [hop]
    simp [ctJSON]
  · rw [hop] at h
    simp at h

/-- The same for create-card. -/
theorem handleCreateCard_anchor_error (s : Store) (r : Request CreateCardReq)
    (boardID columnID id : String) (now : Nat) (hk : r.IdempotencyKey ≠ "")
    (hc : mapGet s.idempo r.IdempotencyKey = none)
    (hch : ∃ v, createCardChecks s r boardID columnID = .ok v)
    (h : (handleCreateCard s r boardID columnID id now).2.Status ≠ 201) :
    handleCreateCard s r boardID columnID id now =
      ({ s with
         idempo := mapSet s.idempo r.IdempotencyKey
           (CachedResponse.mk 422 (Bytes.marshal Payload.invalidAnchors) ctJSON) },
        HttpResponse.mk 422 ctJSON r.XRequestId (Bytes.marshal Payload.invalidAnchors)) := by
  obtain ⟨v, hv⟩ := hch
  rw [handleCreateCard_ok _ _ _ _ _ _ _ hv, withIdempotency_miss _ _ _ hk hc] at h ⊢
  rcases createCardOp_cases boardID columnID v.1 v.2 id now s with hop | ⟨b, _, hop⟩
  · rw [hop]
    simp [ctJSON]
  · rw [hop] at h
    simp at h

/-- C18, as the code has it. With a fresh token `T`: an error raised by the handler's
own checks (authorization, lookup, role, decoding, name or title) is answered without
touching the store, so it is not cached; the error raised inside `withIdempotency`
(anchors that do not resolve, 422) is cached under `T`, writes no column and no card,
and a later create request of the same kind with `T` leaves the store as it is and,
once past the checks, gets that same status, body and content type. -/
theorem error_replay (s : Store) (T : String) (hT : T ≠ "") (hmiss : mapGet s.idempo T = none) :
    (∀ (r1 r2 : Request CreateColumnReq) (b1 b2 id1 id2 : String) (now1 now2 : Nat),
      r1.IdempotencyKey = T → r2.IdempotencyKey = T →
      (∀ e, createColumnChecks s r1 b1 = .error e →
        handleCreateColumn s r1 b1 id1 now1 = (s, e)) ∧
      ((∃ v, createColumnChecks s r1 b1 = .ok v) →
        (handleCreateColumn s r1 b1 id1 now1).2.Status ≠ 201 →
        (handleCreateColumn s r1 b1 id1 now1).2.Status = 422 ∧
        (handleCreateColumn s r1 b1 id1 now1).2.Body = Bytes.marshal Payload.invalidAnchors ∧
        (handleCreateColumn s r1 b1 id1 now1).1.columns = s.columns ∧
        (handleCreateColumn s r1 b1 id1 now1).1.cards = s.cards ∧
        (handleCreateColumn (handleCreateColumn s r1 b1 id1 now1).1 r2 b2 id2 now2).1 =
          (handleCreateColumn s r1 b1 id1 now1).1 ∧
        ((∃ v, createColumnChecks (handleCreateColumn s r1 b1 id1 now1).1 r2 b2 = .ok v) →
          (handleCreateColumn (handleCreateColumn s r1 b1 id1 now1).1 r2 b2 id2 now2).2.Status =
            (handleCreateColumn s r1 b1 id1 now1).2.Status ∧
          (handleCreateColumn (handleCreateColumn s r1 b1 id1 now1).1 r2 b2 id2 now2).2.Body =
            (handleCreateColumn s r1 b1 id1 now1).2.Body ∧
          (handleCreateColumn (handleCreateColumn s r1 b1 id1 now1).1 r2 b2 id2
            now2).2.ContentType = (handleCreateColumn s r1 b1 id1 now1).2.ContentType))) ∧
    (∀ (r1 r2 : Request CreateCardReq) (b1 b2 c1 c2 id1 id2 : String) (now1 now2 : Nat),
      r1.IdempotencyKey = T → r2.IdempotencyKey = T →
      (∀ e, createCardChecks s r1 b1 c1 = .error e →
        handleCreateCard s r1 b1 c1 id1 now1 = (s, e)) ∧
      ((∃ v, createCardChecks s r1 b1 c1 = .ok v) →
        (handleCreateCard s r1 b1 c1 id1 now1).2.Status ≠ 201 →
        (handleCreateCard s r1 b1 c1 id1 now1).2.Status = 422 ∧
        (handleCreateCard s r1 b1 c1 id1 now1).2.Body = Bytes.marshal Payload.invalidAnchors ∧
        (handleCreateCard s r1 b1 c1 id1 now1).1.columns = s.columns ∧
        (handleCreateCard s r1 b1 c1 id1 now1).1.cards = s.cards ∧
        (handleCreateCard (handleCreateCard s r1 b1 c1 id1 now1).1 r2 b2 c2 id2 now2).1 =
          (handleCreateCard s r1 b1 c1 id1 now1).1 ∧
        ((∃ v, createCardChecks (handleCreateCard s r1 b1 c1 id1 now1).1 r2 b2 c2 = .ok v) →
          (handleCreateCard (handleCreateCard s r1 b1 c1 id1 now1).1 r2 b2 c2 id2 now2).2.Status =
            (handleCreateCard s r1 b1 c1 id1 now1).2.Status ∧
          (handleCreateCard (handleCreateCard s r1 b1 c1 id1 now1).1 r2 b2 c2 id2 now2).2.Body =
            (handleCreateCard s r1 b1 c1 id1 now1).2.Body ∧
          (handleCreateCard (handleCreateCard s r1 b1 c1 id1 now1).1 r2 b2 c2 id2
            now2).2.ContentType = (handleCreateCard s r1 b1 c1 id1 now1).2.ContentType))) := by
  constructor
  · intro r1 r2 b1 b2 id1 id2 now1 now2 hk1 hk2
    refine ⟨fun e he => handleCreateColumn_error _ _ _ _ _ _ he, fun hch hst => ?_⟩
    have h1 := handleCreateColumn_anchor_error s r1 b1 id1 now1 (hk1 ▸ hT) (hk1 ▸ hmiss) hch hst
    have hget : mapGet (handleCreateColumn s r1 b1 id1 now1).1.idempo r2.IdempotencyKey =
        some (CachedResponse.mk 422 (Bytes.marshal Payload.invalidAnchors) ctJSON) := by
      rw [h1, hk1, hk2]
      simp [mapGet_mapSet]
    obtain ⟨h2, h3⟩ := handleCreateColumn_cached (handleCreateColumn s r1 b1 id1 now1).1 r2 b2
      id2 now2 _ (hk2 ▸ hT) hget
    refine ⟨by rw [h1], by rw [h1], by rw [h1], by rw [h1], h2, fun hv => ?_⟩
    rw [h3 hv, h1]
    exact ⟨rfl, rfl, rfl⟩
  · intro r1 r2 b1 b2 c1 c2 id1 id2 now1 now2 hk1 hk2
    refine ⟨fun e he => handleCreateCard_error _ _ _ _ _ _ _ he, fun hch hst => ?_⟩
    have h1 := handleCreateCard_anchor_error s r1 b1 c1 id1 now1 (hk1 ▸ hT) (hk1 ▸ hmiss) hch hst
    have hget : mapGet (handleCreateCard s r1 b1 c1 id1 now1).1.idempo r2.IdempotencyKey =
        some (CachedResponse.mk 422 (Bytes.marshal Payload.invalidAnchors) ctJSON) := by
      rw [h1, hk1, hk2]
      simp [mapGet_mapSet]
    obtain ⟨h2, h3⟩ := handleCreateCard_cached (handleCreateCard s r1 b1 c1 id1 now1).1 r2 b2 c2
      id2 now2 _ (hk2 ▸ hT) hget
    refine ⟨by rw [h1], by rw [h1], by rw [h1], by rw [h1], h2, fun hv => ?_⟩
    rw [h3 hv, h1]
    exact ⟨rfl, rfl, rfl⟩

theorem error_replay_witness :
    (handleCreateColumn (handleCreateColumn store0 (ccReq "A" none (some "nobody") "t1") "b1" "A"
      1).1 (ccReq "A" none none "t1") "b1" "B" 2).2.Status = 422 :=
  have h := ((error_replay store0 "t1" (by decide) rfl).1 (ccReq "A" none (some "nobody") "t1")
    (ccReq "A" none none "t1") "b1" "b1" "A" "B" 1 2 rfl rfl).2
    ⟨(⟨"A", none, some "nobody"⟩, "A"), rfl⟩ (by decide)
  (h.2.2.2.2.2 ⟨(⟨"A", none, none⟩, "A"), rfl⟩).1.trans h.1

/-- C18 as stated fails for an error raised by the checks: a create-column with token
`t1` and an empty name is answered 422 and nothing is cached, and a later create-column
with `t1` and the name `A` is answered 201 and stores a column. -/
theorem error_replay_fails :
    mapGet store0.idempo "t1" = none ∧
    (handleCreateColumn store0 (ccReq "" none none "t1") "b1" "A" 1).2.Status = 422 ∧
    (handleCreateColumn (handleCreateColumn store0 (ccReq "" none none "t1") "b1" "A" 1).1
      (ccReq "A" none none "t1") "b1" "A" 2).2.Status = 201 ∧
    (mapGet (handleCreateColumn (handleCreateColumn store0 (ccReq "" none none "t1") "b1" "A"
      1).1 (ccReq "A" none none "t1") "b1" "A" 2).1.columns "A").isSome = true := by decide

/-! ### Anchors that do not resolve -/

theorem idToKey_none {T : Type} (ID key : T → String) (sibs : List T) (id : String)
    (h : ∀ x ∈ sibs, ID x ≠ id) : idToKey ID key sibs id = none := by
  unfold idToKey
  have : sibs.find? (fun c => decide (ID c = id)) = none := by
    rw [List.find?_eq_none]
    intro x hx
    simpa using h x hx
  rw [this]
  rfl

/-- With an anchor that names no listed sibling, `insertBounds` fails. -/
theorem insertBounds_error {T : Type} (ID key : T → String) (sibs : List T)
    (beforeID afterID : Option String) (h : AnchorMissing ID sibs beforeID afterID) :
    ∃ e, insertBounds ID key sibs beforeID afterID = .error e := by
  rcases h with ⟨b, hb, hmiss⟩ | ⟨a, ha, hmiss⟩
  · subst hb
    simp [insertBounds, anchorsToKeys, idToKey_none ID key sibs b hmiss]
  · subst ha
    cases beforeID with
    | none => simp [insertBounds, anchorsToKeys, idToKey_none ID key sibs a hmiss]
    | some b =>
      cases hb : idToKey ID key sibs b with
      | none => simp [insertBounds, anchorsToKeys, hb]
      | some rk => simp [insertBounds, anchorsToKeys, hb, idToKey_none ID key sibs a hmiss]

theorem createColumnOp_error (boardID : String) (req : CreateColumnReq) (name id : String)
    (now : Nat) (s : Store) (e : String)
    (h : insertBounds ColumnRec.ID ColumnRec.SortKey (listColumnsSorted s boardID)
      req.BeforeColumnID req.AfterColumnID = .error e) :
    createColumnOp boardID req name id now s = (s, 422, Payload.invalidAnchors, ctJSON) := by
  rcases createColumnOp_cases boardID req name id now s with hop | ⟨b, hb, _⟩
  · exact hop
  · rw [h] at hb
    cases hb

theorem createCardOp_error (boardID columnID : String) (req : CreateCardReq) (title id : String)
    (now : Nat) (s : Store) (e : String)
    (h : insertBounds CardRec.ID CardRec.SortKey (listCardsSorted s boardID columnID)
      req.BeforeCardID req.AfterCardID = .error e) :
    createCardOp boardID columnID req title id now s =
      (s, 422, Payload.invalidAnchors, ctJSON) := by
  rcases createCardOp_cases boardID columnID req title id now s with hop | ⟨b, hb, _⟩
  · exact hop
  · rw [h] at hb
    cases hb

/-- C11. Anchor resolution failure. When a supplied anchor is not the id of a sibling
listed in the target scope, none of the four operations writes a column or a card; and
a request that gets as far as resolving its anchors (past the handler's checks and, for
the creates, not answered from the cache) is answered 422 for invalid anchors. -/
theorem anchor_resolution_failure (s : Store) :
    (∀ (r : Request CreateColumnReq) (boardID id : String) (now : Nat) (req : CreateColumnReq),
      r.Body = some req →
      AnchorMissing ColumnRec.ID (listColumnsSorted s boardID) req.BeforeColumnID
        req.AfterColumnID →
      (handleCreateColumn s r boardID id now).1.columns = s.columns ∧
      (handleCreateColumn s r boardID id now).1.cards = s.cards ∧
      ((∃ v, createColumnChecks s r boardID = .ok v) →
        (r.IdempotencyKey = "" ∨ mapGet s.idempo r.IdempotencyKey = none) →
        (handleCreateColumn s r boardID id now).2.Status = 422 ∧
        (handleCreateColumn s r boardID id now).2.Body =
          Bytes.marshal Payload.invalidAnchors)) ∧
    (∀ (r : Request MoveColumnReq) (boardID columnID : String) (now : Nat) (req : MoveColumnReq),
      r.Body = some req →
      AnchorMissing ColumnRec.ID (listColumnsSorted s boardID) req.BeforeColumnID
        req.AfterColumnID →
      (handleMoveColumn s r boardID columnID now).1 = s ∧
      (authorize s r boardID = .ok () →
        (∃ c ∈ listColumnsSorted s boardID, c.ID = columnID) →
        (handleMoveColumn s r boardID columnID now).2 =
          writeError r 422 "validation_error" "Invalid anchors" [])) ∧
    (∀ (r : Request CreateCardReq) (boardID columnID id : String) (now : Nat)
      (req : CreateCardReq),
      r.Body = some req →
      AnchorMissing CardRec.ID (listCardsSorted s boardID columnID) req.BeforeCardID
        req.AfterCardID →
      (handleCreateCard s r boardID columnID id now).1.columns = s.columns ∧
      (handleCreateCard s r boardID columnID id now).1.cards = s.cards ∧
      ((∃ v, createCardChecks s r boardID columnID = .ok v) →
        (r.IdempotencyKey = "" ∨ mapGet s.idempo r.IdempotencyKey = none) →
        (handleCreateCard s r boardID columnID id now).2.Status = 422 ∧
        (handleCreateCard s r boardID columnID id now).2.Body =
          Bytes.marshal Payload.invalidAnchors)) ∧
    (∀ (r : Request MoveCardReq) (boardID cardID : String) (now : Nat) (req : MoveCardReq)
      (rec1 : CardRec),
      r.Body = some req → mapGet s.cards cardID = some rec1 →
      AnchorMissing CardRec.ID
        (listCardsSorted s boardID (req.ToColumnID.getD rec1.ColumnID)) req.BeforeCardID
        req.AfterCardID →
      (handleMoveCard s r boardID cardID now).1 = s ∧
      (authorize s r boardID = .ok () → rec1.BoardID = boardID →
        (req.ExpectedVer = none ∨ req.ExpectedVer = some rec1.Version) →
        (∃ tc, mapGet s.columns (req.ToColumnID.getD rec1.ColumnID) = some tc ∧
          tc.BoardID = rec1.BoardID) →
        (handleMoveCard s r boardID cardID now).2 =
          writeError r 422 "validation_error" "Invalid anchors" [])) := by
  refine ⟨?_, ?_, ?_, ?_⟩
  · intro r boardID id now req hbody hmiss
    obtain ⟨e, he⟩ := insertBounds_error ColumnRec.ID ColumnRec.SortKey _ _ _ hmiss
    refine ⟨?_, ?_, ?_⟩
    · rcases handleCreateColumn_cases s r boardID id now with
        ⟨hcols, _, _⟩ | ⟨hs, _⟩ | ⟨req1, _, b, hb1, hb, _⟩
      · exact hcols
      · rw [hs]
      · rw [hbody] at hb1; cases hb1; rw [he] at hb; cases hb
    · rcases handleCreateColumn_cases s r boardID id now with
        ⟨_, hcards, _⟩ | ⟨hs, _⟩ | ⟨req1, _, b, hb1, hb, _⟩
      · exact hcards
      · rw [hs]
      · rw [hbody] at hb1; cases hb1; rw [he] at hb; cases hb
    · rintro ⟨v, hv⟩ hkey
      have hv1 := createColumnChecks_ok s r boardID v hv
      rw [hbody] at hv1
      cases hv1
      rw [handleCreateColumn_ok _ _ _ _ _ _ hv]
      rcases hkey with hk | hk
      · rw [withIdempotency_no_key _ _ _ hk, createColumnOp_error _ _ _ _ _ _ e he]
        exact ⟨rfl, rfl⟩
      · by_cases hk0 : r.IdempotencyKey = ""
        · rw [withIdempotency_no_key _ _ _ hk0, createColumnOp_error _ _ _ _ _ _ e he]
          exact ⟨rfl, rfl⟩
        · rw [withIdempotency_miss _ _ _ hk0 hk, createColumnOp_error _ _ _ _ _ _ e he]
          exact ⟨rfl, rfl⟩
  · intro r boardID columnID now req hbody hmiss
    obtain ⟨e, he⟩ := insertBounds_error ColumnRec.ID ColumnRec.SortKey _ _ _ hmiss
    refine ⟨?_, fun hA hex => ?_⟩
    · rcases handleMoveColumn_cases s r boardID columnID now with
        ⟨hs, _⟩ | ⟨req1, _, b, _, hb1, _, _, hb, _⟩
      · exact hs
      · rw [hbody] at hb1; cases hb1; rw [he] at hb; cases hb
    · obtain ⟨c, hc, hcid⟩ := hex
      cases hF : (listColumnsSorted s boardID).find? (fun c => decide (c.ID = columnID)) with
      | none =>
        rw [List.find?_eq_none] at hF
        exact absurd hcid (by simpa using hF c hc)
      | some t =>
        simp [handleMoveColumn, hA, decodeBody, hbody, hF, he]
  · intro r boardID columnID id now req hbody hmiss
    obtain ⟨e, he⟩ := insertBounds_error CardRec.ID CardRec.SortKey _ _ _ hmiss
    refine ⟨?_, ?_, ?_⟩
    · rcases handleCreateCard_cases s r boardID columnID id now with
        ⟨hcols, _, _⟩ | ⟨hs, _⟩ | ⟨req1, _, b, _, hb1, _, _, hb, _⟩
      · exact hcols
      · rw [hs]
      · rw [hbody] at hb1; cases hb1; rw [he] at hb; cases hb
    · rcases handleCreateCard_cases s r boardID columnID id now with
        ⟨_, hcards, _⟩ | ⟨hs, _⟩ | ⟨req1, _, b, _, hb1, _, _, hb, _⟩
      · exact hcards
      · rw [hs]
      · rw [hbody] at hb1; cases hb1; rw [he] at hb; cases hb
    · rintro ⟨v, hv⟩ hkey
      have hv1 := (createCardChecks_ok s r boardID columnID v hv).1
      rw [hbody] at hv1
      cases hv1
      rw [handleCreateCard_ok _ _ _ _ _ _ _ hv]
      rcases hkey with hk | hk
      · rw [withIdempotency_no_key _ _ _ hk, createCardOp_error _ _ _ _ _ _ _ e he]
        exact ⟨rfl, rfl⟩
      · by_cases hk0 : r.IdempotencyKey = ""
        · rw [withIdempotency_no_key _ _ _ hk0, createCardOp_error _ _ _ _ _ _ _ e he]
          exact ⟨rfl, rfl⟩
        · rw [withIdempotency_miss _ _ _ hk0 hk, createCardOp_error _ _ _ _ _ _ _ e he]
          exact ⟨rfl, rfl⟩
  · intro r boardID cardID now req rec1 hbody hrec hmiss
    obtain ⟨e, he⟩ := insertBounds_error CardRec.ID CardRec.SortKey _ _ _ hmiss
    refine ⟨?_, fun hA hbd hver htc => ?_⟩
    · rcases handleMoveCard_cases s r boardID cardID now with
        ⟨hs, _⟩ | ⟨req1, rec2, _, b, _, hb1, hr2, _, _, _, _, hb, _⟩
      · exact hs
      · rw [hbody] at hb1; cases hb1
        rw [hrec] at hr2; cases hr2
        rw [he] at hb; cases hb
    · obtain ⟨tc, htc1, htc2⟩ := htc
      subst hbd
      have hv : ¬ (req.ExpectedVer.isSome = true ∧ req.ExpectedVer ≠ some rec1.Version) := by
        rintro ⟨h1, h2⟩
        rcases hver with h | h
        · rw [h] at h1; cases h1
        · exact h2 h
      simp [handleMoveCard, hA, decodeBody, hbody, hrec, hv, htc1, htc2, he]

/-! ### The sorted listing is the one sorted arrangement -/

theorem tripleBefore_iff (k1 k2 i1 i2 : String) (t1 t2 : Nat) :
    TripleBefore k1 t1 i1 k2 t2 i2 ↔
      ((if k1 = k2 then (if t1 = t2 then strLess i1 i2 else decide (t1 < t2))
        else strLess k1 k2) = true) := by
  unfold TripleBefore
  by_cases hk : k1 = k2
  · subst hk
    have hirr : strLess k1 k1 = false := goLess_irrefl _
    by_cases ht : t1 = t2
    · subst ht
      simp [hirr]
    · simp [hirr, ht]
  · simp [hk]

theorem colLess_iff_before (a b : ColumnRec) : colLess a b = true ↔ ColumnBefore a b :=
  (tripleBefore_iff _ _ _ _ _ _).symm

theorem cardLess_iff_before (a b : CardRec) : cardLess a b = true ↔ CardBefore a b :=
  (tripleBefore_iff _ _ _ _ _ _).symm

/-- When the sort keys of the elements are pairwise different, `sortSlice` returns them
in strictly ascending order. -/
theorem sortSlice_strict {α β : Type} [LinearOrder β] (less : α → α → Bool) (f : α → β)
    (h : ∀ a b, less a b = true ↔ f a < f b) (xs : List α) (hn : (xs.map f).Nodup) :
    (sortSlice less xs).Pairwise (fun a b => less a b = true) := by
  have hs := sortSlice_sorted less f h xs
  have hn2 : ((sortSlice less xs).map f).Nodup :=
    ((sortSlice_perm less xs).map f).nodup_iff.mpr hn
  have hn3 : (sortSlice less xs).Pairwise (fun a b => f a ≠ f b) := by
    unfold List.Nodup at hn2
    exact List.pairwise_map.mp hn2
  refine List.Pairwise.imp ?_ (hs.and hn3)
  intro a b hab
  exact (h a b).mpr (lt_of_le_of_ne hab.1 hab.2)

/-- A strictly ascending arrangement of the elements is the outcome of `sortSlice`. -/
theorem sortSlice_unique {α β : Type} [LinearOrder β] (less : α → α → Bool) (f : α → β)
    (h : ∀ a b, less a b = true ↔ f a < f b) (xs l : List α) (hn : (xs.map f).Nodup)
    (hp : l.Perm xs) (hs : l.Pairwise (fun a b => less a b = true)) :
    l = sortSlice less xs := by
  haveI : IsAntisymm α (fun a b => less a b = true) :=
    ⟨fun a b h1 h2 => absurd (lt_trans ((h a b).mp h1) ((h b a).mp h2)) (lt_irrefl _)⟩
  exact List.eq_of_perm_of_sorted (hp.trans (sortSlice_perm less xs).symm) hs
    (sortSlice_strict less f h xs hn)

theorem column_triple_nodup (xs : List ColumnRec) (h : (xs.map ColumnRec.ID).Nodup) :
    (xs.map (fun c : ColumnRec =>
      toLex (c.SortKey.data, toLex (c.CreatedAt, c.ID.data)))).Nodup := by
  refine List.Nodup.of_map
    (fun t : Lex (List Char × Lex (Nat × List Char)) => String.mk (ofLex (ofLex t).2).2) ?_
  rw [List.map_map]
  exact h

theorem card_triple_nodup (xs : List CardRec) (h : (xs.map CardRec.ID).Nodup) :
    (xs.map (fun c : CardRec =>
      toLex (c.SortKey.data, toLex (c.CreatedAt, c.ID.data)))).Nodup := by
  refine List.Nodup.of_map
    (fun t : Lex (List Char × Lex (Nat × List Char)) => String.mk (ofLex (ofLex t).2).2) ?_
  rw [List.map_map]
  exact h

theorem columnsOf_ids_nodup (s : Store) (boardID : String)
    (h : ((s.columns.map Prod.snd).map ColumnRec.ID).Nodup) :
    ((columnsOf s boardID).map ColumnRec.ID).Nodup :=
  List.Nodup.sublist (List.Sublist.map _ (List.filter_sublist _)) h

theorem cardsOf_ids_nodup (s : Store) (boardID columnID : String)
    (h : ((s.cards.map Prod.snd).map CardRec.ID).Nodup) :
    ((cardsOf s boardID columnID).map CardRec.ID).Nodup :=
  List.Nodup.sublist (List.Sublist.map _ (List.filter_sublist _)) h

/-- The column listing: a permutation of the columns of the board, strictly ascending,
and the only such arrangement. -/
theorem listColumnsSorted_spec (s : Store) (boardID : String)
    (h : ((s.columns.map Prod.snd).map ColumnRec.ID).Nodup) :
    (listColumnsSorted s boardID).Perm (columnsOf s boardID) ∧
    (listColumnsSorted s boardID).Pairwise ColumnBefore ∧
    ∀ l : List ColumnRec, l.Perm (columnsOf s boardID) → l.Pairwise ColumnBefore →
      l = listColumnsSorted s boardID := by
  have hn := column_triple_nodup _ (columnsOf_ids_nodup s boardID h)
  refine ⟨sortSlice_perm _ _, ?_, fun l hp hs => ?_⟩
  · exact List.Pairwise.imp (fun {a b} hab => (colLess_iff_before a b).mp hab)
      (sortSlice_strict colLess _ colLess_iff _ hn)
  · exact sortSlice_unique colLess _ colLess_iff _ l hn hp
      (List.Pairwise.imp (fun {a b} hab => (colLess_iff_before a b).mpr hab) hs)

/-- The card listing: a permutation of the cards of the board and column, strictly
ascending, and the only such arrangement. -/
theorem listCardsSorted_spec (s : Store) (boardID columnID : String)
    (h : ((s.cards.map Prod.snd).map CardRec.ID).Nodup) :
    (listCardsSorted s boardID columnID).Perm (cardsOf s boardID columnID) ∧
    (listCardsSorted s boardID columnID).Pairwise CardBefore ∧
    ∀ l : List CardRec, l.Perm (cardsOf s boardID columnID) → l.Pairwise CardBefore →
      l = listCardsSorted s boardID columnID := by
  have hn := card_triple_nodup _ (cardsOf_ids_nodup s boardID columnID h)
  refine ⟨sortSlice_perm _ _, ?_, fun l hp hs => ?_⟩
  · exact List.Pairwise.imp (fun {a b} hab => (cardLess_iff_before a b).mp hab)
      (sortSlice_strict cardLess _ cardLess_iff _ hn)
  · exact sortSlice_unique cardLess _ cardLess_iff _ l hn hp
      (List.Pairwise.imp (fun {a b} hab => (cardLess_iff_before a b).mpr hab) hs)

/-- C13. The listings.  `listColumnsSorted` returns a permutation of the columns whose
BoardID is the board (each of them once), `listCardsSorted` one of the cards of the
board and column; with pairwise distinct ids the result is strictly ascending in the
triple (SortKey, CreatedAt, ID), it is the only ascending arrangement of those records,
and it is the same for every store that holds the same records in another order of
enumeration. -/
theorem listings_sorted (s : Store) :
    (∀ boardID,
      (listColumnsSorted s boardID).Perm (columnsOf s boardID) ∧
      (∀ c, c ∈ listColumnsSorted s boardID ↔
        ((∃ k, (k, c) ∈ s.columns) ∧ c.BoardID = boardID)) ∧
      (((s.columns.map Prod.snd).map ColumnRec.ID).Nodup →
        (listColumnsSorted s boardID).Pairwise ColumnBefore ∧
        (∀ l : List ColumnRec, l.Perm (columnsOf s boardID) → l.Pairwise ColumnBefore →
          l = listColumnsSorted s boardID) ∧
        (∀ t : Store, t.columns.Perm s.columns →
          listColumnsSorted t boardID = listColumnsSorted s boardID))) ∧
    (∀ boardID columnID,
      (listCardsSorted s boardID columnID).Perm (cardsOf s boardID columnID) ∧
      (∀ c, c ∈ listCardsSorted s boardID columnID ↔
        ((∃ k, (k, c) ∈ s.cards) ∧ c.BoardID = boardID ∧ c.ColumnID = columnID)) ∧
      (((s.cards.map Prod.snd).map CardRec.ID).Nodup →
        (listCardsSorted s boardID columnID).Pairwise CardBefore ∧
        (∀ l : List CardRec, l.Perm (cardsOf s boardID columnID) → l.Pairwise CardBefore →
          l = listCardsSorted s boardID columnID) ∧
        (∀ t : Store, t.cards.Perm s.cards →
          listCardsSorted t boardID columnID = listCardsSorted s boardID columnID))) := by
  constructor
  · intro boardID
    refine ⟨sortSlice_perm _ _, mem_listColumnsSorted s boardID, fun h => ?_⟩
    obtain ⟨_, h2, h3⟩ := listColumnsSorted_spec s boardID h
    refine ⟨h2, h3, fun t ht => ?_⟩
    have hnt : ((t.columns.map Prod.snd).map ColumnRec.ID).Nodup :=
      ((ht.map Prod.snd).map ColumnRec.ID).nodup_iff.mpr h
    obtain ⟨g1, g2, _⟩ := listColumnsSorted_spec t boardID hnt
    refine h3 _ (g1.trans ?_) g2
    exact List.Perm.filter _ (ht.map Prod.snd)
  · intro boardID columnID
    refine ⟨sortSlice_perm _ _, mem_listCardsSorted s boardID columnID, fun h => ?_⟩
    obtain ⟨_, h2, h3⟩ := listCardsSorted_spec s boardID columnID h
    refine ⟨h2, h3, fun t ht => ?_⟩
    have hnt : ((t.cards.map Prod.snd).map CardRec.ID).Nodup :=
      ((ht.map Prod.snd).map CardRec.ID).nodup_iff.mpr h
    obtain ⟨g1, g2, _⟩ := listCardsSorted_spec t boardID columnID hnt
    refine h3 _ (g1.trans ?_) g2
    exact List.Perm.filter _ (ht.map Prod.snd)

theorem listings_sorted_witness :
    (listColumnsSorted storeABC "b1").Pairwise ColumnBefore ∧
    (listColumnsSorted storeABC "b1").map ColumnRec.ID = ["A", "B", "C"] :=
  ⟨(((listings_sorted storeABC).1 "b1").2.2 (by decide)).1, by decide⟩

theorem anchor_resolution_failure_witness :
    (handleMoveCard store1 (mcReq none (some "nobody") none none "") "b1" "X" 3).1 = store1 ∧
    (handleMoveCard store1 (mcReq none (some "nobody") none none "") "b1" "X" 3).2.Status = 422 :=
  have h := (anchor_resolution_failure store1).2.2.2 (mcReq none (some "nobody") none none "")
    "b1" "X" 3 ⟨none, some "nobody", none, none⟩ (CardRec.mk "X" "b1" "A" "X" none "h" 0 2 2) rfl
    (by decide) (Or.inl ⟨"nobody", rfl, by decide⟩)
  ⟨h.1, by rw [h.2 rfl rfl (Or.inl rfl) ⟨ColumnRec.mk "A" "b1" "A" "h" 1 1, by decide, rfl⟩]; rfl⟩

/-! ### End of the list -/

theorem strLess_of_not_lt_of_lt {a b c : String} (h1 : strLess b a = false)
    (h2 : strLess b c = true) : strLess a c = true := by
  rw [strLess_iff_lt] at h2 ⊢
  have h3 : ¬ b.data < a.data := by
    rw [← strLess_iff_lt, h1]
    simp
  exact lt_of_le_of_lt (not_lt.mp h3) h2

/-- Without anchors the bounds are the key of the last listed sibling, if any, and no
right bound. -/
theorem insertBounds_none {T : Type} (ID key : T → String) (sibs : List T) :
    insertBounds ID key sibs none none = .ok ((sibs.getLast?).map key, none) := by
  simp [insertBounds]

/-- The key generated for the end of the listing is above the key of every listed
column. -/
theorem endKey_above_columns (s : Store) (boardID : String)
    (halpha : ∀ c ∈ listColumnsSorted s boardID, OverAlphabet c.SortKey) (y : ColumnRec)
    (hy : y ∈ listColumnsSorted s boardID) :
    strLess y.SortKey
      (lexoMid (((listColumnsSorted s boardID).getLast?).map ColumnRec.SortKey) none) = true := by
  cases hl : (listColumnsSorted s boardID).getLast? with
  | none =>
    rw [List.getLast?_eq_none_iff] at hl
    rw [hl] at hy
    cases hy
  | some x =>
    have hx := List.mem_of_getLast?_eq_some hl
    have h1 := listColumnsSorted_last s boardID x y hl hy
    have h2 := key_lt_lexoMid x.SortKey none (halpha x hx) (fun r hr => by cases hr)
    exact strLess_of_not_lt_of_lt h1 h2

/-- The key generated for the end of the listing is above the key of every listed
card. -/
theorem endKey_above_cards (s : Store) (boardID columnID : String)
    (halpha : ∀ c ∈ listCardsSorted s boardID columnID, OverAlphabet c.SortKey) (y : CardRec)
    (hy : y ∈ listCardsSorted s boardID columnID) :
    strLess y.SortKey
      (lexoMid (((listCardsSorted s boardID columnID).getLast?).map CardRec.SortKey) none)
      = true := by
  cases hl : (listCardsSorted s boardID columnID).getLast? with
  | none =>
    rw [List.getLast?_eq_none_iff] at hl
    rw [hl] at hy
    cases hy
  | some x =>
    have hx := List.mem_of_getLast?_eq_some hl
    have h1 := listCardsSorted_last s boardID columnID x y hl hy
    have h2 := key_lt_lexoMid x.SortKey none (halpha x hx) (fun r hr => by cases hr)
    exact strLess_of_not_lt_of_lt h1 h2

/-- A listed column whose key is above the key of every other listed column is the last
of the listing. -/
theorem listColumnsSorted_getLast (s : Store) (boardID : String) (c : ColumnRec)
    (hc : c ∈ listColumnsSorted s boardID)
    (hgt : ∀ y ∈ listColumnsSorted s boardID, y = c ∨ strLess y.SortKey c.SortKey = true) :
    (listColumnsSorted s boardID).getLast? = some c := by
  cases hl : (listColumnsSorted s boardID).getLast? with
  | none =>
    rw [List.getLast?_eq_none_iff] at hl
    rw [hl] at hc
    cases hc
  | some x =>
    rcases hgt x (List.mem_of_getLast?_eq_some hl) with h | h
    · rw [h]
    · rw [listColumnsSorted_last s boardID x c hl hc] at h
      cases h

/-- A listed card whose key is above the key of every other listed card is the last of
the listing. -/
theorem listCardsSorted_getLast (s : Store) (boardID columnID : String) (c : CardRec)
    (hc : c ∈ listCardsSorted s boardID columnID)
    (hgt : ∀ y ∈ listCardsSorted s boardID columnID,
      y = c ∨ strLess y.SortKey c.SortKey = true) :
    (listCardsSorted s boardID columnID).getLast? = some c := by
  cases hl : (listCardsSorted s boardID columnID).getLast? with
  | none =>
    rw [List.getLast?_eq_none_iff] at hl
    rw [hl] at hc
    cases hc
  | some x =>
    rcases hgt x (List.mem_of_getLast?_eq_some hl) with h | h
    · rw [h]
    · rw [listCardsSorted_last s boardID columnID x c hl hc] at h
      cases h

/-- Writing, under `id`, a column of the board whose key is above the keys of the listed
columns makes it the last of the new listing, above every other column of the board. -/
theorem put_column_last (s t : Store) (boardID id : String) (c : ColumnRec)
    (hcols : t.columns = mapSet s.columns id c) (hb : c.BoardID = boardID)
    (hgt : ∀ y ∈ listColumnsSorted s boardID, strLess y.SortKey c.SortKey = true) :
    mapGet t.columns id = some c ∧ (listColumnsSorted t boardID).getLast? = some c ∧
    ∀ k y, (k, y) ∈ t.columns → k ≠ id → y.BoardID = boardID →
      strLess y.SortKey c.SortKey = true := by
  have hothers : ∀ k y, (k, y) ∈ t.columns → k ≠ id → y.BoardID = boardID →
      strLess y.SortKey c.SortKey = true := by
    intro k y hmem hk hyb
    rw [hcols, mem_mapSet] at hmem
    rcases hmem with h | ⟨h, _⟩
    · cases h; exact absurd rfl hk
    · exact hgt y ((mem_listColumnsSorted s boardID y).mpr ⟨⟨k, h⟩, hyb⟩)
  refine ⟨by rw [hcols]; simp only [mapGet_mapSet, if_true], ?_, hothers⟩
  apply listColumnsSorted_getLast
  · rw [mem_listColumnsSorted]
    exact ⟨⟨id, by rw [hcols, mem_mapSet]; exact Or.inl rfl⟩, hb⟩
  · intro y hy
    obtain ⟨⟨k, hk⟩, hyb⟩ := (mem_listColumnsSorted t boardID y).mp hy
    by_cases hkid : k = id
    · left
      rw [hcols, mem_mapSet] at hk
      rcases hk with h | ⟨_, h⟩
      · cases h; rfl
      · exact absurd hkid h
    · exact Or.inr (hothers k y hk hkid hyb)

/-- Writing, under `id`, a card of the board and column whose key is above the keys of
the listed cards makes it the last of the new listing, above every other card of the
scope. -/
theorem put_card_last (s t : Store) (boardID columnID id : String) (c : CardRec)
    (hcards : t.cards = mapSet s.cards id c) (hb : c.BoardID = boardID)
    (hcol : c.ColumnID = columnID)
    (hgt : ∀ y ∈ listCardsSorted s boardID columnID, strLess y.SortKey c.SortKey = true) :
    mapGet t.cards id = some c ∧ (listCardsSorted t boardID columnID).getLast? = some c ∧
    ∀ k y, (k, y) ∈ t.cards → k ≠ id → y.BoardID = boardID → y.ColumnID = columnID →
      strLess y.SortKey c.SortKey = true := by
  have hothers : ∀ k y, (k, y) ∈ t.cards → k ≠ id → y.BoardID = boardID →
      y.ColumnID = columnID → strLess y.SortKey c.SortKey = true := by
    intro k y hmem hk hyb hyc
    rw [hcards, mem_mapSet] at hmem
    rcases hmem with h | ⟨h, _⟩
    · cases h; exact absurd rfl hk
    · exact hgt y ((mem_listCardsSorted s boardID columnID y).mpr ⟨⟨k, h⟩, hyb, hyc⟩)
  refine ⟨by rw [hcards]; simp only [mapGet_mapSet, if_true], ?_, hothers⟩
  apply listCardsSorted_getLast
  · rw [mem_listCardsSorted]
    exact ⟨⟨id, by rw [hcards, mem_mapSet]; exact Or.inl rfl⟩, hb, hcol⟩
  · intro y hy
    obtain ⟨⟨k, hk⟩, hyb, hyc⟩ := (mem_listCardsSorted t boardID columnID y).mp hy
    by_cases hkid : k = id
    · left
      rw [hcards, mem_mapSet] at hk
      rcases hk with h | ⟨_, h⟩
      · cases h; rfl
      · exact absurd hkid h
    · exact Or.inr (hothers k y hk hkid hyb hyc)

/-- C12. End-of-list default, for a store whose sibling keys in the target scope are
strings over the alphabet.  A create-column or create-card without anchors that stores
its record (answered 201, not from the cache), and a move-column or move-card without
anchors that is answered 200, leaves the new or moved record as the last of the sorted
listing of its scope, with a key strictly above the key of every other sibling. -/
theorem end_of_list_default (s : Store) :
    (∀ (r : Request CreateColumnReq) (boardID id : String) (now : Nat) (req : CreateColumnReq),
      r.Body = some req → req.BeforeColumnID = none → req.AfterColumnID = none →
      (handleCreateColumn s r boardID id now).2.Status = 201 →
      (r.IdempotencyKey = "" ∨ mapGet s.idempo r.IdempotencyKey = none) →
      (∀ c ∈ listColumnsSorted s boardID, OverAlphabet c.SortKey) →
      ∃ c, mapGet (handleCreateColumn s r boardID id now).1.columns id = some c ∧
        (listColumnsSorted (handleCreateColumn s r boardID id now).1 boardID).getLast? = some c ∧
        ∀ k y, (k, y) ∈ (handleCreateColumn s r boardID id now).1.columns → k ≠ id →
          y.BoardID = boardID → strLess y.SortKey c.SortKey = true) ∧
    (∀ (r : Request MoveColumnReq) (boardID columnID : String) (now : Nat) (req : MoveColumnReq),
      r.Body = some req → req.BeforeColumnID = none → req.AfterColumnID = none →
      (handleMoveColumn s r boardID columnID now).2.Status = 200 →
      ColumnsUnderOwnId s →
      (∀ c ∈ listColumnsSorted s boardID, OverAlphabet c.SortKey) →
      ∃ c, mapGet (handleMoveColumn s r boardID columnID now).1.columns columnID = some c ∧
        (listColumnsSorted (handleMoveColumn s r boardID columnID now).1 boardID).getLast? =
          some c ∧
        ∀ k y, (k, y) ∈ (handleMoveColumn s r boardID columnID now).1.columns → k ≠ columnID →
          y.BoardID = boardID → strLess y.SortKey c.SortKey = true) ∧
    (∀ (r : Request CreateCardReq) (boardID columnID id : String) (now : Nat)
      (req : CreateCardReq),
      r.Body = some req → req.BeforeCardID = none → req.AfterCardID = none →
      (handleCreateCard s r boardID columnID id now).2.Status = 201 →
      (r.IdempotencyKey = "" ∨ mapGet s.idempo r.IdempotencyKey = none) →
      (∀ c ∈ listCardsSorted s boardID columnID, OverAlphabet c.SortKey) →
      ∃ c, mapGet (handleCreateCard s r boardID columnID id now).1.cards id = some c ∧
        (listCardsSorted (handleCreateCard s r boardID columnID id now).1 boardID
          columnID).getLast? = some c ∧
        ∀ k y, (k, y) ∈ (handleCreateCard s r boardID columnID id now).1.cards → k ≠ id →
          y.BoardID = boardID → y.ColumnID = columnID →
          strLess y.SortKey c.SortKey = true) ∧
    (∀ (r : Request MoveCardReq) (boardID cardID : String) (now : Nat) (req : MoveCardReq)
      (rec1 : CardRec),
      r.Body = some req → req.BeforeCardID = none → req.AfterCardID = none →
      mapGet s.cards cardID = some rec1 →
      (handleMoveCard s r boardID cardID now).2.Status = 200 →
      (∀ c ∈ listCardsSorted s boardID (req.ToColumnID.getD rec1.ColumnID),
        OverAlphabet c.SortKey) →
      ∃ c, mapGet (handleMoveCard s r boardID cardID now).1.cards cardID = some c ∧
        c.ColumnID = req.ToColumnID.getD rec1.ColumnID ∧
        (listCardsSorted (handleMoveCard s r boardID cardID now).1 boardID
          c.ColumnID).getLast? = some c ∧
        ∀ k y, (k, y) ∈ (handleMoveCard s r boardID cardID now).1.cards → k ≠ cardID →
          y.BoardID = boardID → y.ColumnID = c.ColumnID →
          strLess y.SortKey c.SortKey = true) := by
  refine ⟨?_, ?_, ?_, ?_⟩
  · intro r boardID id now req hbody hbn han hst hkey halpha
    rcases handleCreateColumn_cases s r boardID id now with
      ⟨_, _, hne⟩ | ⟨_, c, hk, hc, _⟩ | ⟨req1, name, b, hb1, hb, hcols, _, _⟩
    · exact absurd hst hne
    · rcases hkey with h | h
      · exact absurd h hk
      · rw [h] at hc; cases hc
    · rw [hbody] at hb1
      cases hb1
      rw [hbn, han, insertBounds_none] at hb
      cases hb
      exact ⟨_, put_column_last s _ boardID id _ hcols rfl
        (fun y hy => endKey_above_columns s boardID halpha y hy)⟩
  · intro r boardID columnID now req hbody hbn han hst hown halpha
    rcases handleMoveColumn_cases s r boardID columnID now with
      ⟨_, hne⟩ | ⟨req1, target, b, _, hb1, htm, htid, hb, hs⟩
    · exact absurd hst hne
    · rw [hbody] at hb1
      cases hb1
      rw [hbn, han, insertBounds_none] at hb
      cases hb
      obtain ⟨⟨k0, hk0⟩, htb⟩ := (mem_listColumnsSorted s boardID target).mp htm
      have hk : k0 = columnID := by rw [← htid]; exact (hown.2 k0 target hk0).symm
      subst hk
      have hget := mapGet_of_mem _ _ _ hown.1 hk0
      rw [hs]
      simp only [hget]
      exact ⟨_, put_column_last s
        { s with
          columns := mapSet s.columns k0
            (ColumnRec.mk target.ID target.BoardID target.Name
              (lexoMid (((listColumnsSorted s boardID).getLast?).map ColumnRec.SortKey) none)
              target.CreatedAt now) }
        boardID k0 _ rfl htb (fun y hy => endKey_above_columns s boardID halpha y hy)⟩
  · intro r boardID columnID id now req hbody hbn han hst hkey halpha
    rcases handleCreateCard_cases s r boardID columnID id now with
      ⟨_, _, hne⟩ | ⟨_, c, hk, hc, _⟩ | ⟨req1, title, b, col, hb1, _, _, hb, hcards, _, _, _⟩
    · exact absurd hst hne
    · rcases hkey with h | h
      · exact absurd h hk
      · rw [h] at hc; cases hc
    · rw [hbody] at hb1
      cases hb1
      rw [hbn, han, insertBounds_none] at hb
      cases hb
      exact ⟨_, put_card_last s _ boardID columnID id _ hcards rfl rfl
        (fun y hy => endKey_above_cards s boardID columnID halpha y hy)⟩
  · intro r boardID cardID now req rec1 hbody hbn han hrec hst halpha
    rcases handleMoveCard_cases s r boardID cardID now with
      ⟨_, hne⟩ | ⟨req1, rec2, tc, b, _, hb1, hr2, hrb, _, _, _, hb, hs⟩
    · exact absurd hst hne
    · rw [hbody] at hb1
      cases hb1
      rw [hrec] at hr2
      cases hr2
      rw [hbn, han, insertBounds_none] at hb
      cases hb
      rw [hs]
      obtain ⟨h1, h2, h3⟩ := put_card_last s
        { s with
          cards := mapSet s.cards cardID
            (CardRec.mk rec1.ID rec1.BoardID (req.ToColumnID.getD rec1.ColumnID) rec1.Title
              rec1.Desc
              (lexoMid (((listCardsSorted s boardID
                (req.ToColumnID.getD rec1.ColumnID)).getLast?).map CardRec.SortKey) none)
              (wrapInt (rec1.Version + 1)) rec1.CreatedAt now) }
        boardID (req.ToColumnID.getD rec1.ColumnID) cardID _ rfl hrb rfl
        (fun y hy => endKey_above_cards s boardID _ halpha y hy)
      exact ⟨_, h1, rfl, h2, h3⟩

theorem end_of_list_default_witness :
    ∃ c, mapGet (handleCreateColumn storeAB (ccReq "C" none none "") "b1" "C" 3).1.columns "C" =
        some c ∧
      (listColumnsSorted (handleCreateColumn storeAB (ccReq "C" none none "") "b1" "C" 3).1
        "b1").getLast? = some c ∧
      ∀ k y, (k, y) ∈ (handleCreateColumn storeAB (ccReq "C" none none "") "b1" "C"
        3).1.columns → k ≠ "C" → y.BoardID = "b1" → strLess y.SortKey c.SortKey = true :=
  (end_of_list_default storeAB).1 (ccReq "C" none none "") "b1" "C" 3 ⟨"C", none, none⟩ rfl rfl
    rfl (by decide) (Or.inl rfl) (by decide)

/-! ### The column scenario -/

/-- A create-column request without a token, past the checks and with anchors that
resolve, stores the column with the midpoint key. -/
theorem handleCreateColumn_stored (s : Store) (r : Request CreateColumnReq)
    (boardID id : String) (now : Nat) (v : CreateColumnReq × String)
    (b : Option String × Option String) (hch : createColumnChecks s r boardID = .ok v)
    (hk : r.IdempotencyKey = "")
    (hb : insertBounds ColumnRec.ID ColumnRec.SortKey (listColumnsSorted s boardID)
      v.1.BeforeColumnID v.1.AfterColumnID = .ok b) :
    (handleCreateColumn s r boardID id now).1 =
      { s with
        columns := mapSet s.columns id
          (ColumnRec.mk id boardID v.2 (lexoMid b.1 b.2) now now) } := by
  rw [handleCreateColumn_ok _ _ _ _ _ _ hch, withIdempotency_no_key _ _ _ hk]
  obtain ⟨bl, br⟩ := b
  simp [createColumnOp, hb]

/-- Filtering a map that holds no column of the board leaves none. -/
theorem columnsOf_filter_nil (m : List (String × ColumnRec)) (b : String)
    (q : String × ColumnRec → Bool)
    (h : (m.map Prod.snd).filter (fun c => decide (c.BoardID = b)) = []) :
    ((m.filter q).map Prod.snd).filter (fun c => decide (c.BoardID = b)) = [] := by
  rw [List.filter_eq_nil_iff] at h ⊢
  intro c hc
  obtain ⟨p, hp, hpc⟩ := List.mem_map.mp hc
  exact h c (List.mem_map.mpr ⟨p, (List.mem_filter.mp hp).1, hpc⟩)

/-- The checks of create-column only read the boards and the memberships. -/
theorem createColumnChecks_columns (s : Store) (m : List (String × ColumnRec))
    (r : Request CreateColumnReq) (boardID : String) :
    createColumnChecks { s with columns := m } r boardID = createColumnChecks s r boardID :=
  rfl

theorem authorize_columns {β : Type} (s : Store) (m : List (String × ColumnRec))
    (r : Request β) (boardID : String) :
    authorize { s with columns := m } r boardID = authorize s r boardID :=
  rfl

theorem scenario_keys :
    lexoMid none none = "h" ∧ lexoMid (some "h") none = "q" ∧
    lexoMid (some "h") (some "q") = "l" ∧ lexoMid (some "q") none = "u" ∧
    strLess "h" "l" = true ∧ strLess "l" "q" = true ∧ strLess "q" "u" = true ∧
    strLess "h" "q" = true ∧ strLess "l" "u" = true := by decide

theorem scenario_step1 (s : Store) (rA : Request CreateColumnReq)
    (boardID idA nA nameA : String) (t1 : Nat)
    (hempty : columnsOf s boardID = [])
    (hA : createColumnChecks s rA boardID = .ok (⟨nA, none, none⟩, nameA))
    (hkA : rA.IdempotencyKey = "") :
    (handleCreateColumn s rA boardID idA t1).1 =
      { s with columns := mapSet s.columns idA (ColumnRec.mk idA boardID nameA "h" t1 t1) } := by
  have hl : listColumnsSorted s boardID = [] := by
    unfold columnsOf at hempty
    simp [listColumnsSorted, sortSlice, hempty]
  have hb : insertBounds ColumnRec.ID ColumnRec.SortKey (listColumnsSorted s boardID)
      none none = .ok (none, none) := by
    rw [hl]; simp [insertBounds]
  rw [handleCreateColumn_stored s rA boardID idA t1 _ _ hA hkA hb]
  simp only [scenario_keys.1]

theorem scenario_list1 (s : Store) (boardID idA nameA : String) (t1 : Nat)
    (hempty : columnsOf s boardID = []) :
    listColumnsSorted
      { s with columns := mapSet s.columns idA (ColumnRec.mk idA boardID nameA "h" t1 t1) }
      boardID = [ColumnRec.mk idA boardID nameA "h" t1 t1] := by
  unfold columnsOf at hempty
  have e1 := columnsOf_filter_nil s.columns boardID (fun p => !decide (p.1 = idA)) hempty
  simp [listColumnsSorted, sortSlice, mapSet, List.filter_cons, e1]

theorem scenario_less :
    strLess "h" "q" = true ∧ strLess "q" "h" = false ∧ strLess "h" "l" = true ∧
    strLess "l" "h" = false ∧ strLess "l" "q" = true ∧ strLess "q" "l" = false ∧
    strLess "q" "u" = true ∧ strLess "u" "q" = false ∧ strLess "l" "u" = true ∧
    strLess "u" "l" = false := by decide

theorem scenario_list2 (s : Store) (boardID idA idB nameA nameB : String) (t1 t2 : Nat)
    (hempty : columnsOf s boardID = []) (hAB : idA ≠ idB) :
    listColumnsSorted
      { s with
        columns := mapSet (mapSet s.columns idA (ColumnRec.mk idA boardID nameA "h" t1 t1)) idB
          (ColumnRec.mk idB boardID nameB "q" t2 t2) }
      boardID =
      [ColumnRec.mk idA boardID nameA "h" t1 t1, ColumnRec.mk idB boardID nameB "q" t2 t2] := by
  unfold columnsOf at hempty
  have e1 := fun q => columnsOf_filter_nil s.columns boardID q hempty
  obtain ⟨h1, h2, -⟩ := scenario_less
  simp [listColumnsSorted, sortSlice, mapSet, List.filter_cons, e1, hAB, colLess, h1, h2]

theorem scenario_list3 (s : Store) (boardID idA idB idC nameA nameB nameC : String)
    (t1 t2 t3 : Nat) (hempty : columnsOf s boardID = []) (hAB : idA ≠ idB) (hAC : idA ≠ idC)
    (hBC : idB ≠ idC) :
    listColumnsSorted
      { s with
        columns := mapSet (mapSet (mapSet s.columns idA
          (ColumnRec.mk idA boardID nameA "h" t1 t1)) idB
          (ColumnRec.mk idB boardID nameB "q" t2 t2)) idC
          (ColumnRec.mk idC boardID nameC "l" t3 t3) }
      boardID =
      [ColumnRec.mk idA boardID nameA "h" t1 t1, ColumnRec.mk idC boardID nameC "l" t3 t3,
        ColumnRec.mk idB boardID nameB "q" t2 t2] := by
  unfold columnsOf at hempty
  have e1 := fun q => columnsOf_filter_nil s.columns boardID q hempty
  obtain ⟨h1, h2, h3, h4, h5, h6, -⟩ := scenario_less
  simp [listColumnsSorted, sortSlice, mapSet, List.filter_cons, e1, hAB, hAC, hBC, colLess,
    h1, h2, h3, h4, h5, h6]

theorem scenario_step2 (s : Store) (rB : Request CreateColumnReq)
    (boardID idA idB nB nameA nameB : String) (t1 t2 : Nat)
    (hempty : columnsOf s boardID = [])
    (hB : createColumnChecks s rB boardID = .ok (⟨nB, none, some idA⟩, nameB))
    (hkB : rB.IdempotencyKey = "") :
    (handleCreateColumn
      { s with columns := mapSet s.columns idA (ColumnRec.mk idA boardID nameA "h" t1 t1) }
      rB boardID idB t2).1 =
      { s with
        columns := mapSet (mapSet s.columns idA (ColumnRec.mk idA boardID nameA "h" t1 t1)) idB
          (ColumnRec.mk idB boardID nameB "q" t2 t2) } := by
  have hb : insertBounds ColumnRec.ID ColumnRec.SortKey
      (listColumnsSorted
        { s with columns := mapSet s.columns idA (ColumnRec.mk idA boardID nameA "h" t1 t1) }
        boardID) none (some idA) = .ok (some "h", none) := by
    rw [scenario_list1 s boardID idA nameA t1 hempty]
    simp [insertBounds, anchorsToKeys, idToKey]
  rw [handleCreateColumn_stored _ rB boardID idB t2 (⟨nB, none, some idA⟩, nameB) _
    ((createColumnChecks_columns s _ rB boardID).trans hB) hkB hb]
  simp only [scenario_keys.2.1]

theorem scenario_step3 (s : Store) (rC : Request CreateColumnReq)
    (boardID idA idB idC nC nameA nameB nameC : String) (t1 t2 t3 : Nat)
    (hempty : columnsOf s boardID = []) (hAB : idA ≠ idB)
    (hC : createColumnChecks s rC boardID = .ok (⟨nC, some idB, some idA⟩, nameC))
    (hkC : rC.IdempotencyKey = "") :
    (handleCreateColumn
      { s with
        columns := mapSet (mapSet s.columns idA (ColumnRec.mk idA boardID nameA "h" t1 t1)) idB
          (ColumnRec.mk idB boardID nameB "q" t2 t2) }
      rC boardID idC t3).1 =
      { s with
        columns := mapSet (mapSet (mapSet s.columns idA
          (ColumnRec.mk idA boardID nameA "h" t1 t1)) idB
          (ColumnRec.mk idB boardID nameB "q" t2 t2)) idC
          (ColumnRec.mk idC boardID nameC "l" t3 t3) } := by
  have hb : insertBounds ColumnRec.ID ColumnRec.SortKey
      (listColumnsSorted
        { s with
          columns := mapSet (mapSet s.columns idA (ColumnRec.mk idA boardID nameA "h" t1 t1)) idB
            (ColumnRec.mk idB boardID nameB "q" t2 t2) }
        boardID) (some idB) (some idA) = .ok (some "h", some "q") := by
    rw [scenario_list2 s boardID idA idB nameA nameB t1 t2 hempty hAB]
    simp [insertBounds, anchorsToKeys, idToKey, hAB]
  rw [handleCreateColumn_stored _ rC boardID idC t3 (⟨nC, some idB, some idA⟩, nameC) _
    ((createColumnChecks_columns s _ rC boardID).trans hC) hkC hb]
  simp only [scenario_keys.2.2.1]

theorem scenario_step4 (s : Store) (rM : Request MoveColumnReq)
    (boardID idA idB idC nameA nameB nameC : String) (t1 t2 t3 t4 : Nat)
    (hempty : columnsOf s boardID = []) (hAB : idA ≠ idB) (hAC : idA ≠ idC) (hBC : idB ≠ idC)
    (hM : authorize s rM boardID = .ok ()) (hMb : rM.Body = some ⟨none, some idB⟩) :
    (handleMoveColumn
      { s with
        columns := mapSet (mapSet (mapSet s.columns idA
          (ColumnRec.mk idA boardID nameA "h" t1 t1)) idB
          (ColumnRec.mk idB boardID nameB "q" t2 t2)) idC
          (ColumnRec.mk idC boardID nameC "l" t3 t3) }
      rM boardID idA t4).1 =
      { s with
        columns := mapSet (mapSet (mapSet (mapSet s.columns idA
          (ColumnRec.mk idA boardID nameA "h" t1 t1)) idB
          (ColumnRec.mk idB boardID nameB "q" t2 t2)) idC
          (ColumnRec.mk idC boardID nameC "l" t3 t3)) idA
          (ColumnRec.mk idA boardID nameA "u" t1 t4) } := by
  have hBA : idB ≠ idA := fun e => hAB e.symm
  have hCA : idC ≠ idA := fun e => hAC e.symm
  have hCB : idC ≠ idB := fun e => hBC e.symm
  simp only [handleMoveColumn, authorize_columns, hM, decodeBody, hMb,
    scenario_list3 s boardID idA idB idC nameA nameB nameC t1 t2 t3 hempty hAB hAC hBC]
  simp [insertBounds, anchorsToKeys, idToKey, mapGet_mapSet, hAB, hAC, hBC, hBA, hCA, hCB,
    scenario_keys.2.2.2.1]

theorem scenario_list4 (s : Store) (boardID idA idB idC nameA nameB nameC : String)
    (t1 t2 t3 t4 : Nat) (hempty : columnsOf s boardID = []) (hAB : idA ≠ idB) (hAC : idA ≠ idC)
    (hBC : idB ≠ idC) :
    listColumnsSorted
      { s with
        columns := mapSet (mapSet (mapSet (mapSet s.columns idA
          (ColumnRec.mk idA boardID nameA "h" t1 t1)) idB
          (ColumnRec.mk idB boardID nameB "q" t2 t2)) idC
          (ColumnRec.mk idC boardID nameC "l" t3 t3)) idA
          (ColumnRec.mk idA boardID nameA "u" t1 t4) }
      boardID =
      [ColumnRec.mk idC boardID nameC "l" t3 t3, ColumnRec.mk idB boardID nameB "q" t2 t2,
        ColumnRec.mk idA boardID nameA "u" t1 t4] := by
  unfold columnsOf at hempty
  have e1 := fun q => columnsOf_filter_nil s.columns boardID q hempty
  have hBA : idB ≠ idA := fun e => hAB e.symm
  have hCA : idC ≠ idA := fun e => hAC e.symm
  have hCB : idC ≠ idB := fun e => hBC e.symm
  obtain ⟨h1, h2, h3, h4, h5, h6, h7, h8, h9, h10⟩ := scenario_less
  simp [listColumnsSorted, sortSlice, mapSet, List.filter_cons, e1, hAB, hAC, hBC, hBA, hCA, hCB,
    colLess, h1, h2, h3, h4, h5, h6, h7, h8, h9, h10]

/-- C16. The column scenario on a board without columns, with requests that carry no
Idempotency-Key and pass the checks, and three different ids: create A without anchors,
create B with insertAfter A, create C with insertBefore B and insertAfter A, then move
A with insertAfter B.  After the three creations the keys are `h`, `q` and `l`, so
key(A) < key(C) < key(B), and the listing is A, C, B; after the move the listing is
C, B, A. -/
theorem column_scenario (s : Store) (rA rB rC : Request CreateColumnReq)
    (rM : Request MoveColumnReq) (boardID idA idB idC nA nB nC nameA nameB nameC : String)
    (t1 t2 t3 t4 : Nat) (hempty : columnsOf s boardID = [])
    (hAB : idA ≠ idB) (hAC : idA ≠ idC) (hBC : idB ≠ idC)
    (hA : createColumnChecks s rA boardID = .ok (⟨nA, none, none⟩, nameA))
    (hkA : rA.IdempotencyKey = "")
    (hB : createColumnChecks s rB boardID = .ok (⟨nB, none, some idA⟩, nameB))
    (hkB : rB.IdempotencyKey = "")
    (hC : createColumnChecks s rC boardID = .ok (⟨nC, some idB, some idA⟩, nameC))
    (hkC : rC.IdempotencyKey = "")
    (hM : authorize s rM boardID = .ok ()) (hMb : rM.Body = some ⟨none, some idB⟩) :
    (∃ cA cB cC,
      mapGet (columnScenario s rA rB rC rM boardID idA idB idC t1 t2 t3 t4).1.columns idA =
        some cA ∧
      mapGet (columnScenario s rA rB rC rM boardID idA idB idC t1 t2 t3 t4).1.columns idB =
        some cB ∧
      mapGet (columnScenario s rA rB rC rM boardID idA idB idC t1 t2 t3 t4).1.columns idC =
        some cC ∧
      strLess cA.SortKey cC.SortKey = true ∧ strLess cC.SortKey cB.SortKey = true) ∧
    (listColumnsSorted (columnScenario s rA rB rC rM boardID idA idB idC t1 t2 t3 t4).1
      boardID).map (fun c => (c.ID, c.SortKey)) = [(idA, "h"), (idC, "l"), (idB, "q")] ∧
    (listColumnsSorted (columnScenario s rA rB rC rM boardID idA idB idC t1 t2 t3 t4).2
      boardID).map (fun c => (c.ID, c.SortKey)) = [(idC, "l"), (idB, "q"), (idA, "u")] := by
  have hBA : idB ≠ idA := fun e => hAB e.symm
  have hCA : idC ≠ idA := fun e => hAC e.symm
  have hCB : idC ≠ idB := fun e => hBC e.symm
  have h3 : (columnScenario s rA rB rC rM boardID idA idB idC t1 t2 t3 t4).1 =
      { s with
        columns := mapSet (mapSet (mapSet s.columns idA
          (ColumnRec.mk idA boardID nameA "h" t1 t1)) idB
          (ColumnRec.mk idB boardID nameB "q" t2 t2)) idC
          (ColumnRec.mk idC boardID nameC "l" t3 t3) } := by
    simp only [columnScenario]
    rw [scenario_step1 s rA boardID idA nA nameA t1 hempty hA hkA,
      scenario_step2 s rB boardID idA idB nB nameA nameB t1 t2 hempty hB hkB,
      scenario_step3 s rC boardID idA idB idC nC nameA nameB nameC t1 t2 t3 hempty hAB hC hkC]
  have h4 : (columnScenario s rA rB rC rM boardID idA idB idC t1 t2 t3 t4).2 =
      { s with
        columns := mapSet (mapSet (mapSet (mapSet s.columns idA
          (ColumnRec.mk idA boardID nameA "h" t1 t1)) idB
          (ColumnRec.mk idB boardID nameB "q" t2 t2)) idC
          (ColumnRec.mk idC boardID nameC "l" t3 t3)) idA
          (ColumnRec.mk idA boardID nameA "u" t1 t4) } := by
    have h3b := h3
    simp only [columnScenario] at h3b ⊢
    rw [h3b]
    exact scenario_step4 s rM boardID idA idB idC nameA nameB nameC t1 t2 t3 t4 hempty hAB hAC
      hBC hM hMb
  rw [h3, h4, scenario_list3 s boardID idA idB idC nameA nameB nameC t1 t2 t3 hempty hAB hAC hBC,
    scenario_list4 s boardID idA idB idC nameA nameB nameC t1 t2 t3 t4 hempty hAB hAC hBC]
  refine ⟨⟨ColumnRec.mk idA boardID nameA "h" t1 t1, ColumnRec.mk idB boardID nameB "q" t2 t2,
    ColumnRec.mk idC boardID nameC "l" t3 t3, ?_, ?_, ?_, scenario_less.2.2.1,
    scenario_less.2.2.2.2.1⟩, rfl, rfl⟩
  · simp [mapGet_mapSet, hAB, hAC]
  · simp [mapGet_mapSet, hBC]
  · simp [mapGet_mapSet]

theorem column_scenario_witness :
    (listColumnsSorted (columnScenario store0 (ccReq "A" none none "")
      (ccReq "B" none (some "A") "") (ccReq "C" (some "B") (some "A") "")
      (mvReq none (some "B") "") "b1" "A" "B" "C" 1 2 3 4).2 "b1").map
      (fun c => (c.ID, c.SortKey)) = [("C", "l"), ("B", "q"), ("A", "u")] :=
  (column_scenario store0 (ccReq "A" none none "") (ccReq "B" none (some "A") "")
    (ccReq "C" (some "B") (some "A") "") (mvReq none (some "B") "") "b1" "A" "B" "C"
    "A" "B" "C" "A" "B" "C" 1 2 3 4 rfl (by decide) (by decide) (by decide) rfl rfl rfl rfl rfl
    rfl rfl rfl).2.2

/-! ### The substituted right index and the shape of the result -/

/-- One iteration of the loop, with `l` and `r` named. -/
theorem lexoMidLoop_succ (L R : List Char) (fuel i : Nat) (out : List Char) :
    lexoMidLoop L R (fuel + 1) i out =
      if leftIndex L i + 1 < rightIndex R i then
        some (out ++ [lexoAlphabet.getD ((leftIndex L i + rightIndex R i) / 2) '0'])
      else lexoMidLoop L R fuel (i + 1) (out ++ [lexoAlphabet.getD (leftIndex L i) '0']) :=
  rfl

/-- C23, as the code has it. The index that the loop substitutes for a missing or
exhausted right bound is 35, and 35 is the last index of `lexoAlphabet`: the alphabet has
36 symbols, its last symbol `z` has index 35, and no symbol has a larger index.  The
second-to-last index is 34. -/
theorem right_default_is_last_index (R : List Char) (i : Nat) (h : R.length ≤ i) :
    rightIndex R i = 35 ∧ rightIndex R i = lexoAlphabet.length - 1 ∧
    lexoAlphabet.getLast? = some 'z' ∧ a2i 'z' = rightIndex R i ∧
    (∀ c ∈ lexoAlphabet, a2i c ≤ rightIndex R i) ∧
    lexoAlphabet.length - 2 = 34 := by
  have h35 : rightIndex R i = 35 := by
    unfold rightIndex
    rw [dif_neg (by omega)]
  rw [h35]
  refine ⟨rfl, by decide, by decide, by decide, by decide, by decide⟩

theorem right_default_is_last_index_witness :
    rightIndex "ab".data 2 = 35 ∧ rightIndex "ab".data 2 = lexoAlphabet.length - 1 :=
  have h := right_default_is_last_index "ab".data 2 (by decide)
  ⟨h.1, h.2.1⟩

/-- C23 as stated fails: the substituted index 35 is the index of the last symbol `z`
itself, not one below it, and it is not the second-to-last index 34. -/
theorem right_default_not_second_to_last :
    rightIndex [] 0 = 35 ∧ lexoAlphabet.getLast? = some 'z' ∧ a2i 'z' = 35 ∧
    rightIndex [] 0 + 1 ≠ a2i 'z' ∧ rightIndex [] 0 ≠ lexoAlphabet.length - 2 := by decide

theorem leftIndex_zero (L : List Char) : leftIndex L 0 = (L.head?.map a2i).getD 0 := by
  cases L <;> simp [leftIndex]

theorem rightIndex_zero (R : List Char) : rightIndex R 0 = (R.head?.map a2i).getD 35 := by
  cases R <;> simp [rightIndex]

theorem leftIndex_succ (L : List Char) (j : Nat) : leftIndex L (j + 1) = leftIndex L.tail j := by
  cases L <;> simp [leftIndex]

theorem rightIndex_succ (R : List Char) (j : Nat) :
    rightIndex R (j + 1) = rightIndex R.tail j := by
  cases R <;> simp [rightIndex]

/-- What the loop returns from the current position: the symbols of the left bound, `0`
once it is exhausted, up to the first position `i` with `l + 2 ≤ r`, then the middle
symbol of that position. -/
theorem midFrom_shape (fuel : Nat) (L R K : List Char) (hL : ∀ c ∈ L, c ∈ lexoAlphabet)
    (h : midFrom fuel L R = some K) :
    ∃ i, i ≤ max L.length R.length ∧
      K = (List.range i).map (fun j => L.getD j '0') ++
        [lexoAlphabet.getD ((leftIndex L i + rightIndex R i) / 2) '0'] ∧
      leftIndex L i + 2 ≤ rightIndex R i ∧
      ∀ j, j < i → ¬ (leftIndex L j + 2 ≤ rightIndex R j) := by
  induction fuel generalizing L R K with
  | zero => simp [midFrom] at h
  | succ n ih =>
    simp only [midFrom, ← leftIndex_zero, ← rightIndex_zero] at h
    split at h
    · rename_i hlr
      cases h
      exact ⟨0, Nat.zero_le _, by simp, by omega, fun j hj => by omega⟩
    · rename_i hlr
      cases hm : midFrom n L.tail R.tail with
      | none => simp [hm] at h
      | some K1 =>
        simp only [hm, Option.map_some', Option.some.injEq] at h
        subst h
        obtain ⟨i, hi, hK, hgap, hfirst⟩ := ih L.tail R.tail K1
          (fun x hx => hL x (List.mem_of_mem_tail hx)) hm
        have hhead : lexoAlphabet.getD (leftIndex L 0) '0' = L.getD 0 '0' := by
          cases L with
          | nil => decide
          | cons c L =>
            simp only [leftIndex_zero, List.head?_cons, Option.map_some', Option.getD_some]
            rw [alphabet_a2i c (hL c (List.mem_cons_self _ _))]
            rfl
        have htail : ∀ j, L.tail.getD j '0' = L.getD (j + 1) '0' := by
          intro j
          cases L <;> simp
        have hlen : i + 1 ≤ max L.length R.length := by
          cases L with
          | nil =>
            cases R with
            | nil => simp [leftIndex, rightIndex] at hlr
            | cons d R => simp at hi ⊢; omega
          | cons c L =>
            cases R with
            | nil => simp at hi ⊢; omega
            | cons d R => simp at hi ⊢; omega
        refine ⟨i + 1, hlen, ?_, ?_, ?_⟩
        · rw [hK, hhead, List.range_succ_eq_map, List.map_cons, List.map_map]
          simp only [List.cons_append, leftIndex_succ, rightIndex_succ]
          congr 2
          apply List.map_congr_left
          intro j _
          simp only [Function.comp_apply, htail]
        · rw [leftIndex_succ, rightIndex_succ]
          exact hgap
        · intro j hj
          cases j with
          | zero => omega
          | succ j =>
            rw [leftIndex_succ, rightIndex_succ]
            exact hfirst j (by omega)

/-- C24. Key growth is at most linear: for bounds over the alphabet (absent counts as
empty), the result has at most `max (len left) (len right) + 1`
symbols; before its last symbol it repeats the symbols of left, with `0` once left is
exhausted, and its last symbol is the one of index `(l + r) / 2` at the first position
where `r - l ≥ 2`. -/
theorem lexoMid_shape (left right : Option String) (hl : ∀ l, left = some l → OverAlphabet l)
    (_hr : ∀ r, right = some r → OverAlphabet r) :
    (lexoMid left right).data.length ≤
      max (left.getD "").data.length (right.getD "").data.length + 1 ∧
    ∃ i, (lexoMid left right).data.length = i + 1 ∧
      (lexoMid left right).data =
        (List.range i).map (fun j => (left.getD "").data.getD j '0') ++
          [lexoAlphabet.getD
            ((leftIndex (left.getD "").data i + rightIndex (right.getD "").data i) / 2) '0'] ∧
      leftIndex (left.getD "").data i + 2 ≤ rightIndex (right.getD "").data i ∧
      ∀ j, j < i →
        ¬ (leftIndex (left.getD "").data j + 2 ≤ rightIndex (right.getD "").data j) := by
  have hL : ∀ c ∈ (left.getD "").data, c ∈ lexoAlphabet := by
    cases left with
    | none => intro c hc; simp at hc
    | some l => exact hl l rfl
  obtain ⟨i, hi, hK, hgap, hfirst⟩ := midFrom_shape _ _ _ _ hL (lexoMid_data left right)
  have hlen : (lexoMid left right).data.length = i + 1 := by
    rw [hK]; simp
  exact ⟨by omega, i, hlen, hK, hgap, hfirst⟩

theorem lexoMid_shape_witness :
    (lexoMid (some "az") (some "b")).data.length ≤
      max ((some "az" : Option String).getD "").data.length
        ((some "b" : Option String).getD "").data.length + 1 :=
  (lexoMid_shape (some "az") (some "b") (fun l hl => by cases hl; decide)
    (fun r hr => by cases hr; decide)).1

/-! ### Bounds that are generated keys, and closure of the generated keys -/

/-- C25. For a right bound over the alphabet whose last symbol is not `0`, the result is
below the right bound when the left bound is absent, and strictly between the bounds
when the left bound is a string over the alphabet below the right bound.  And for any
bounds over the alphabet with left below right, the result fails to be below the right
bound only when right is left followed by one or more symbols `0`. -/
theorem lexoMid_below_right (right : String) :
    (GenKey right →
      strLess (lexoMid none (some right)) right = true ∧
      ∀ left, OverAlphabet left → strLess left right = true →
        strLess left (lexoMid (some left) (some right)) = true ∧
        strLess (lexoMid (some left) (some right)) right = true) ∧
    (OverAlphabet right → ∀ left, OverAlphabet left → strLess left right = true →
      strLess (lexoMid (some left) (some right)) right = false →
      ∃ n, 1 ≤ n ∧ right.data = left.data ++ List.replicate n '0') := by
  constructor
  · intro hr
    refine ⟨lexoMid_lt_key none right (fun l hl => by cases hl) hr (fun l hl => by cases hl),
      fun left hl hlt => ⟨?_, ?_⟩⟩
    · exact key_lt_lexoMid left (some right) hl (fun r hr1 => by cases hr1; exact hr.1)
    · exact lexoMid_lt_key (some left) right (fun l hl1 => by cases hl1; exact hl) hr
        (fun l hl1 => by cases hl1; exact hlt)
  · intro hr left hl hlt hfail
    by_contra hcon
    have hz : ¬ ∃ n : Nat, right.data = left.data ++ List.replicate n '0' := by
      rintro ⟨n, hn⟩
      cases n with
      | zero =>
        simp only [List.replicate_zero, List.append_nil] at hn
        unfold strLess at hlt
        rw [hn, goLess_irrefl] at hlt
        cases hlt
      | succ m => exact hcon ⟨m + 1, by omega, hn⟩
    have hd := lexoMid_data (some left) (some right)
    simp only [Option.getD_some] at hd
    have hlt2 := midFrom_lt _ _ _ _ hl hr hlt hz hd
    have hfail2 : goLess (lexoMid (some left) (some right)).data right.data = false := hfail
    rw [hlt2] at hfail2
    cases hfail2

theorem lexoMid_below_right_witness :
    (strLess (lexoMid none (some "0a")) "0a" = true ∧
      strLess "09" (lexoMid (some "09") (some "0a")) = true ∧
      strLess (lexoMid (some "09") (some "0a")) "0a" = true) ∧
    (strLess (lexoMid (some "a") (some "a0")) "a0" = false ∧
      ∃ n, 1 ≤ n ∧ "a0".data = "a".data ++ List.replicate n '0') :=
  have h := (lexoMid_below_right "0a").1 ⟨by decide, 'a', by decide, by decide⟩
  ⟨⟨h.1, h.2 "09" (by decide) (by decide)⟩, by decide,
    (lexoMid_below_right "a0").2 (by decide) "a" (by decide) (by decide) (by decide)⟩

/-- One handled request stores generated keys only. -/
theorem handled_genKeys (s t : Store) (h : Handled s t)
    (hc : ∀ k c, (k, c) ∈ s.columns → GenKey c.SortKey)
    (hd : ∀ k c, (k, c) ∈ s.cards → GenKey c.SortKey) :
    (∀ k c, (k, c) ∈ t.columns → GenKey c.SortKey) ∧
    (∀ k c, (k, c) ∈ t.cards → GenKey c.SortKey) := by
  have hcolKeys : ∀ boardID, ∀ x ∈ (listColumnsSorted s boardID).map ColumnRec.SortKey,
      GenKey x := by
    intro boardID x hx
    obtain ⟨c, hc1, hcx⟩ := List.mem_map.mp hx
    obtain ⟨⟨k0, hk0⟩, _⟩ := (mem_listColumnsSorted s boardID c).mp hc1
    rw [← hcx]
    exact hc k0 c hk0
  have hcardKeys : ∀ boardID columnID,
      ∀ x ∈ (listCardsSorted s boardID columnID).map CardRec.SortKey, GenKey x := by
    intro boardID columnID x hx
    obtain ⟨c, hc1, hcx⟩ := List.mem_map.mp hx
    obtain ⟨⟨k0, hk0⟩, _⟩ := (mem_listCardsSorted s boardID columnID c).mp hc1
    rw [← hcx]
    exact hd k0 c hk0
  have hnew : ∀ {T : Type} (ID key : T → String) (sibs : List T) (bf af : Option String)
      (b : Option String × Option String), (∀ x ∈ sibs.map key, GenKey x) →
      insertBounds ID key sibs bf af = .ok b → GenKey (lexoMid b.1 b.2) := by
    intro T ID key sibs bf af b hg hb
    obtain ⟨h1, h2⟩ := insertBounds_mem ID key sibs bf af b hb
    exact lexoMid_genKey _ _ (fun l hl => (hg l (h1 l hl)).1) (fun r hr => (hg r (h2 r hr)).1)
  cases h with
  | createColumn r boardID id now =>
    rcases handleCreateColumn_cases s r boardID id now with
      ⟨hcols, hcards, _⟩ | ⟨hst, _⟩ | ⟨req, name, b, _, hb, hcols, hcards, _⟩
    · rw [hcols, hcards]; exact ⟨hc, hd⟩
    · rw [hst]; exact ⟨hc, hd⟩
    · rw [hcols, hcards]
      refine ⟨fun k c hmem => ?_, hd⟩
      rw [mem_mapSet] at hmem
      rcases hmem with h1 | ⟨h1, _⟩
      · cases h1
        exact hnew _ _ _ _ _ b (hcolKeys boardID) hb
      · exact hc k c h1
  | moveColumn r boardID columnID now =>
    rcases handleMoveColumn_cases s r boardID columnID now with
      ⟨hst, _⟩ | ⟨req, target, b, _, _, _, _, hb, hst⟩
    · rw [hst]; exact ⟨hc, hd⟩
    · rw [hst]
      cases hget : mapGet s.columns columnID with
      | none => exact ⟨hc, hd⟩
      | some c0 =>
        refine ⟨fun k c hmem => ?_, hd⟩
        simp only [] at hmem
        rw [mem_mapSet] at hmem
        rcases hmem with h1 | ⟨h1, _⟩
        · cases h1
          exact hnew _ _ _ _ _ b (hcolKeys boardID) hb
        · exact hc k c h1
  | createCard r boardID columnID id now =>
    rcases handleCreateCard_cases s r boardID columnID id now with
      ⟨hcols, hcards, _⟩ | ⟨hst, _⟩ | ⟨req, title, b, col, _, _, _, hb, hcards, hcols, _, _⟩
    · rw [hcols, hcards]; exact ⟨hc, hd⟩
    · rw [hst]; exact ⟨hc, hd⟩
    · rw [hcols, hcards]
      refine ⟨hc, fun k c hmem => ?_⟩
      rw [mem_mapSet] at hmem
      rcases hmem with h1 | ⟨h1, _⟩
      · cases h1
        exact hnew _ _ _ _ _ b (hcardKeys boardID columnID) hb
      · exact hd k c h1
  | moveCard r boardID cardID now =>
    rcases handleMoveCard_cases s r boardID cardID now with
      ⟨hst, _⟩ | ⟨req, rec1, tc, b, _, _, _, _, _, _, _, hb, hst⟩
    · rw [hst]; exact ⟨hc, hd⟩
    · rw [hst]
      refine ⟨hc, fun k c hmem => ?_⟩
      simp only [] at hmem
      rw [mem_mapSet] at hmem
      rcases hmem with h1 | ⟨h1, _⟩
      · cases h1
        exact hnew _ _ _ _ _ b (hcardKeys boardID _) hb
      · exact hd k c h1

/-- C26. Closure of the generated keys.  For bounds over the alphabet (or absent)
`lexoMid` returns a non-empty string over the alphabet whose last symbol has an index
from 1 to 34, so it ends neither in `0` nor in `z`; and in every store reached from one
without columns and cards by sequentially handled create-column, move-column,
create-card and move-card requests, every stored SortKey is over the alphabet and ends in
a symbol other than `0`. -/
theorem generated_keys_closed :
    (∀ left right : Option String, (∀ l, left = some l → OverAlphabet l) →
      (∀ r, right = some r → OverAlphabet r) →
      (lexoMid left right).data ≠ [] ∧ OverAlphabet (lexoMid left right) ∧
      (∃ m, 1 ≤ m ∧ m ≤ 34 ∧
        (lexoMid left right).data.getLast? = some (lexoAlphabet.getD m '0')) ∧
      (lexoMid left right).data.getLast? ≠ some '0' ∧
      (lexoMid left right).data.getLast? ≠ some 'z') ∧
    (∀ s t : Store, s.columns = [] → s.cards = [] → Relation.ReflTransGen Handled s t →
      (∀ k c, mapGet t.columns k = some c → GenKey c.SortKey) ∧
      (∀ k c, mapGet t.cards k = some c → GenKey c.SortKey)) := by
  constructor
  · intro left right hl hr
    have hd := lexoMid_data left right
    have hL : ∀ c ∈ (left.getD "").data, c ∈ lexoAlphabet := by
      cases left with
      | none => intro c hc; simp at hc
      | some l => exact hl l rfl
    have hR : ∀ c ∈ (right.getD "").data, c ∈ lexoAlphabet := by
      cases right with
      | none => intro c hc; simp at hc
      | some r => exact hr r rfl
    obtain ⟨h1, m, hm1, hm2, hm3⟩ := midFrom_symbols _ _ _ _ hL hR hd
    have hidx := a2i_alphabet m (by omega)
    refine ⟨midFrom_ne_nil _ _ _ _ hd, h1, ⟨m, hm1, hm2, hm3⟩, ?_, ?_⟩
    · rw [hm3]
      intro h0
      rw [Option.some.inj h0] at hidx
      have h00 : a2i '0' = 0 := by decide
      omega
    · rw [hm3]
      intro hz
      rw [Option.some.inj hz] at hidx
      have hzz : a2i 'z' = 35 := by decide
      omega
  · intro s t hcols hcards hst
    have hinv : (∀ k c, (k, c) ∈ t.columns → GenKey c.SortKey) ∧
        (∀ k c, (k, c) ∈ t.cards → GenKey c.SortKey) := by
      induction hst with
      | refl =>
        rw [hcols, hcards]
        exact ⟨fun k c h => (by cases h), fun k c h => (by cases h)⟩
      | tail _ hstep ih => exact handled_genKeys _ _ hstep ih.1 ih.2
    exact ⟨fun k c h => hinv.1 k c (mem_of_mapGet _ _ _ h),
      fun k c h => hinv.2 k c (mem_of_mapGet _ _ _ h)⟩

theorem generated_keys_closed_witness :
    ((lexoMid (some "zz") none).data ≠ [] ∧ OverAlphabet (lexoMid (some "zz") none)) ∧
    Relation.ReflTransGen Handled store0 storeAB ∧
    ∀ k c, mapGet storeAB.columns k = some c → GenKey c.SortKey :=
  have h := generated_keys_closed.1 (some "zz") none (fun l hl => by cases hl; decide)
    (fun r hr => by cases hr)
  have hreach : Relation.ReflTransGen Handled store0 storeAB :=
    Relation.ReflTransGen.tail
      (Relation.ReflTransGen.tail Relation.ReflTransGen.refl
        (Handled.createColumn store0 (ccReq "A" none none "") "b1" "A" 1))
      (Handled.createColumn _ (ccReq "B" none (some "A") "") "b1" "B" 2)
  ⟨⟨h.1, h.2.1⟩, hreach, (generated_keys_closed.2 store0 storeAB rfl rfl hreach).1⟩

/-! ### The lock regions of the create-card closure -/

/-- The closure is the snapshot followed by the rest on the same store. -/
theorem createCardOp_eq_afterSnapshot (boardID columnID : String) (req : CreateCardReq)
    (title id : String) (now : Nat) (s : Store) :
    createCardOp boardID columnID req title id now s =
      createCardAfterSnapshot (listCardsSorted s boardID columnID) boardID columnID req title
        id now s := rfl

/-- A call that runs its two lock regions with nothing in between is the closure. -/
theorem cardCall_alone (c : CardCall) (s : Store) :
    let res := createCardOp c.boardID c.columnID c.req c.title c.id c.now s
    c.step (c.step .start s).1 (c.step .start s).2 = (.returned res.2.1 res.2.2.1, res.1) :=
  rfl

/-- C21, evaluated on the code.  Column `A` of board `b1` has no cards; two create-card
closures for the end of the column run on the shared store.  When each call runs both of
its lock regions before the other starts, the cards get the keys `h` and `q`.  When both
calls take their snapshot before either inserts, both return 201 and both cards are
stored in column `A` with the key `h`: the snapshot and the insert are two lock regions,
not one critical section. -/
theorem concurrent_create_card_collides :
    listCardsSorted storeA "b1" "A" = [] ∧
    (let st := interleave (endCall "X" "X" 2) (endCall "Y" "Y" 3) [true, true, false, false]
        (.start, .start, storeA)
     (listCardsSorted st.2.2 "b1" "A").map (fun c => (c.ID, c.SortKey)) =
        [("X", "h"), ("Y", "q")]) ∧
    (let st := interleave (endCall "X" "X" 2) (endCall "Y" "Y" 3) [true, false, true, false]
        (.start, .start, storeA)
     (∃ a b, st.1 = .returned 201 (.card a) ∧ st.2.1 = .returned 201 (.card b) ∧
        a.ID = "X" ∧ b.ID = "Y" ∧ a.SortKey = "h" ∧ b.SortKey = "h") ∧
     (listCardsSorted st.2.2 "b1" "A").map (fun c => (c.ID, c.SortKey)) =
        [("X", "h"), ("Y", "h")]) := by
  refine ⟨by decide, by decide, ⟨_, _, rfl, rfl, ?_⟩, by decide⟩
  decide

/-! ### The bounds at the call sites of `lexoMid` -/

/-- With both bounds present, the left bound is the key of the first listed sibling with
the insertAfter id and the right bound the key of the first listed sibling with the
insertBefore id. -/
theorem insertBounds_both {T : Type} (ID key : T → String) (sibs : List T)
    (beforeID afterID : Option String) (l r : String)
    (h : insertBounds ID key sibs beforeID afterID = .ok (some l, some r)) :
    ∃ a b x y, afterID = some a ∧ beforeID = some b ∧
      sibs.find? (fun c => decide (ID c = a)) = some x ∧
      sibs.find? (fun c => decide (ID c = b)) = some y ∧ l = key x ∧ r = key y := by
  unfold insertBounds at h
  split at h
  · simp at h
  · unfold anchorsToKeys idToKey at h
    cases beforeID with
    | none =>
      cases afterID with
      | none => cases h
      | some a =>
        cases hfa : sibs.find? (fun c => decide (ID c = a)) with
        | none => simp [hfa] at h
        | some x => simp [hfa] at h
    | some b =>
      cases hfb : sibs.find? (fun c => decide (ID c = b)) with
      | none => simp [hfb] at h
      | some y =>
        cases afterID with
        | none => simp [hfb] at h
        | some a =>
          cases hfa : sibs.find? (fun c => decide (ID c = a)) with
          | none => simp [hfb, hfa] at h
          | some x =>
            simp [hfb, hfa] at h
            exact ⟨a, b, x, y, rfl, rfl, hfa, hfb, h.1.symm, h.2.symm⟩

/-- In a listing whose keys never descend, a sibling listed before another has a key
that is not above the other key, and below it when the two keys differ. -/
theorem ordered_of_listed {T : Type} (key : T → String) (sibs : List T)
    (hs : sibs.Pairwise (fun a b => strLess (key b) (key a) = false)) (x y : T)
    (pre mid post : List T) (h : sibs = pre ++ x :: (mid ++ y :: post)) :
    strLess (key y) (key x) = false ∧ (key x ≠ key y → strLess (key x) (key y) = true) := by
  subst h
  have h1 := (List.pairwise_append.mp hs).2.1
  have h2 : strLess (key y) (key x) = false :=
    (List.pairwise_cons.mp h1).1 y (by simp)
  refine ⟨h2, fun hne => ?_⟩
  rw [strLess_iff_lt]
  have h3 : ¬ (key y).data < (key x).data := by
    rw [← strLess_iff_lt, h2]
    simp
  have h4 : (key x).data ≠ (key y).data := fun e => hne (String.ext e)
  exact lt_of_le_of_ne (not_lt.mp h3) h4

/-- The keys of the column listing never descend. -/
theorem listColumnsSorted_ascend (s : Store) (boardID : String) :
    (listColumnsSorted s boardID).Pairwise
      (fun a b => strLess b.SortKey a.SortKey = false) := by
  have hs := sortSlice_sorted colLess
    (fun c : ColumnRec => toLex (c.SortKey.data, toLex (c.CreatedAt, c.ID.data)))
    colLess_iff ((s.columns.map Prod.snd).filter (fun c => decide (c.BoardID = boardID)))
  refine List.Pairwise.imp ?_ hs
  intro a b hab
  rw [Prod.Lex.le_iff] at hab
  cases hlt : strLess b.SortKey a.SortKey with
  | false => rfl
  | true =>
    rw [strLess_iff_lt] at hlt
    rcases hab with h1 | ⟨h1, _⟩
    · exact absurd (lt_trans h1 hlt) (lt_irrefl _)
    · simp only [] at h1
      rw [h1] at hlt
      exact absurd hlt (lt_irrefl _)

/-- The keys of the card listing never descend. -/
theorem listCardsSorted_ascend (s : Store) (boardID columnID : String) :
    (listCardsSorted s boardID columnID).Pairwise
      (fun a b => strLess b.SortKey a.SortKey = false) := by
  have hs := sortSlice_sorted cardLess
    (fun c : CardRec => toLex (c.SortKey.data, toLex (c.CreatedAt, c.ID.data)))
    cardLess_iff ((s.cards.map Prod.snd).filter
      (fun c => decide (c.BoardID = boardID ∧ c.ColumnID = columnID)))
  refine List.Pairwise.imp ?_ hs
  intro a b hab
  rw [Prod.Lex.le_iff] at hab
  cases hlt : strLess b.SortKey a.SortKey with
  | false => rfl
  | true =>
    rw [strLess_iff_lt] at hlt
    rcases hab with h1 | ⟨h1, _⟩
    · exact absurd (lt_trans h1 hlt) (lt_irrefl _)
    · simp only [] at h1
      rw [h1] at hlt
      exact absurd hlt (lt_irrefl _)

/-- The bounds resolved from two anchors on a listing whose keys never descend: they are
the keys of the anchored siblings, in order exactly as far as the anchors are. -/
theorem insertBounds_order {T : Type} (ID key : T → String) (sibs : List T)
    (hs : sibs.Pairwise (fun a b => strLess (key b) (key a) = false))
    (beforeID afterID : Option String) (l r : String)
    (h : insertBounds ID key sibs beforeID afterID = .ok (some l, some r)) :
    ∃ x y, x ∈ sibs ∧ y ∈ sibs ∧ afterID = some (ID x) ∧ beforeID = some (ID y) ∧
      l = key x ∧ r = key y ∧
      (∀ pre mid post, sibs = pre ++ x :: (mid ++ y :: post) → key x ≠ key y →
        strLess l r = true) ∧
      (∀ pre mid post, sibs = pre ++ y :: (mid ++ x :: post) → strLess l r = false) ∧
      (afterID = beforeID → strLess l r = false) := by
  obtain ⟨a, b, x, y, ha, hb, hfa, hfb, hl, hr⟩ := insertBounds_both ID key sibs _ _ l r h
  have hxa : ID x = a := by simpa using List.find?_some hfa
  have hyb : ID y = b := by simpa using List.find?_some hfb
  refine ⟨x, y, List.mem_of_find?_eq_some hfa, List.mem_of_find?_eq_some hfb, ?_, ?_, hl, hr,
    ?_, ?_, ?_⟩
  · rw [ha, hxa]
  · rw [hb, hyb]
  · intro pre mid post hsib hne
    rw [hl, hr]
    exact (ordered_of_listed key sibs hs x y pre mid post hsib).2 hne
  · intro pre mid post hsib
    rw [hl, hr]
    exact (ordered_of_listed key sibs hs y x pre mid post hsib).1
  · intro hab
    rw [ha, hb] at hab
    have e : a = b := Option.some.inj hab
    subst e
    rw [hfa] at hfb
    have exy : x = y := Option.some.inj hfb
    subst exy
    rw [hl, hr]
    exact goLess_irrefl _

/-- C22 as stated fails: on the store with the columns `A` (key `h`) and `B` (key `q`),
create-column with insertBefore `A` and insertAfter `B` resolves both anchors, the
bounds passed to `lexoMid` are left `q` and right `h` with `q` not below `h`, the
request is answered 201 and the column is stored with the key `qh`. -/
theorem bounds_out_of_order :
    (listColumnsSorted storeAB "b1").map (fun c => (c.ID, c.SortKey)) =
      [("A", "h"), ("B", "q")] ∧
    insertBounds ColumnRec.ID ColumnRec.SortKey (listColumnsSorted storeAB "b1")
      (some "A") (some "B") = .ok (some "q", some "h") ∧
    strLess "q" "h" = false ∧
    (handleCreateColumn storeAB (ccReq "C" (some "A") (some "B") "") "b1" "C" 3).2.Status
      = 201 ∧
    (mapGet (handleCreateColumn storeAB (ccReq "C" (some "A") (some "B") "") "b1" "C" 3).1.columns
      "C").map ColumnRec.SortKey = some "qh" := by
  refine ⟨by decide, rfl, by decide, by decide, by decide⟩

/-- C22, amended.  Whenever a handler passes two bounds to `lexoMid`, they come from the
sorted snapshot of the siblings (the column listing of the board for create-column and
move-column, the card listing of the column for create-card and move-card): the left
bound is the key of the sibling named by the insertAfter anchor and the right bound the
key of the sibling named by the insertBefore anchor.  The left bound is below the right
bound when the insertAfter sibling is listed before the insertBefore sibling and their
keys differ; it is not below it when the insertBefore sibling is listed first or when
both anchors are the same id. -/
theorem bounds_follow_anchor_order (s : Store) (boardID columnID : String)
    (beforeID afterID : Option String) (l r : String) :
    (insertBounds ColumnRec.ID ColumnRec.SortKey (listColumnsSorted s boardID) beforeID
        afterID = .ok (some l, some r) →
      ∃ x y, x ∈ listColumnsSorted s boardID ∧ y ∈ listColumnsSorted s boardID ∧
        afterID = some x.ID ∧ beforeID = some y.ID ∧ l = x.SortKey ∧ r = y.SortKey ∧
        (∀ pre mid post, listColumnsSorted s boardID = pre ++ x :: (mid ++ y :: post) →
          x.SortKey ≠ y.SortKey → strLess l r = true) ∧
        (∀ pre mid post, listColumnsSorted s boardID = pre ++ y :: (mid ++ x :: post) →
          strLess l r = false) ∧
        (afterID = beforeID → strLess l r = false)) ∧
    (insertBounds CardRec.ID CardRec.SortKey (listCardsSorted s boardID columnID) beforeID
        afterID = .ok (some l, some r) →
      ∃ x y, x ∈ listCardsSorted s boardID columnID ∧ y ∈ listCardsSorted s boardID columnID ∧
        afterID = some x.ID ∧ beforeID = some y.ID ∧ l = x.SortKey ∧ r = y.SortKey ∧
        (∀ pre mid post, listCardsSorted s boardID columnID = pre ++ x :: (mid ++ y :: post) →
          x.SortKey ≠ y.SortKey → strLess l r = true) ∧
        (∀ pre mid post, listCardsSorted s boardID columnID = pre ++ y :: (mid ++ x :: post) →
          strLess l r = false) ∧
        (afterID = beforeID → strLess l r = false)) :=
  ⟨insertBounds_order ColumnRec.ID ColumnRec.SortKey _ (listColumnsSorted_ascend s boardID)
      beforeID afterID l r,
    insertBounds_order CardRec.ID CardRec.SortKey _ (listCardsSorted_ascend s boardID columnID)
      beforeID afterID l r⟩

theorem bounds_follow_anchor_order_witness :
    insertBounds ColumnRec.ID ColumnRec.SortKey (listColumnsSorted storeAB "b1") (some "B")
      (some "A") = .ok (some "h", some "q") ∧
    ∃ x y, x ∈ listColumnsSorted storeAB "b1" ∧ y ∈ listColumnsSorted storeAB "b1" ∧
      some "A" = some x.ID ∧ some "B" = some y.ID ∧ "h" = x.SortKey ∧ "q" = y.SortKey ∧
      (∀ pre mid post, listColumnsSorted storeAB "b1" = pre ++ x :: (mid ++ y :: post) →
        x.SortKey ≠ y.SortKey → strLess "h" "q" = true) ∧
      (∀ pre mid post, listColumnsSorted storeAB "b1" = pre ++ y :: (mid ++ x :: post) →
        strLess "h" "q" = false) ∧
      (some "A" = some "B" → strLess "h" "q" = false) :=
  ⟨rfl, (bounds_follow_anchor_order storeAB "b1" "" (some "B") (some "A") "h" "q").1 rfl⟩

end TodoService
